import Mathlib

/-!
# Verification of the PennyLane state-preparation templates and mitigation transform

Shallow embedding of the repository's state-preparation templates
(`MottonenStatePreparation`, `BasisStatePreparation`, `ArbitraryStatePreparation`
and their helpers `gray_code`, `_get_alpha_y`, `_get_alpha_z`,
`_state_preparation_pauli_words`) and of `pennylane/transforms/mitigation.py`.

The template implementations themselves are not part of the sources; only
their unit tests (`tests/templates/test_state_preparations.py`) are.  Their
embeddings below are therefore modelled from the specification, with the
in-repo tests fixing the concrete behaviour wherever the specification is
ambiguous.  `mitigation.py` is embedded directly from its source.
-/

namespace PennyLane

/-- Modelled from the spec: `gray_code(rank)` (module
`pennylane.templates.state_preparations.mottonen`, implementation absent from
the sources).  "ordered sequence of rank-bit binary strings, length 2^rank,
produced by the standard reflect-and-prefix construction: rank 0 → [""],
rank r built by taking rank (r-1)'s sequence, prefixing "0", then appending
the reverse of that sequence prefixed with "1"." -/
def gray_code : Nat → List String
  | 0 => [""]
  | r + 1 =>
    (gray_code r).map (fun s => "0" ++ s) ++ ((gray_code r).map (fun s => "1" ++ s)).reverse

/-- Number of positions at which two character lists differ (the lists are
compared position by position; positions past the shorter list's end do not
count). -/
def diffCount : List Char → List Char → Nat
  | [], _ => 0
  | _, [] => 0
  | a :: as, b :: bs => (if a = b then 0 else 1) + diffCount as bs

/-- Two binary strings differ in exactly one bit: same length and exactly one
differing position. -/
def oneBitDiff (s t : String) : Prop :=
  s.data.length = t.data.length ∧ diffCount s.data t.data = 1

instance (s t : String) : Decidable (oneBitDiff s t) := by
  unfold oneBitDiff; infer_instance

lemma String.ext_of_data {s t : String} (h : s.data = t.data) : s = t := by
  cases s; cases t; simp_all

lemma zero_prefix_data (s : String) : ("0" ++ s).data = '0' :: s.data := rfl

lemma one_prefix_data (s : String) : ("1" ++ s).data = '1' :: s.data := rfl

lemma diffCount_self (l : List Char) : diffCount l l = 0 := by
  induction l with
  | nil => rfl
  | cons a as ih => simp [diffCount, ih]

lemma zero_prefix_inj : Function.Injective (fun s : String => "0" ++ s) := by
  intro a b h
  have h2 : '0' :: a.data = '0' :: b.data := congrArg String.data h
  exact String.ext_of_data (List.cons_injective h2)

lemma one_prefix_inj : Function.Injective (fun s : String => "1" ++ s) := by
  intro a b h
  have h2 : '1' :: a.data = '1' :: b.data := congrArg String.data h
  exact String.ext_of_data (List.cons_injective h2)

lemma oneBitDiff_zero_zero (s t : String) :
    oneBitDiff ("0" ++ s) ("0" ++ t) ↔ oneBitDiff s t := by
  unfold oneBitDiff
  rw [zero_prefix_data, zero_prefix_data]
  simp [diffCount]

lemma oneBitDiff_one_one (s t : String) :
    oneBitDiff ("1" ++ s) ("1" ++ t) ↔ oneBitDiff s t := by
  unfold oneBitDiff
  rw [one_prefix_data, one_prefix_data]
  simp [diffCount]

lemma oneBitDiff_zero_one (s : String) : oneBitDiff ("0" ++ s) ("1" ++ s) := by
  unfold oneBitDiff
  rw [zero_prefix_data, one_prefix_data]
  simp [diffCount, diffCount_self]

lemma oneBitDiff_one_zero (s : String) : oneBitDiff ("1" ++ s) ("0" ++ s) := by
  unfold oneBitDiff
  rw [zero_prefix_data, one_prefix_data]
  simp [diffCount, diffCount_self]

lemma diffCount_comm (a b : List Char) : diffCount a b = diffCount b a := by
  induction a generalizing b with
  | nil => cases b <;> rfl
  | cons x xs ih =>
    cases b with
    | nil => rfl
    | cons y ys =>
      simp only [diffCount, ih]
      by_cases h : x = y
      · simp [h]
      · rw [if_neg h, if_neg (fun hh => h hh.symm)]

lemma oneBitDiff_symm {s t : String} (h : oneBitDiff s t) : oneBitDiff t s :=
  ⟨h.1.symm, by rw [diffCount_comm]; exact h.2⟩

lemma length_gray_code (r : Nat) : (gray_code r).length = 2 ^ r := by
  induction r with
  | zero => rfl
  | succ r ih => rw [pow_succ]; simp [gray_code, ih]; omega

lemma gray_code_ne_nil (r : Nat) : gray_code r ≠ [] := by
  intro hnil
  have h := length_gray_code r
  rw [hnil] at h
  have hpos : (0:ℕ) < 2 ^ r := Nat.pos_pow_of_pos r (by norm_num)
  simp at h
  omega

lemma mem_gray_code_length (r : Nat) : ∀ s ∈ gray_code r, s.data.length = r := by
  induction r with
  | zero =>
    intro s hs
    simp [gray_code] at hs
    subst hs
    rfl
  | succ r ih =>
    intro s hs
    simp only [gray_code, List.mem_append, List.mem_reverse, List.mem_map] at hs
    rcases hs with ⟨t, ht, rfl⟩ | ⟨t, ht, rfl⟩
    · rw [zero_prefix_data]; simp [ih t ht]
    · rw [one_prefix_data]; simp [ih t ht]

lemma nodup_gray_code (r : Nat) : (gray_code r).Nodup := by
  induction r with
  | zero => simp [gray_code]
  | succ r ih =>
    rw [gray_code, List.nodup_append]
    refine ⟨ih.map zero_prefix_inj, List.nodup_reverse.mpr (ih.map one_prefix_inj), ?_⟩
    intro x hx hx'
    simp only [List.mem_map] at hx
    simp only [List.mem_reverse, List.mem_map] at hx'
    obtain ⟨a, _, rfl⟩ := hx
    obtain ⟨b, _, heq⟩ := hx'
    have h2 : '1' :: b.data = '0' :: a.data := congrArg String.data heq
    simp at h2

lemma chain'_gray_code (r : Nat) : List.Chain' oneBitDiff (gray_code r) := by
  induction r with
  | zero => simp [gray_code]
  | succ r ih =>
    rw [gray_code, List.chain'_append]
    refine ⟨?_, ?_, ?_⟩
    · rw [List.chain'_map]
      exact ih.imp fun a b h => (oneBitDiff_zero_zero a b).mpr h
    · rw [List.chain'_reverse, List.chain'_map]
      exact ih.imp fun a b h => oneBitDiff_symm ((oneBitDiff_one_one a b).mpr h)
    · intro x hx y hy
      rw [List.getLast?_map] at hx
      rw [List.head?_reverse, List.getLast?_map] at hy
      cases hL : (gray_code r).getLast? with
      | none => rw [hL] at hx; simp at hx
      | some L =>
        rw [hL] at hx hy
        simp only [Option.map_some', Option.mem_some_iff] at hx hy
        subst hx
        subst hy
        exact oneBitDiff_zero_one L

lemma gray_code_cyclic (r : Nat) (hr : 1 ≤ r) :
    ∀ a ∈ (gray_code r).getLast?, ∀ b ∈ (gray_code r).head?, oneBitDiff a b := by
  obtain ⟨r, rfl⟩ : ∃ s, r = s + 1 := ⟨r - 1, by omega⟩
  intro a ha b hb
  have hne := gray_code_ne_nil r
  have hBne : ((gray_code r).map (fun s => "1" ++ s)).reverse ≠ [] := by
    simp [hne]
  have hAne : (gray_code r).map (fun s => "0" ++ s) ≠ [] := by
    simp [hne]
  rw [gray_code, List.getLast?_append_of_ne_nil _ hBne, List.getLast?_reverse,
    List.head?_map] at ha
  rw [gray_code, List.head?_append_of_ne_nil _ hAne, List.head?_map] at hb
  cases hH : (gray_code r).head? with
  | none => rw [hH] at ha; simp at ha
  | some H =>
    rw [hH] at ha hb
    simp only [Option.map_some', Option.mem_some_iff] at ha hb
    subst ha
    subst hb
    exact oneBitDiff_one_zero H

/-- All the universally quantified parts of the Gray code contract: `gray_code r`
has length `2^r`, its entries are pairwise distinct `r`-bit strings, consecutive
entries differ in exactly one bit, and so do the last and the first entry. -/
def GrayCodeOK (r : Nat) : Prop :=
  (gray_code r).length = 2 ^ r ∧ (gray_code r).Nodup ∧
    (∀ s ∈ gray_code r, s.data.length = r) ∧
    List.Chain' oneBitDiff (gray_code r) ∧
    (∀ a ∈ (gray_code r).getLast?, ∀ b ∈ (gray_code r).head?, oneBitDiff a b)

/-- C3: for every rank `r ≥ 1`, `gray_code r` returns a sequence of exactly
`2^r` distinct `r`-bit binary strings in which each consecutive pair, including
the cyclic pair of last and first entry, differs in exactly one bit; in
particular `gray_code 2 = ["00", "01", "11", "10"]` and `gray_code 3` is the
standard 8-entry reflected code. -/
theorem gray_code_contract (r : Nat) (hr : 1 ≤ r) :
    GrayCodeOK r ∧
      gray_code 2 = ["00", "01", "11", "10"] ∧
      gray_code 3 = ["000", "001", "011", "010", "110", "111", "101", "100"] :=
  ⟨⟨length_gray_code r, nodup_gray_code r, mem_gray_code_length r, chain'_gray_code r,
      gray_code_cyclic r hr⟩,
    by decide, by decide⟩

/-- Witness for C3 at rank 2. -/
theorem gray_code_contract_witness :
    (1 ≤ 2) ∧
      (GrayCodeOK 2 ∧
        gray_code 2 = ["00", "01", "11", "10"] ∧
        gray_code 3 = ["000", "001", "011", "010", "110", "111", "101", "100"]) :=
  ⟨by decide, gray_code_contract 2 (by decide)⟩

/-! ## Data model: gates, tensors, validation errors -/

/-- Rotation axis of a single-qubit rotation gate (`qml.RY` / `qml.RZ`). -/
inductive Axis
  | Y
  | Z
  deriving DecidableEq, Repr

/-- Gate records emitted by the preparers, mirroring the operations the
templates queue: `qml.PauliX`, `qml.RY`/`qml.RZ`, `qml.CNOT`, `qml.PauliRot`. -/
inductive Gate
  | PauliX (wire : Nat)
  | Rot (axis : Axis) (angle : ℝ) (wire : Nat)
  | CNOT (control target : Nat)
  | PauliRot (angle : ℝ) (word : String) (wires : List Nat)

/-- A minimal model of a numpy-style array input: its shape together with its
flat data.  The templates inspect the shape for validation (dimensionality and
length checks) before touching the data. -/
structure Tensor (α : Type) where
  shape : List Nat
  data : List α

/-- A one-dimensional tensor built from a plain Python list. -/
def vec {α : Type} (l : List α) : Tensor α :=
  ⟨[l.length], l⟩

/-- The `ValueError` classes the preparers raise during input validation. -/
inductive PrepError
  | notOneDimensional
  | wrongLength
  | badBasisValue
  | notNormalized
  | wrongWeightShape
  deriving DecidableEq, Repr

/-- The gate sequence actually queued by a preparer run: validation happens
eagerly before any gate is queued, so a run that raises leaves the queue
empty. -/
def emitted (r : Except PrepError (List Gate)) : List Gate :=
  match r with
  | .ok gates => gates
  | .error _ => []

/-! ## Basis-state preparer -/

/-- Modelled from the spec: `BasisStatePreparation(basis_state, wires)`
(module `pennylane.templates.state_preparations.basis`, implementation absent
from the sources).  Validates that the basis state is one-dimensional, has one
entry per wire and only contains 0/1 entries (in the order fixed by the in-repo
test `test_exception_wrong_dim`), then queues one `qml.PauliX` per wire whose
bit is 1, following wire order. -/
def BasisStatePreparation (basis_state : Tensor ℤ) (wires : List Nat) :
    Except PrepError (List Gate) :=
  if basis_state.shape.length ≠ 1 then .error .notOneDimensional
  else if basis_state.data.length ≠ wires.length then .error .wrongLength
  else if ¬ basis_state.data.all (fun b => b == 0 || b == 1) then .error .badBasisValue
  else .ok (((wires.zip basis_state.data).filter (fun p => p.2 == 1)).map
      (fun p => Gate.PauliX p.1))

/-- Number of 1 bits in a basis-state bit vector. -/
def popcount (bits : List ℤ) : Nat :=
  (bits.filter (fun b => b == 1)).length

lemma length_filter_zip_snd (wires : List Nat) (bits : List ℤ)
    (h : bits.length = wires.length) :
    ((wires.zip bits).filter (fun p => p.2 == 1)).length =
      (bits.filter (fun b => b == 1)).length := by
  induction wires generalizing bits with
  | nil =>
    cases bits with
    | nil => rfl
    | cons b bs => simp at h
  | cons w ws ih =>
    cases bits with
    | nil => simp at h
    | cons b bs =>
      simp only [List.length_cons, Nat.succ.injEq] at h
      by_cases hb : b = 1
      · subst hb
        simp [List.zip_cons_cons, List.filter_cons, ih bs h]
      · have hb' : (b == 1) = false := by simp [hb]
        simp [List.zip_cons_cons, List.filter_cons, hb', ih bs h]

/-- The bit-flip behaviour required of the basis-state preparer on a valid bit
vector: the run succeeds and emits exactly the `PauliX` gates on the wires
whose bit is 1, in wire order (the wires acted on form a sublist of `wires`),
with exactly `popcount bits` gates in total. -/
def BasisPrepOK (bits : List ℤ) (wires : List Nat) : Prop :=
  ∃ ws : List Nat,
    BasisStatePreparation (vec bits) wires = .ok (ws.map Gate.PauliX) ∧
      ws.length = popcount bits ∧
      (∀ w, w ∈ ws ↔ (w, (1 : ℤ)) ∈ wires.zip bits) ∧
      ws.Sublist wires

/-- C6: for every 0/1 bit vector with one entry per wire, the basis-state
preparer emits exactly `popcount bits` `PauliX` gates — one on each wire whose
bit is 1, none elsewhere — following wire order; in particular `[1, 0, 1]` on
wires `[0, 1, 2]` emits bit-flips on wires 0 and 2 only. -/
theorem BasisStatePreparation_contract (bits : List ℤ) (wires : List Nat)
    (hlen : bits.length = wires.length) (hval : ∀ b ∈ bits, b = 0 ∨ b = 1) :
    BasisPrepOK bits wires ∧
      BasisStatePreparation (vec [1, 0, 1]) [0, 1, 2] =
        .ok [Gate.PauliX 0, Gate.PauliX 2] := by
  constructor
  · refine ⟨((wires.zip bits).filter (fun p => p.2 == 1)).map Prod.fst, ?_, ?_, ?_, ?_⟩
    · have hall : bits.all (fun b => b == 0 || b == 1) = true := by
        rw [List.all_eq_true]
        intro b hb
        rcases hval b hb with h | h <;> simp [h]
      rw [BasisStatePreparation]
      simp only [vec, hlen, hall]
      rw [if_neg (by simp), if_neg (by simp), if_neg (by simp)]
      rw [List.map_map]
      rfl
    · rw [List.length_map, length_filter_zip_snd wires bits hlen]
      rfl
    · intro w
      simp only [List.mem_map, List.mem_filter]
      constructor
      · rintro ⟨⟨w', b⟩, ⟨hmem, hb⟩, rfl⟩
        simp only [beq_iff_eq] at hb
        subst hb
        exact hmem
      · intro hmem
        exact ⟨(w, 1), ⟨hmem, by simp⟩, rfl⟩
    · have h1 : ((wires.zip bits).filter (fun p => p.2 == 1)).map Prod.fst |>.Sublist
          ((wires.zip bits).map Prod.fst) :=
        List.Sublist.map Prod.fst (List.filter_sublist _)
      rwa [List.map_fst_zip wires bits (le_of_eq hlen.symm)] at h1
  · rfl

/-- Witness for C6 at bit vector `[1, 0, 1]` on wires `[0, 1, 2]`. -/
theorem BasisStatePreparation_contract_witness :
    ([(1 : ℤ), 0, 1].length = [0, 1, 2].length ∧
        ∀ b ∈ [(1 : ℤ), 0, 1], b = 0 ∨ b = 1) ∧
      (BasisPrepOK [1, 0, 1] [0, 1, 2] ∧
        BasisStatePreparation (vec [1, 0, 1]) [0, 1, 2] =
          .ok [Gate.PauliX 0, Gate.PauliX 2]) :=
  ⟨⟨by decide, by decide⟩,
    BasisStatePreparation_contract [1, 0, 1] [0, 1, 2] (by decide) (by decide)⟩

/-! ## Parametrized ansatz preparer -/

/-- The identity Pauli word of length `n`. -/
def iRep (n : Nat) : String :=
  String.mk (List.replicate n 'I')

/-- Modelled from the spec: `_state_preparation_pauli_words(num_wires)` (module
`pennylane.templates.state_preparations.arbitrary_state_preparation`,
implementation absent from the sources).  Fixed deterministic enumeration of
the Pauli words over {I, X, Y} used by `ArbitraryStatePreparation`; the
generative rule extends the `(m-1)`-wire list by prefixing `I` and `X`, after
the two fresh single-wire words, and reproduces the literal 1-, 2- and 3-wire
sequences of the in-repo test `test_state_preparation_pauli_words`. -/
def _state_preparation_pauli_words : Nat → List String
  | 0 => []
  | n + 1 =>
    ["X" ++ iRep n, "Y" ++ iRep n] ++
      (_state_preparation_pauli_words n).map (fun w => "I" ++ w) ++
      (_state_preparation_pauli_words n).map (fun w => "X" ++ w)

/-- The single-wire Pauli words over `n` wires, X then Y on each wire in
turn. -/
def singleWireWords : Nat → List String
  | 0 => []
  | n + 1 =>
    ["X" ++ iRep n, "Y" ++ iRep n] ++ (singleWireWords n).map (fun w => "I" ++ w)

/-- Modelled from the spec: `ArbitraryStatePreparation(weights, wires)` (module
`pennylane.templates.state_preparations.arbitrary_state_preparation`,
implementation absent from the sources).  Requires the weights tensor to have
shape `(2 * (2^n - 1),)` for `n` wires (else a shape `ValueError`), then queues
one `qml.PauliRot(weight, pauli_word, wires)` per enumerated Pauli word, in
enumeration order, the i-th weight with the i-th word, on the full wire
sequence. -/
def ArbitraryStatePreparation (weights : Tensor ℝ) (wires : List Nat) :
    Except PrepError (List Gate) :=
  if weights.shape ≠ [2 * (2 ^ wires.length - 1)] then .error .wrongWeightShape
  else .ok (List.zipWith (fun x p => Gate.PauliRot x p wires) weights.data
      (_state_preparation_pauli_words wires.length))

lemma length_pauli_words (n : Nat) :
    (_state_preparation_pauli_words n).length = 2 * (2 ^ n - 1) := by
  induction n with
  | zero => rfl
  | succ n ih =>
    have h : (1:ℕ) ≤ 2 ^ n := Nat.one_le_two_pow
    simp [_state_preparation_pauli_words, ih, pow_succ]
    omega

lemma take_pauli_words (n : Nat) :
    (_state_preparation_pauli_words n).take (2 * n) = singleWireWords n := by
  induction n with
  | zero => rfl
  | succ n ih =>
    have hn : n < 2 ^ n := Nat.lt_two_pow n
    have hle : 2 * n ≤ ((_state_preparation_pauli_words n).map
        (fun w => "I" ++ w)).length := by
      rw [List.length_map, length_pauli_words]
      omega
    rw [_state_preparation_pauli_words, singleWireWords]
    have h2 : 2 * (n + 1) = (2 * n) + 2 := by ring
    rw [h2]
    simp only [List.cons_append, List.nil_append, List.take_succ_cons,
      List.append_assoc]
    rw [List.take_append_of_le_length hle, ← List.map_take, ih]

/-- The contract of the parametrized ansatz preparer for a given flat weight
vector `w` and wire sequence: success with one `PauliRot` per Pauli word (the
i-th weight with the i-th word, on the full wire sequence), a shape error on
any tensor of the wrong shape, the literal 1-, 2- and 3-wire word sequences,
and the enumeration beginning with the single-wire words X then Y on each wire
in turn. -/
def ArbitraryPrepOK (w : List ℝ) (wires : List Nat) : Prop :=
  ArbitraryStatePreparation (vec w) wires =
      .ok (List.zipWith (fun x p => Gate.PauliRot x p wires) w
        (_state_preparation_pauli_words wires.length)) ∧
    (_state_preparation_pauli_words wires.length).length = w.length ∧
    (∀ w' : Tensor ℝ, w'.shape ≠ [2 * (2 ^ wires.length - 1)] →
      ArbitraryStatePreparation w' wires = .error .wrongWeightShape) ∧
    _state_preparation_pauli_words 1 = ["X", "Y"] ∧
    _state_preparation_pauli_words 2 = ["XI", "YI", "IX", "IY", "XX", "XY"] ∧
    _state_preparation_pauli_words 3 =
      ["XII", "YII", "IXI", "IYI", "IIX", "IIY", "IXX", "IXY",
        "XXI", "XYI", "XIX", "XIY", "XXX", "XXY"] ∧
    (∀ n, (_state_preparation_pauli_words n).take (2 * n) = singleWireWords n)

/-- C7: `ArbitraryStatePreparation` requires `len(weights) = 2*(2^n - 1)` for
`n` wires (else a shape error); its Pauli-word enumeration is the fixed
deterministic order beginning with the single-wire words X then Y on each wire
in turn, with the literal sequences for 1, 2 and 3 wires; the i-th weight
parametrizes the Pauli rotation with the i-th word on the full wire
sequence. -/
theorem ArbitraryStatePreparation_contract (w : List ℝ) (wires : List Nat)
    (hlen : w.length = 2 * (2 ^ wires.length - 1)) :
    ArbitraryPrepOK w wires := by
  refine ⟨?_, ?_, ?_, by decide, by decide, by decide, take_pauli_words⟩
  · simp [ArbitraryStatePreparation, vec, hlen]
  · rw [length_pauli_words, hlen]
  · intro w' hw'
    simp [ArbitraryStatePreparation, hw']

/-- Witness for C7 with the single-wire weights `[0, 1]` of the in-repo test
`test_correct_gates_single_wire`. -/
theorem ArbitraryStatePreparation_contract_witness :
    [(0 : ℝ), 1].length = 2 * (2 ^ [0].length - 1) ∧ ArbitraryPrepOK [0, 1] [0] :=
  ⟨by decide, ArbitraryStatePreparation_contract [0, 1] [0] (by decide)⟩

/-! ## Mottonen state preparation -/

/-- Number of 1 bits in the binary expansion of `x`. -/
def popCountNat (x : Nat) : Nat :=
  (Nat.digits 2 x).sum

/-- The integer whose binary expansion the Gray-code string denotes
(`int(code, 2)` in the source's control-index computation). -/
def natOfBits (s : String) : Nat :=
  s.data.foldl (fun acc c => 2 * acc + (if c = '1' then 1 else 0)) 0

/-- Modelled from the spec: the control-wire index selected between two
consecutive Gray-code entries — "the control wire for step i is the
control_wires entry at the bit position where Gray-code entries i and i+1
first differ" (consecutive entries differ in exactly one bit, recovered here
as the log2 of the xor of their values). -/
def ctrlIndex (s t : String) : Nat :=
  Nat.log2 (natOfBits s ^^^ natOfBits t)

/-- The standard Gray-code reindexing `g(c) = c xor (c >> 1)` of a column
index. -/
def grayIdx (c : Nat) : Nat :=
  c ^^^ (c >>> 1)

/-- Modelled from the spec: entry of the size-`2^k` "Walsh-Hadamard-like"
basis-transform matrix of the multiplexed-rotation compiler (§4.3), which
converts pattern-indexed angles into cascade-position-indexed angles
(the character matrix `(-1)^(row · gray(col))` of the Mottonen construction;
the spec names the matrix but not its entries). -/
noncomputable def _matrix_M_entry (row col : Nat) : ℝ :=
  (-1 : ℝ) ^ popCountNat (row &&& grayIdx col)

/-- Modelled from the spec: `compute_theta(alpha)` — multiplication of the
pattern-indexed angle vector by the inverse transform matrix, the transpose of
the character matrix divided by its size (the orientation under which the
Gray-code cascade reproduces the multiplexed rotation exactly). -/
noncomputable def compute_theta (alpha : List ℝ) : List ℝ :=
  (List.range alpha.length).map fun i =>
    (((List.range alpha.length).map fun j =>
      _matrix_M_entry j i * alpha.getD j 0).sum) / alpha.length

/-- Modelled from the spec: `compile_multiplexed_rotation` /
`_uniform_rotation_dagger(gate, alpha, control_wires, target_wire)` (§4.3,
implementation absent from the sources).  Converts the pattern-indexed angles
to cascade-position-indexed angles, then emits, for each cascade step, one
single-qubit rotation on the target wire followed by one CNOT whose control
wire is selected by the position of the differing bit between consecutive
Gray-code entries (cyclically, the last step comparing back to the first
entry); `k = 0` yields a single rotation and no CNOT. -/
noncomputable def _uniform_rotation_dagger (axis : Axis) (alpha : List ℝ)
    (control_wires : List Nat) (target_wire : Nat) : List Gate :=
  let theta := compute_theta alpha
  let k := control_wires.length
  if k = 0 then [Gate.Rot axis (theta.getD 0 0) target_wire]
  else
    let code := gray_code k
    (List.range (2 ^ k)).flatMap fun i =>
      let ci := ctrlIndex (code.getD i "") (code.getD ((i + 1) % 2 ^ k) "")
      [Gate.Rot axis (theta.getD i 0) target_wire,
        Gate.CNOT (control_wires.getD ci 0) target_wire]

/-- Modelled from the spec: `_get_alpha_y(a, n, k)` (module
`pennylane.templates.state_preparations.mottonen`, implementation absent from
the sources).  For each control-bit-pattern `j`, the RY angle
`2*arcsin(sqrt(sum of |amp|² over the pattern's block with target bit 1) /
sqrt(sum of |amp|² over the pattern's whole block))`, with a zero denominator
yielding angle 0. -/
noncomputable def _get_alpha_y (a : List ℂ) (n k : Nat) : List ℝ :=
  (List.range (2 ^ (n - k))).map fun j =>
    let num := ((List.range (2 ^ (k - 1))).map fun l =>
      Complex.normSq (a.getD ((2 * j + 1) * 2 ^ (k - 1) + l) 0)).sum
    let den := ((List.range (2 ^ k)).map fun l =>
      Complex.normSq (a.getD (j * 2 ^ k + l) 0)).sum
    if den = 0 then 0 else 2 * Real.arcsin (Real.sqrt num / Real.sqrt den)

/-- Modelled from the spec: `_get_alpha_z(omega, n, k)` — for each
control-bit-pattern, the difference of the phase angles between the
target-bit-1 and target-bit-0 halves of the block, averaged over the
remaining unconstrained bits (the Mottonen-paper aggregation the spec
describes as "summed appropriately"). -/
noncomputable def _get_alpha_z (ω : List ℝ) (n k : Nat) : List ℝ :=
  (List.range (2 ^ (n - k))).map fun j =>
    (((List.range (2 ^ (k - 1))).map fun l =>
      ω.getD ((2 * j + 1) * 2 ^ (k - 1) + l) 0 -
        ω.getD (2 * j * 2 ^ (k - 1) + l) 0).sum) / 2 ^ (k - 1)

/-- Modelled from the spec: the numerical tolerance of the unit-norm entry
check of `MottonenStatePreparation` (§3: "enforced at entry with a
tolerance"). -/
noncomputable def normAtol : ℝ := 1 / 1000

/-- Modelled from the spec: the gate sequence assembled by the orchestrator
(§4.4) once the input is validated.  One RY multiplexed cascade per target
qubit from most significant to least significant (the target qubit's controls
are the already-fixed higher-significance wires), followed — only when the
input is not all-real — by the corresponding RZ cascades over the phase
vector.  The in-repo test `test_RZ_skipped` fixes the cascades as always
emitted (zero angles do not suppress the CNOT structure), so no whole-cascade
skip is modelled. -/
noncomputable def mottonenGates (data : List ℂ) (wires : List Nat) : List Gate :=
  let n := wires.length
  let ω := data.map Complex.arg
  let ry := (List.range n).flatMap fun t =>
    _uniform_rotation_dagger .Y (_get_alpha_y data n (n - t))
      ((wires.take t).reverse) (wires.getD t 0)
  let rz := (List.range n).flatMap fun t =>
    _uniform_rotation_dagger .Z (_get_alpha_z ω n (n - t))
      ((wires.take t).reverse) (wires.getD t 0)
  if ∀ c ∈ data, c.im = 0 then ry else ry ++ rz

/-- Modelled from the spec: `MottonenStatePreparation(state_vector, wires)`
(module `pennylane.templates.state_preparations.mottonen`, implementation
absent from the sources).  Validates — in the order fixed by the in-repo test
`test_exception_wrong_dim` — that the state vector is one-dimensional, has
`2^n` entries for `n` wires, and has unit norm within tolerance; each failure
raises before any gate is queued.  On success queues the Mottonen gate
sequence. -/
noncomputable def MottonenStatePreparation (state_vector : Tensor ℂ) (wires : List Nat) :
    Except PrepError (List Gate) :=
  if state_vector.shape.length ≠ 1 then .error .notOneDimensional
  else if state_vector.data.length ≠ 2 ^ wires.length then .error .wrongLength
  else if ¬ |((state_vector.data.map Complex.normSq).sum) - 1| ≤ normAtol then
    .error .notNormalized
  else .ok (mottonenGates state_vector.data wires)

/-! ## CNOT counting (C2) -/

/-- Whether a gate record is a CNOT. -/
def isCNOT : Gate → Bool
  | Gate.CNOT _ _ => true
  | _ => false

/-- Number of CNOT gates in a gate sequence (the `get_resources()["CNOT"]`
count of the in-repo test `test_RZ_skipped`). -/
def countCNOT (gates : List Gate) : Nat :=
  gates.countP isCNOT

lemma countP_flatMap {α β : Type} (p : β → Bool) (f : α → List β) (l : List α) :
    ((l.flatMap f).countP p) = (l.map fun a => (f a).countP p).sum := by
  induction l with
  | nil => rfl
  | cons a as ih => simp [List.flatMap_cons, List.countP_append, ih]

lemma countCNOT_uniform (ax : Axis) (alpha : List ℝ) (cw : List Nat) (t : Nat) :
    countCNOT (_uniform_rotation_dagger ax alpha cw t) =
      if cw.length = 0 then 0 else 2 ^ cw.length := by
  unfold countCNOT _uniform_rotation_dagger
  by_cases h : cw.length = 0
  · simp [h, List.countP_cons, isCNOT]
  · rw [if_neg h, if_neg h, countP_flatMap]
    simp [List.countP_cons, isCNOT]

lemma sum_if_pow (n : Nat) :
    ((List.range n).map fun t => if t = 0 then 0 else 2 ^ t).sum = 2 ^ n - 2 := by
  induction n with
  | zero => rfl
  | succ n ih =>
    rw [List.range_succ, List.map_append, List.sum_append]
    rcases Nat.eq_zero_or_pos n with h | h
    · subst h; rfl
    · have h2 : 2 ≤ 2 ^ n := by
        calc 2 = 2 ^ 1 := rfl
        _ ≤ 2 ^ n := Nat.pow_le_pow_right (by norm_num) h
      rw [ih]
      simp only [List.map_cons, List.map_nil, List.sum_cons, List.sum_nil]
      rw [if_neg (by omega), pow_succ]
      omega

lemma countCNOT_cascade_pass (ax : Axis) (f : Nat → List ℝ) (wires : List Nat) :
    countCNOT ((List.range wires.length).flatMap fun t =>
      _uniform_rotation_dagger ax (f t) ((wires.take t).reverse) (wires.getD t 0)) =
      2 ^ wires.length - 2 := by
  unfold countCNOT
  rw [countP_flatMap]
  have hmap : (List.range wires.length).map (fun t =>
      (_uniform_rotation_dagger ax (f t) ((wires.take t).reverse)
        (wires.getD t 0)).countP isCNOT) =
      (List.range wires.length).map fun t => if t = 0 then 0 else 2 ^ t := by
    apply List.map_congr_left
    intro t ht
    rw [List.mem_range] at ht
    have hlen : ((wires.take t).reverse).length = t := by
      rw [List.length_reverse, List.length_take]
      omega
    have := countCNOT_uniform ax (f t) ((wires.take t).reverse) (wires.getD t 0)
    unfold countCNOT at this
    rw [this, hlen]
  rw [hmap, sum_if_pow]

lemma countCNOT_mottonenGates (data : List ℂ) (wires : List Nat) :
    countCNOT (mottonenGates data wires) =
      if ∀ c ∈ data, c.im = 0 then 2 ^ wires.length - 2
      else 2 * (2 ^ wires.length - 2) := by
  unfold mottonenGates
  simp only []
  by_cases h : ∀ c ∈ data, c.im = 0
  · rw [if_pos h, if_pos h]
    exact countCNOT_cascade_pass .Y _ wires
  · rw [if_neg h, if_neg h]
    unfold countCNOT
    rw [List.countP_append]
    have h1 := countCNOT_cascade_pass .Y
      (fun t => _get_alpha_y data wires.length (wires.length - t)) wires
    have h2 := countCNOT_cascade_pass .Z
      (fun t => _get_alpha_z (data.map Complex.arg) wires.length (wires.length - t)) wires
    unfold countCNOT at h1 h2
    rw [h1, h2]
    ring

lemma mottonen_ok (v : List ℂ) (wires : List Nat) (hlen : v.length = 2 ^ wires.length)
    (hnorm : |((v.map Complex.normSq).sum) - 1| ≤ normAtol) :
    MottonenStatePreparation (vec v) wires = .ok (mottonenGates v wires) := by
  unfold MottonenStatePreparation vec
  rw [if_neg (by simp), if_neg (by simp [hlen]), if_neg (by simp [hnorm])]

/-- C2 (amended): for a valid normalized all-real state vector the Mottonen
gate sequence contains exactly `2^n - 2` CNOT gates (the RY cascades only,
the RZ pass being omitted); a non-all-real input adds the RZ cascades,
doubling the count to `2*(2^n - 2)` — strictly more only when `n ≥ 2`. -/
theorem mottonen_CNOT_count (v : List ℂ) (wires : List Nat)
    (_hn : 1 ≤ wires.length) (hlen : v.length = 2 ^ wires.length)
    (hnorm : |((v.map Complex.normSq).sum) - 1| ≤ normAtol) :
    ((∀ c ∈ v, c.im = 0) →
        countCNOT (emitted (MottonenStatePreparation (vec v) wires)) =
          2 ^ wires.length - 2) ∧
      ((¬ ∀ c ∈ v, c.im = 0) →
        countCNOT (emitted (MottonenStatePreparation (vec v) wires)) =
            2 * (2 ^ wires.length - 2) ∧
          (2 ≤ wires.length →
            2 ^ wires.length - 2 <
              countCNOT (emitted (MottonenStatePreparation (vec v) wires)))) := by
  rw [mottonen_ok v wires hlen hnorm]
  have hcount := countCNOT_mottonenGates v wires
  constructor
  · intro h
    rw [if_pos h] at hcount
    simpa [emitted] using hcount
  · intro h
    rw [if_neg h] at hcount
    have hc : countCNOT (emitted (Except.ok (ε := PrepError) (mottonenGates v wires))) =
        2 * (2 ^ wires.length - 2) := by simpa [emitted] using hcount
    refine ⟨hc, fun h2 => ?_⟩
    have h4 : 4 ≤ 2 ^ wires.length := by
      calc (4:ℕ) = 2 ^ 2 := rfl
      _ ≤ 2 ^ wires.length := Nat.pow_le_pow_right (by norm_num) h2
    omega

/-- Witness for the amended C2: the all-real uniform superposition on 2 wires
(first vector of the in-repo test `test_RZ_skipped`) yields exactly
`2^2 - 2 = 2` CNOTs, and the non-real vector `[0, i, 0, 0]` yields
`2*(2^2 - 2) = 4`, strictly more. -/
theorem mottonen_CNOT_count_witness :
    (1 ≤ ([0, 1] : List Nat).length ∧
        ([((1:ℝ)/2 : ℂ), ((1:ℝ)/2 : ℂ), ((1:ℝ)/2 : ℂ), ((1:ℝ)/2 : ℂ)]).length =
          2 ^ ([0, 1] : List Nat).length ∧
        |(([((1:ℝ)/2 : ℂ), ((1:ℝ)/2 : ℂ), ((1:ℝ)/2 : ℂ),
            ((1:ℝ)/2 : ℂ)].map Complex.normSq).sum) - 1| ≤ normAtol) ∧
      ((∀ c ∈ [((1:ℝ)/2 : ℂ), ((1:ℝ)/2 : ℂ), ((1:ℝ)/2 : ℂ), ((1:ℝ)/2 : ℂ)], c.im = 0) →
        countCNOT (emitted (MottonenStatePreparation
          (vec [((1:ℝ)/2 : ℂ), ((1:ℝ)/2 : ℂ), ((1:ℝ)/2 : ℂ), ((1:ℝ)/2 : ℂ)]) [0, 1])) =
          2 ^ ([0, 1] : List Nat).length - 2) := by
  have hnorm : |(([((1:ℝ)/2 : ℂ), ((1:ℝ)/2 : ℂ), ((1:ℝ)/2 : ℂ),
      ((1:ℝ)/2 : ℂ)].map Complex.normSq).sum) - 1| ≤ normAtol := by
    simp only [List.map_cons, List.map_nil, List.sum_cons, List.sum_nil]
    rw [show ((1:ℝ)/2 : ℂ) = (((1:ℝ)/2 : ℝ) : ℂ) by norm_num]
    rw [Complex.normSq_ofReal]
    norm_num [normAtol]
  exact ⟨⟨by norm_num, by norm_num, hnorm⟩,
    (mottonen_CNOT_count _ [0, 1] (by norm_num) (by norm_num) hnorm).1⟩

/-- Counterexample to C2 as stated: on a single wire the non-real normalized
input `[0, i]` produces a gate sequence with `0 = 2^1 - 2` CNOTs — the RZ
cascade on one wire contains no CNOT, so a complex input does not always use
strictly more CNOTs than the `2^n - 2` of the real case. -/
theorem mottonen_CNOT_count_counterexample :
    (¬ ∀ c ∈ [(0 : ℂ), Complex.I], c.im = 0) ∧
      countCNOT (emitted (MottonenStatePreparation (vec [(0 : ℂ), Complex.I]) [0])) =
        2 ^ 1 - 2 ∧
      ¬ (2 ^ 1 - 2 <
        countCNOT (emitted (MottonenStatePreparation (vec [(0 : ℂ), Complex.I]) [0]))) := by
  have hnotreal : ¬ ∀ c ∈ [(0 : ℂ), Complex.I], c.im = 0 := by
    intro h
    have := h Complex.I (by simp)
    simp [Complex.I_im] at this
  have hnorm : |(([(0 : ℂ), Complex.I].map Complex.normSq).sum) - 1| ≤ normAtol := by
    simp [Complex.normSq_I, normAtol]
  have hok := mottonen_ok [(0 : ℂ), Complex.I] [0] (by norm_num) hnorm
  rw [hok]
  have hcount := countCNOT_mottonenGates [(0 : ℂ), Complex.I] [0]
  rw [if_neg hnotreal] at hcount
  simp only [emitted]
  rw [hcount]
  norm_num

/-! ## Input validation (C5) -/

/-- The full validation taxonomy of the preparers: shape/length mismatches,
dimensionality errors and value-domain errors (bad bit values, norm
violations) are all fatal, and an erroring run emits no gate. -/
def ValidationOK : Prop :=
  (∀ (sv : Tensor ℂ) (wires : List Nat), sv.shape.length ≠ 1 →
    MottonenStatePreparation sv wires = .error .notOneDimensional) ∧
  (∀ (sv : Tensor ℂ) (wires : List Nat), sv.shape.length = 1 →
    sv.data.length ≠ 2 ^ wires.length →
    MottonenStatePreparation sv wires = .error .wrongLength) ∧
  (∀ (sv : Tensor ℂ) (wires : List Nat), sv.shape.length = 1 →
    sv.data.length = 2 ^ wires.length →
    ¬ |((sv.data.map Complex.normSq).sum) - 1| ≤ normAtol →
    MottonenStatePreparation sv wires = .error .notNormalized) ∧
  (∀ (b : Tensor ℤ) (wires : List Nat), b.shape.length ≠ 1 →
    BasisStatePreparation b wires = .error .notOneDimensional) ∧
  (∀ (b : Tensor ℤ) (wires : List Nat), b.shape.length = 1 →
    b.data.length ≠ wires.length →
    BasisStatePreparation b wires = .error .wrongLength) ∧
  (∀ (b : Tensor ℤ) (wires : List Nat), b.shape.length = 1 →
    b.data.length = wires.length → (∃ x ∈ b.data, x ≠ 0 ∧ x ≠ 1) →
    BasisStatePreparation b wires = .error .badBasisValue) ∧
  (∀ (w : Tensor ℝ) (wires : List Nat), w.shape ≠ [2 * (2 ^ wires.length - 1)] →
    ArbitraryStatePreparation w wires = .error .wrongWeightShape) ∧
  (∀ r : Except PrepError (List Gate), (∃ e, r = .error e) → emitted r = [])

/-- C5: every invalid input to the preparers raises a fatal validation error
before any gate is emitted (the emitted gate sequence on error is empty):
shape/length mismatches, non-one-dimensional inputs, bit vectors with values
other than 0/1, and non-normalized amplitude vectors; in particular
`[1/2, 1/2]` on one wire raises a normalization error. -/
theorem preparers_validation :
    ValidationOK ∧
      MottonenStatePreparation (vec [(((1:ℝ)/2 : ℝ) : ℂ), (((1:ℝ)/2 : ℝ) : ℂ)]) [0] =
        .error .notNormalized := by
  constructor
  · refine ⟨?_, ?_, ?_, ?_, ?_, ?_, ?_, ?_⟩
    · intro sv wires h
      simp only [MottonenStatePreparation]
      rw [if_pos h]
    · intro sv wires h1 h2
      simp only [MottonenStatePreparation]
      rw [if_neg (by omega), if_pos h2]
    · intro sv wires h1 h2 h3
      simp only [MottonenStatePreparation]
      rw [if_neg (by omega), if_neg (by omega), if_pos h3]
    · intro b wires h
      simp only [BasisStatePreparation]
      rw [if_pos h]
    · intro b wires h1 h2
      simp only [BasisStatePreparation]
      rw [if_neg (by omega), if_pos h2]
    · intro b wires h1 h2 h3
      simp only [BasisStatePreparation]
      rw [if_neg (by omega), if_neg (by omega), if_pos ?_]
      obtain ⟨x, hx, hx0, hx1⟩ := h3
      rw [List.all_eq_true]
      push_neg
      exact ⟨x, hx, by simp [hx0, hx1]⟩
    · intro w wires h
      simp only [ArbitraryStatePreparation]
      rw [if_pos h]
    · rintro r ⟨e, rfl⟩
      rfl
  · simp only [MottonenStatePreparation, vec]
    rw [if_neg (by simp), if_neg (by simp), if_pos ?_]
    simp only [List.map_cons, List.map_nil, List.sum_cons, List.sum_nil,
      Complex.normSq_ofReal]
    rw [normAtol]
    rw [abs_le]
    norm_num

/-! ## Determinism (C8) -/

/-- C8: all preparers are deterministic pure functions of their inputs —
preparing a state and then preparing the same state again from a fresh
all-zero start yields structurally identical gate sequences: two runs on
equal inputs produce equal outputs, for each of the three preparers. -/
theorem preparers_deterministic :
    (∀ (v₁ v₂ : Tensor ℂ) (w₁ w₂ : List Nat), v₁ = v₂ → w₁ = w₂ →
      MottonenStatePreparation v₁ w₁ = MottonenStatePreparation v₂ w₂) ∧
      (∀ (b₁ b₂ : Tensor ℤ) (w₁ w₂ : List Nat), b₁ = b₂ → w₁ = w₂ →
        BasisStatePreparation b₁ w₁ = BasisStatePreparation b₂ w₂) ∧
      (∀ (t₁ t₂ : Tensor ℝ) (w₁ w₂ : List Nat), t₁ = t₂ → w₁ = w₂ →
        ArbitraryStatePreparation t₁ w₁ = ArbitraryStatePreparation t₂ w₂) := by
  refine ⟨?_, ?_, ?_⟩ <;> (intros; subst_vars; rfl)

/-- Witness for C8: two runs of each preparer on one concrete input agree. -/
theorem preparers_deterministic_witness :
    MottonenStatePreparation (vec [(0 : ℂ), Complex.I]) [0] =
        MottonenStatePreparation (vec [(0 : ℂ), Complex.I]) [0] ∧
      BasisStatePreparation (vec [(1 : ℤ), 0, 1]) [0, 1, 2] =
        BasisStatePreparation (vec [(1 : ℤ), 0, 1]) [0, 1, 2] ∧
      ArbitraryStatePreparation (vec [(0 : ℝ), 1]) [0] =
        ArbitraryStatePreparation (vec [(0 : ℝ), 1]) [0] :=
  ⟨preparers_deterministic.1 _ _ _ _ rfl rfl,
    preparers_deterministic.2.1 _ _ _ _ rfl rfl,
    preparers_deterministic.2.2 _ _ _ _ rfl rfl⟩

/-! ## Error mitigation transform (`pennylane/transforms/mitigation.py`)

The mitiq-backed pieces (`_mitigate_tape`'s tape generation and extrapolating
postprocessing function) are external collaborators; they are abstracted as a
parameter `mit` mapping an input tape to its generated mitigation tapes and
its postprocessing function.  The device's raw executor `dev._batch_execute`
is likewise a field of the device model. -/

/-- Opaque model of `qml.tape.QuantumTape`. -/
structure QuantumTape where
  id : Nat
  deriving DecidableEq, Repr

/-- Model of `qml.QubitDevice`: its (replaceable) `execute` and
`batch_execute` entry points and the raw batch executor `_batch_execute` the
mitigated wrappers delegate to.  A tape's execution result is modelled as one
real number. -/
structure QubitDevice where
  execute : QuantumTape → Except String ℝ
  batchExecute : List QuantumTape → Except String (List ℝ)
  batchExecuteRaw : List QuantumTape → List ℝ

/-- `results[indx, indx + shape]` at mitigation.py line 229: Python indexes
the list `results` by the *tuple* `(indx, indx + shape)`, which raises
`TypeError` — it never produces the contiguous block that the slice
`results[indx : indx + shape]` would have produced (the stated result type is
the type the surrounding code expects of the extracted block). -/
def listIndexedByPair {α : Type} (_l : List α) (_i _j : Nat) : Except String (List α) :=
  .error "TypeError: list indices must be integers or slices, not tuple"

/-- The `for func, shape in zip(funcs, shapes)` loop of `batch_execute` in
`_mitigate_device`: extracts each tape's result block with
`results[indx, indx + shape]`, applies the tape's postprocessing function and
advances `indx` by `shape`. -/
def mitigatedLoop (results : List ℝ) :
    List (List ℝ → ℝ) → List Nat → Nat → Except String (List ℝ)
  | [], _, _ => .ok []
  | _ :: _, [], _ => .ok []
  | f :: fs, s :: ss, indx => do
    let r ← listIndexedByPair results indx (indx + s)
    let rest ← mitigatedLoop results fs ss (indx + s)
    .ok (f r :: rest)

/-- `batch_execute` as installed by `_mitigate_device` (mitigation.py
lines 212-233): generates each input tape's mitigation tapes, executes their
concatenation once through the raw device executor, then postprocesses with
`mitigatedLoop`. -/
def batch_execute (mit : QuantumTape → List QuantumTape × (List ℝ → ℝ))
    (devBatch : List QuantumTape → List ℝ) (tapes : List QuantumTape) :
    Except String (List ℝ) :=
  let all_tapes := tapes.flatMap fun t => (mit t).1
  let results := devBatch all_tapes
  mitigatedLoop results (tapes.map fun t => (mit t).2)
    (tapes.map fun t => (mit t).1.length) 0

/-- The behaviour C9 claims of `batch_execute`: each input tape's
postprocessing function applied to exactly its own contiguous block of
results (flat indices `indx` through `indx + shape - 1`), one mitigated
result per input tape in input order. -/
def intendedLoop (results : List ℝ) :
    List (List ℝ → ℝ) → List Nat → Nat → List ℝ
  | [], _, _ => []
  | _ :: _, [], _ => []
  | f :: fs, s :: ss, indx =>
    f ((results.drop indx).take s) :: intendedLoop results fs ss (indx + s)

/-- `execute` as installed by `_mitigate_device` (mitigation.py
lines 207-210). -/
def mitigated_execute (mit : QuantumTape → List QuantumTape × (List ℝ → ℝ))
    (devBatch : List QuantumTape → List ℝ) (tape : QuantumTape) :
    Except String ℝ :=
  .ok ((mit tape).2 (devBatch (mit tape).1))

/-- `_mitigate_device(dev, factory, scale_noise)` (mitigation.py
lines 194-238): returns the device with `execute` and `batch_execute`
replaced by their error-mitigated versions. -/
def _mitigate_device (mit : QuantumTape → List QuantumTape × (List ℝ → ℝ))
    (dev : QubitDevice) : QubitDevice :=
  { dev with
    execute := mitigated_execute mit dev.batchExecuteRaw
    batchExecute := batch_execute mit dev.batchExecuteRaw }

/-- The input dispatched on by `mitigate` (`isinstance` checks on
`QuantumTape` and `QubitDevice`, anything else being invalid). -/
inductive MitigateInput
  | tape (t : QuantumTape)
  | device (d : QubitDevice)
  | other

/-- The two result forms of `mitigate`. -/
inductive MitigateOutput
  | tapePair (tapes : List QuantumTape) (fn : List ℝ → ℝ)
  | device (d : QubitDevice)

/-- `mitigate(input, factory, scale_noise)` (mitigation.py lines 118-149):
a `QuantumTape` yields the pair of mitigation tapes and postprocessing
function, a `QubitDevice` yields the device with mitigated `execute` and
`batch_execute`, and anything else raises `ValueError("Unknown input")`. -/
def mitigate (mit : QuantumTape → List QuantumTape × (List ℝ → ℝ)) :
    MitigateInput → Except String MitigateOutput
  | .tape t => .ok (.tapePair (mit t).1 (mit t).2)
  | .device d => .ok (.device (_mitigate_device mit d))
  | .other => .error "Unknown input"

lemma intendedLoop_length (results : List ℝ) (fs : List (List ℝ → ℝ)) (ss : List Nat)
    (indx : Nat) (h : fs.length = ss.length) :
    (intendedLoop results fs ss indx).length = fs.length := by
  induction fs generalizing ss indx with
  | nil => rfl
  | cons f fs ih =>
    cases ss with
    | nil => simp at h
    | cons s ss =>
      simp only [List.length_cons, Nat.succ.injEq] at h
      simp [intendedLoop, ih ss (indx + s) h]

/-- C9 (code bug): the installed `batch_execute` evaluates
`results[indx, indx + shape]` — a tuple index into the results list, which
raises `TypeError` on any non-empty list of input tapes — instead of the
intended contiguous slice `results[indx : indx + shape]`; the claimed
per-input-tape postprocessing (one mitigated result per input tape, shown via
`intendedLoop`) is never reached. -/
theorem batch_execute_tuple_index_bug
    (mit : QuantumTape → List QuantumTape × (List ℝ → ℝ))
    (devBatch : List QuantumTape → List ℝ) (tapes : List QuantumTape)
    (h : tapes ≠ []) :
    batch_execute mit devBatch tapes =
        .error "TypeError: list indices must be integers or slices, not tuple" ∧
      (intendedLoop (devBatch (tapes.flatMap fun t => (mit t).1))
          (tapes.map fun t => (mit t).2)
          (tapes.map fun t => (mit t).1.length) 0).length = tapes.length := by
  constructor
  · cases tapes with
    | nil => exact absurd rfl h
    | cons t ts =>
      unfold batch_execute
      simp only [List.map_cons]
      rfl
  · rw [intendedLoop_length _ _ _ _ (by simp), List.length_map]

/-- A concrete stand-in for the mitiq-backed tape generator and
postprocessor: one generated tape per input tape, postprocessing to 0. -/
noncomputable def mitSample : QuantumTape → List QuantumTape × (List ℝ → ℝ) :=
  fun t => ([t], fun _ => 0)

/-- A concrete raw device batch executor returning no results. -/
def devBatchSample : List QuantumTape → List ℝ :=
  fun _ => []

/-- Witness for C9 at a single input tape. -/
theorem batch_execute_tuple_index_bug_witness :
    ([⟨0⟩] : List QuantumTape) ≠ [] ∧
      (batch_execute mitSample devBatchSample [⟨0⟩] =
          .error "TypeError: list indices must be integers or slices, not tuple" ∧
        (intendedLoop (devBatchSample (([⟨0⟩] : List QuantumTape).flatMap
            fun t => (mitSample t).1))
          (([⟨0⟩] : List QuantumTape).map fun t => (mitSample t).2)
          (([⟨0⟩] : List QuantumTape).map fun t => (mitSample t).1.length) 0).length =
          ([⟨0⟩] : List QuantumTape).length) :=
  ⟨by decide, batch_execute_tuple_index_bug mitSample devBatchSample [⟨0⟩] (by decide)⟩

/-- C10: `mitigate` raises `ValueError("Unknown input")` when the input is
neither a `QuantumTape` nor a `QubitDevice`; a tape yields the pair of
mitigation tapes and postprocessing function; a device yields the device with
`execute` and `batch_execute` replaced by the mitigated versions (all other
fields unchanged). -/
theorem mitigate_dispatch (mit : QuantumTape → List QuantumTape × (List ℝ → ℝ)) :
    mitigate mit .other = .error "Unknown input" ∧
      (∀ t, mitigate mit (.tape t) = .ok (.tapePair (mit t).1 (mit t).2)) ∧
      (∀ d, mitigate mit (.device d) = .ok (.device
        { execute := mitigated_execute mit d.batchExecuteRaw
          batchExecute := batch_execute mit d.batchExecuteRaw
          batchExecuteRaw := d.batchExecuteRaw })) :=
  ⟨rfl, fun _ => rfl, fun _ => rfl⟩

/-! ## RY angle derivation: concrete values (C4)

Rational interval bounds for the concrete angles of the in-repo test
`test_get_alpha_y`, obtained from the cubic Taylor bounds on sin/cos at a
sixteenth of the angle followed by four double-angle steps. -/

lemma sin_bounds_of_poly (x slo shi : ℝ) (hx : |x| ≤ 1)
    (h1 : slo ≤ x - x^3/6 - x^4*(5/96)) (h2 : x - x^3/6 + x^4*(5/96) ≤ shi) :
    slo ≤ Real.sin x ∧ Real.sin x ≤ shi := by
  have hb := Real.sin_bound hx
  have h4 : |x|^4 = x^4 := by
    rw [← abs_pow]
    exact abs_of_nonneg (by positivity)
  rw [h4, abs_le] at hb
  constructor <;> linarith [hb.1, hb.2]

lemma cos_bounds_of_poly (x clo chi : ℝ) (hx : |x| ≤ 1)
    (h1 : clo ≤ 1 - x^2/2 - x^4*(5/96)) (h2 : 1 - x^2/2 + x^4*(5/96) ≤ chi) :
    clo ≤ Real.cos x ∧ Real.cos x ≤ chi := by
  have hb := Real.cos_bound hx
  have h4 : |x|^4 = x^4 := by
    rw [← abs_pow]
    exact abs_of_nonneg (by positivity)
  rw [h4, abs_le] at hb
  constructor <;> linarith [hb.1, hb.2]

lemma sin_cos_double (x slo shi clo chi slo' shi' clo' chi' : ℝ)
    (hs : slo ≤ Real.sin x ∧ Real.sin x ≤ shi)
    (hc : clo ≤ Real.cos x ∧ Real.cos x ≤ chi)
    (hslo : 0 ≤ slo) (hclo : 0 ≤ clo)
    (h1 : slo' ≤ 2 * slo * clo) (h2 : 2 * shi * chi ≤ shi')
    (h3 : clo' ≤ 2 * clo^2 - 1) (h4 : 2 * chi^2 - 1 ≤ chi') :
    (slo' ≤ Real.sin (2*x) ∧ Real.sin (2*x) ≤ shi') ∧
      (clo' ≤ Real.cos (2*x) ∧ Real.cos (2*x) ≤ chi') := by
  obtain ⟨hs1, hs2⟩ := hs
  obtain ⟨hc1, hc2⟩ := hc
  refine ⟨⟨?_, ?_⟩, ?_, ?_⟩
  · rw [Real.sin_two_mul]
    nlinarith [mul_nonneg (sub_nonneg.mpr hs1) (sub_nonneg.mpr hc1)]
  · rw [Real.sin_two_mul]
    have h0s : 0 ≤ Real.sin x := le_trans hslo hs1
    have h0c : 0 ≤ Real.cos x := le_trans hclo hc1
    have h0shi : 0 ≤ shi := le_trans h0s hs2
    nlinarith [mul_nonneg (sub_nonneg.mpr hs2) h0c, mul_nonneg (sub_nonneg.mpr hc2) h0shi]
  · rw [Real.cos_two_mul]
    nlinarith [mul_nonneg (sub_nonneg.mpr hc1) (sub_nonneg.mpr hc1)]
  · rw [Real.cos_two_mul]
    nlinarith [sq_nonneg (Real.cos x - chi), sq_nonneg (Real.cos x + chi)]

lemma sinBounds_T1a :
    ((288464966299 : ℝ)/500000000000) ≤ Real.sin ((61497971 : ℝ)/100000000) ∧ Real.sin ((61497971 : ℝ)/100000000) ≤ ((288472395389 : ℝ)/500000000000) := by
  have hs0 := sin_bounds_of_poly ((61497971 : ℝ)/1600000000) ((19213327139 : ℝ)/500000000000) ((38426881627 : ℝ)/1000000000000)
    (by rw [abs_of_nonneg (by norm_num : (0:ℝ) ≤ ((61497971 : ℝ)/1600000000))]; norm_num)
    (by norm_num) (by norm_num)
  have hc0 := cos_bounds_of_poly ((61497971 : ℝ)/1600000000) ((199852242873 : ℝ)/200000000000) ((499630720857 : ℝ)/500000000000)
    (by rw [abs_of_nonneg (by norm_num : (0:ℝ) ≤ ((61497971 : ℝ)/1600000000))]; norm_num)
    (by norm_num) (by norm_num)
  have hd1 := sin_cos_double ((61497971 : ℝ)/1600000000) ((19213327139 : ℝ)/500000000000) ((38426881627 : ℝ)/1000000000000) ((199852242873 : ℝ)/200000000000) ((499630720857 : ℝ)/500000000000)
    ((15359306087 : ℝ)/200000000000) ((76797002271 : ℝ)/1000000000000) ((249261487267 : ℝ)/250000000000) ((997046857793 : ℝ)/1000000000000) hs0 hc0
    (by norm_num) (by norm_num) (by norm_num) (by norm_num) (by norm_num) (by norm_num)
  rw [show 2 * ((61497971 : ℝ)/1600000000) = ((61497971 : ℝ)/800000000) by norm_num] at hd1
  have hd2 := sin_cos_double ((61497971 : ℝ)/800000000) ((15359306087 : ℝ)/200000000000) ((76797002271 : ℝ)/1000000000000) ((249261487267 : ℝ)/250000000000) ((997046857793 : ℝ)/1000000000000)
    ((30627867829 : ℝ)/200000000000) ((30628083921 : ℝ)/200000000000) ((197640249821 : ℝ)/200000000000) ((98820487327 : ℝ)/100000000000) hd1.1 hd1.2
    (by norm_num) (by norm_num) (by norm_num) (by norm_num) (by norm_num) (by norm_num)
  rw [show 2 * ((61497971 : ℝ)/800000000) = ((61497971 : ℝ)/400000000) by norm_num] at hd2
  have hd3 := sin_cos_double ((61497971 : ℝ)/400000000) ((30627867829 : ℝ)/200000000000) ((30628083921 : ℝ)/200000000000) ((197640249821 : ℝ)/200000000000) ((98820487327 : ℝ)/100000000000)
    ((15133248623 : ℝ)/50000000000) ((302668217897 : ℝ)/1000000000000) ((190616683493 : ℝ)/200000000000) ((95309774311 : ℝ)/100000000000) hd2.1 hd2.2
    (by norm_num) (by norm_num) (by norm_num) (by norm_num) (by norm_num) (by norm_num)
  rw [show 2 * ((61497971 : ℝ)/400000000) = ((61497971 : ℝ)/200000000) by norm_num] at hd3
  have hd4 := sin_cos_double ((61497971 : ℝ)/200000000) ((15133248623 : ℝ)/50000000000) ((302668217897 : ℝ)/1000000000000) ((190616683493 : ℝ)/200000000000) ((95309774311 : ℝ)/100000000000)
    ((288464966299 : ℝ)/500000000000) ((288472395389 : ℝ)/500000000000) ((816736001293 : ℝ)/1000000000000) ((816790615843 : ℝ)/1000000000000) hd3.1 hd3.2
    (by norm_num) (by norm_num) (by norm_num) (by norm_num) (by norm_num) (by norm_num)
  rw [show 2 * ((61497971 : ℝ)/200000000) = ((61497971 : ℝ)/100000000) by norm_num] at hd4
  exact hd4.1

lemma sinBounds_T1b :
    ((288873167773 : ℝ)/500000000000) ≤ Real.sin ((61597971 : ℝ)/100000000) ∧ Real.sin ((61597971 : ℝ)/100000000) ≤ ((288880653621 : ℝ)/500000000000) := by
  have hs0 := sin_bounds_of_poly ((61597971 : ℝ)/1600000000) ((7697821459 : ℝ)/200000000000) ((38489336127 : ℝ)/1000000000000)
    (by rw [abs_of_nonneg (by norm_num : (0:ℝ) ≤ ((61597971 : ℝ)/1600000000))]; norm_num)
    (by norm_num) (by norm_num)
  have hc0 := cos_bounds_of_poly ((61597971 : ℝ)/1600000000) ((499629404703 : ℝ)/500000000000) ((499629519119 : ℝ)/500000000000)
    (by rw [abs_of_nonneg (by norm_num : (0:ℝ) ≤ ((61597971 : ℝ)/1600000000))]; norm_num)
    (by norm_num) (by norm_num)
  have hd1 := sin_cos_double ((61597971 : ℝ)/1600000000) ((7697821459 : ℝ)/200000000000) ((38489336127 : ℝ)/1000000000000) ((499629404703 : ℝ)/500000000000) ((499629519119 : ℝ)/500000000000)
    ((76921159061 : ℝ)/1000000000000) ((38460817001 : ℝ)/500000000000) ((19940726727 : ℝ)/20000000000) ((997037251001 : ℝ)/1000000000000) hs0 hc0
    (by norm_num) (by norm_num) (by norm_num) (by norm_num) (by norm_num) (by norm_num)
  rw [show 2 * ((61597971 : ℝ)/1600000000) = ((61597971 : ℝ)/800000000) by norm_num] at hd1
  have hd2 := sin_cos_double ((61597971 : ℝ)/800000000) ((76921159061 : ℝ)/1000000000000) ((38460817001 : ℝ)/500000000000) ((19940726727 : ℝ)/20000000000) ((997037251001 : ℝ)/1000000000000)
    ((30677276247 : ℝ)/200000000000) ((19173433627 : ℝ)/125000000000) ((247040728001 : ℝ)/250000000000) ((123520819971 : ℝ)/125000000000) hd1.1 hd1.2
    (by norm_num) (by norm_num) (by norm_num) (by norm_num) (by norm_num) (by norm_num)
  rw [show 2 * ((61597971 : ℝ)/800000000) = ((61597971 : ℝ)/400000000) by norm_num] at hd2
  have hd3 := sin_cos_double ((61597971 : ℝ)/400000000) ((30677276247 : ℝ)/200000000000) ((19173433627 : ℝ)/125000000000) ((247040728001 : ℝ)/250000000000) ((123520819971 : ℝ)/125000000000)
    ((60628293257 : ℝ)/200000000000) ((303144735139 : ℝ)/1000000000000) ((23823297033 : ℝ)/25000000000) ((119118287461 : ℝ)/125000000000) hd2.1 hd2.2
    (by norm_num) (by norm_num) (by norm_num) (by norm_num) (by norm_num) (by norm_num)
  rw [show 2 * ((61597971 : ℝ)/400000000) = ((61597971 : ℝ)/200000000) by norm_num] at hd3
  have hd4 := sin_cos_double ((61597971 : ℝ)/200000000) ((60628293257 : ℝ)/200000000000) ((303144735139 : ℝ)/1000000000000) ((23823297033 : ℝ)/25000000000) ((119118287461 : ℝ)/125000000000)
    ((288873167773 : ℝ)/500000000000) ((288880653621 : ℝ)/500000000000) ((102019792609 : ℝ)/125000000000) ((816213300179 : ℝ)/1000000000000) hd3.1 hd3.2
    (by norm_num) (by norm_num) (by norm_num) (by norm_num) (by norm_num) (by norm_num)
  rw [show 2 * ((61597971 : ℝ)/200000000) = ((61597971 : ℝ)/100000000) by norm_num] at hd4
  exact hd4.1

lemma sinBounds_T2a :
    ((844762481263 : ℝ)/1000000000000) ≤ Real.sin ((201270737 : ℝ)/200000000) ∧ Real.sin ((201270737 : ℝ)/200000000) ≤ ((844910335553 : ℝ)/1000000000000) := by
  have hs0 := sin_bounds_of_poly ((201270737 : ℝ)/3200000000) ((62854819553 : ℝ)/1000000000000) ((31428224897 : ℝ)/500000000000)
    (by rw [abs_of_nonneg (by norm_num : (0:ℝ) ≤ ((201270737 : ℝ)/3200000000))]; norm_num)
    (by norm_num) (by norm_num)
  have hc0 := cos_bounds_of_poly ((201270737 : ℝ)/3200000000) ((998021161951 : ℝ)/1000000000000) ((974631633 : ℝ)/976562500)
    (by rw [abs_of_nonneg (by norm_num : (0:ℝ) ≤ ((201270737 : ℝ)/3200000000))]; norm_num)
    (by norm_num) (by norm_num)
  have hd1 := sin_cos_double ((201270737 : ℝ)/3200000000) ((62854819553 : ℝ)/1000000000000) ((31428224897 : ℝ)/500000000000) ((998021161951 : ℝ)/1000000000000) ((974631633 : ℝ)/976562500)
    ((125460880089 : ℝ)/1000000000000) ((62732169531 : ℝ)/500000000000) ((248023119851 : ℝ)/250000000000) ((99209898747 : ℝ)/100000000000) hs0 hc0
    (by norm_num) (by norm_num) (by norm_num) (by norm_num) (by norm_num) (by norm_num)
  rw [show 2 * ((201270737 : ℝ)/3200000000) = ((201270737 : ℝ)/1600000000) by norm_num] at hd1
  have hd2 := sin_cos_double ((201270737 : ℝ)/1600000000) ((125460880089 : ℝ)/1000000000000) ((62732169531 : ℝ)/500000000000) ((248023119851 : ℝ)/250000000000) ((99209898747 : ℝ)/100000000000)
    ((248937591191 : ℝ)/1000000000000) ((49789217499 : ℝ)/200000000000) ((968494975379 : ℝ)/1000000000000) ((484260400939 : ℝ)/500000000000) hd1.1 hd1.2
    (by norm_num) (by norm_num) (by norm_num) (by norm_num) (by norm_num) (by norm_num)
  rw [show 2 * ((201270737 : ℝ)/1600000000) = ((201270737 : ℝ)/800000000) by norm_num] at hd2
  have hd3 := sin_cos_double ((201270737 : ℝ)/800000000) ((248937591191 : ℝ)/1000000000000) ((49789217499 : ℝ)/200000000000) ((968494975379 : ℝ)/1000000000000) ((484260400939 : ℝ)/500000000000)
    ((241094806251 : ℝ)/500000000000) ((482218928571 : ℝ)/1000000000000) ((218991258667 : ℝ)/250000000000) ((876065087341 : ℝ)/1000000000000) hd2.1 hd2.2
    (by norm_num) (by norm_num) (by norm_num) (by norm_num) (by norm_num) (by norm_num)
  rw [show 2 * ((201270737 : ℝ)/800000000) = ((201270737 : ℝ)/400000000) by norm_num] at hd3
  have hd4 := sin_cos_double ((201270737 : ℝ)/400000000) ((241094806251 : ℝ)/500000000000) ((482218928571 : ℝ)/1000000000000) ((218991258667 : ℝ)/250000000000) ((876065087341 : ℝ)/1000000000000)
    ((844762481263 : ℝ)/1000000000000) ((844910335553 : ℝ)/1000000000000) ((534629483921 : ℝ)/1000000000000) ((133745018629 : ℝ)/250000000000) hd3.1 hd3.2
    (by norm_num) (by norm_num) (by norm_num) (by norm_num) (by norm_num) (by norm_num)
  rw [show 2 * ((201270737 : ℝ)/400000000) = ((201270737 : ℝ)/200000000) by norm_num] at hd4
  exact hd4.1

lemma sinBounds_T2b :
    ((845296422749 : ℝ)/1000000000000) ≤ Real.sin ((201470737 : ℝ)/200000000) ∧ Real.sin ((201470737 : ℝ)/200000000) ≤ ((211361239317 : ℝ)/250000000000) := by
  have hs0 := sin_bounds_of_poly ((201470737 : ℝ)/3200000000) ((62917192559 : ℝ)/1000000000000) ((62918829289 : ℝ)/1000000000000)
    (by rw [abs_of_nonneg (by norm_num : (0:ℝ) ≤ ((201470737 : ℝ)/3200000000))]; norm_num)
    (by norm_num) (by norm_num)
  have hc0 := cos_bounds_of_poly ((201470737 : ℝ)/3200000000) ((249504306421 : ℝ)/250000000000) ((499009431207 : ℝ)/500000000000)
    (by rw [abs_of_nonneg (by norm_num : (0:ℝ) ≤ ((201470737 : ℝ)/3200000000))]; norm_num)
    (by norm_num) (by norm_num)
  have hd1 := sin_cos_double ((201470737 : ℝ)/3200000000) ((62917192559 : ℝ)/1000000000000) ((62918829289 : ℝ)/1000000000000) ((249504306421 : ℝ)/250000000000) ((499009431207 : ℝ)/500000000000)
    ((125584883931 : ℝ)/1000000000000) ((125588356863 : ℝ)/1000000000000) ((992076765523 : ℝ)/1000000000000) ((992083299469 : ℝ)/1000000000000) hs0 hc0
    (by norm_num) (by norm_num) (by norm_num) (by norm_num) (by norm_num) (by norm_num)
  rw [show 2 * ((201470737 : ℝ)/3200000000) = ((201470737 : ℝ)/1600000000) by norm_num] at hd1
  have hd2 := sin_cos_double ((201470737 : ℝ)/1600000000) ((125584883931 : ℝ)/1000000000000) ((125588356863 : ℝ)/1000000000000) ((992076765523 : ℝ)/1000000000000) ((992083299469 : ℝ)/1000000000000)
    ((249179690897 : ℝ)/1000000000000) ((31148527863 : ℝ)/125000000000) ((968432617381 : ℝ)/1000000000000) ((968458546171 : ℝ)/1000000000000) hd1.1 hd1.2
    (by norm_num) (by norm_num) (by norm_num) (by norm_num) (by norm_num) (by norm_num)
  rw [show 2 * ((201470737 : ℝ)/1600000000) = ((201470737 : ℝ)/800000000) by norm_num] at hd2
  have hd3 := sin_cos_double ((201470737 : ℝ)/800000000) ((249179690897 : ℝ)/1000000000000) ((31148527863 : ℝ)/125000000000) ((968432617381 : ℝ)/1000000000000) ((968458546171 : ℝ)/1000000000000)
    ((482627480507 : ℝ)/1000000000000) ((241328464077 : ℝ)/500000000000) ((437861734407 : ℝ)/500000000000) ((109477988913 : ℝ)/125000000000) hd2.1 hd2.2
    (by norm_num) (by norm_num) (by norm_num) (by norm_num) (by norm_num) (by norm_num)
  rw [show 2 * ((201470737 : ℝ)/800000000) = ((201470737 : ℝ)/400000000) by norm_num] at hd3
  have hd4 := sin_cos_double ((201470737 : ℝ)/400000000) ((482627480507 : ℝ)/1000000000000) ((241328464077 : ℝ)/500000000000) ((437861734407 : ℝ)/500000000000) ((109477988913 : ℝ)/125000000000)
    ((845296422749 : ℝ)/1000000000000) ((211361239317 : ℝ)/250000000000) ((533783187663 : ℝ)/1000000000000) ((66766880903 : ℝ)/125000000000) hd3.1 hd3.2
    (by norm_num) (by norm_num) (by norm_num) (by norm_num) (by norm_num) (by norm_num)
  rw [show 2 * ((201470737 : ℝ)/400000000) = ((201470737 : ℝ)/200000000) by norm_num] at hd4
  exact hd4.1

lemma sinBounds_T4a :
    ((136823784327 : ℝ)/250000000000) ≤ Real.sin ((28956987 : ℝ)/50000000) ∧ Real.sin ((28956987 : ℝ)/50000000) ≤ ((21892254181 : ℝ)/40000000000) := by
  have hs0 := sin_bounds_of_poly ((28956987 : ℝ)/800000000) ((36188240493 : ℝ)/1000000000000) ((361884193 : ℝ)/10000000000)
    (by rw [abs_of_nonneg (by norm_num : (0:ℝ) ≤ ((28956987 : ℝ)/800000000))]; norm_num)
    (by norm_num) (by norm_num)
  have hc0 := cos_bounds_of_poly ((28956987 : ℝ)/800000000) ((62459051683 : ℝ)/62500000000) ((199869001147 : ℝ)/200000000000)
    (by rw [abs_of_nonneg (by norm_num : (0:ℝ) ≤ ((28956987 : ℝ)/800000000))]; norm_num)
    (by norm_num) (by norm_num)
  have hd1 := sin_cos_double ((28956987 : ℝ)/800000000) ((36188240493 : ℝ)/1000000000000) ((361884193 : ℝ)/10000000000) ((62459051683 : ℝ)/62500000000) ((199869001147 : ℝ)/200000000000)
    ((9041132733 : ℝ)/125000000000) ((36164716093 : ℝ)/500000000000) ((199476033243 : ℝ)/200000000000) ((39895235239 : ℝ)/40000000000) hs0 hc0
    (by norm_num) (by norm_num) (by norm_num) (by norm_num) (by norm_num) (by norm_num)
  rw [show 2 * ((28956987 : ℝ)/800000000) = ((28956987 : ℝ)/400000000) by norm_num] at hd1
  have hd2 := sin_cos_double ((28956987 : ℝ)/400000000) ((9041132733 : ℝ)/125000000000) ((36164716093 : ℝ)/500000000000) ((199476033243 : ℝ)/200000000000) ((39895235239 : ℝ)/40000000000)
    ((2254361617 : ℝ)/15625000000) ((144279985589 : ℝ)/1000000000000) ((494767195959 : ℝ)/500000000000) ((989537243469 : ℝ)/1000000000000) hd1.1 hd1.2
    (by norm_num) (by norm_num) (by norm_num) (by norm_num) (by norm_num) (by norm_num)
  rw [show 2 * ((28956987 : ℝ)/400000000) = ((28956987 : ℝ)/200000000) by norm_num] at hd2
  have hd3 := sin_cos_double ((28956987 : ℝ)/200000000) ((2254361617 : ℝ)/15625000000) ((144279985589 : ℝ)/1000000000000) ((494767195959 : ℝ)/500000000000) ((989537243469 : ℝ)/1000000000000)
    ((57107669807 : ℝ)/200000000000) ((57108167691 : ℝ)/200000000000) ((958356625577 : ℝ)/1000000000000) ((38334716497 : ℝ)/40000000000) hd2.1 hd2.2
    (by norm_num) (by norm_num) (by norm_num) (by norm_num) (by norm_num) (by norm_num)
  rw [show 2 * ((28956987 : ℝ)/200000000) = ((28956987 : ℝ)/100000000) by norm_num] at hd3
  have hd4 := sin_cos_double ((28956987 : ℝ)/100000000) ((57107669807 : ℝ)/200000000000) ((57108167691 : ℝ)/200000000000) ((958356625577 : ℝ)/1000000000000) ((38334716497 : ℝ)/40000000000)
    ((136823784327 : ℝ)/250000000000) ((21892254181 : ℝ)/40000000000) ((418447421787 : ℝ)/500000000000) ((209234527783 : ℝ)/250000000000) hd3.1 hd3.2
    (by norm_num) (by norm_num) (by norm_num) (by norm_num) (by norm_num) (by norm_num)
  rw [show 2 * ((28956987 : ℝ)/100000000) = ((28956987 : ℝ)/50000000) by norm_num] at hd4
  exact hd4.1

lemma sinBounds_T4b :
    ((274065861323 : ℝ)/500000000000) ≤ Real.sin ((29006987 : ℝ)/50000000) ∧ Real.sin ((29006987 : ℝ)/50000000) ≤ ((274071515401 : ℝ)/500000000000) := by
  have hs0 := sin_bounds_of_poly ((29006987 : ℝ)/800000000) ((1812534943 : ℝ)/50000000000) ((7250175781 : ℝ)/200000000000)
    (by rw [abs_of_nonneg (by norm_num : (0:ℝ) ≤ ((29006987 : ℝ)/800000000))]; norm_num)
    (by norm_num) (by norm_num)
  have hc0 := cos_bounds_of_poly ((29006987 : ℝ)/800000000) ((999342562091 : ℝ)/1000000000000) ((124917842767 : ℝ)/125000000000)
    (by rw [abs_of_nonneg (by norm_num : (0:ℝ) ≤ ((29006987 : ℝ)/800000000))]; norm_num)
    (by norm_num) (by norm_num)
  have hd1 := sin_cos_double ((29006987 : ℝ)/800000000) ((1812534943 : ℝ)/50000000000) ((7250175781 : ℝ)/200000000000) ((999342562091 : ℝ)/1000000000000) ((124917842767 : ℝ)/125000000000)
    ((9056716569 : ℝ)/125000000000) ((3622705273 : ℝ)/50000000000) ((997371112813 : ℝ)/1000000000000) ((24934295813 : ℝ)/25000000000) hs0 hc0
    (by norm_num) (by norm_num) (by norm_num) (by norm_num) (by norm_num) (by norm_num)
  rw [show 2 * ((29006987 : ℝ)/800000000) = ((29006987 : ℝ)/400000000) by norm_num] at hd1
  have hd2 := sin_cos_double ((29006987 : ℝ)/400000000) ((9056716569 : ℝ)/125000000000) ((3622705273 : ℝ)/50000000000) ((997371112813 : ℝ)/1000000000000) ((24934295813 : ℝ)/25000000000)
    ((5781060789 : ℝ)/40000000000) ((144527367873 : ℝ)/1000000000000) ((989498273347 : ℝ)/1000000000000) ((989501144609 : ℝ)/1000000000000) hd1.1 hd1.2
    (by norm_num) (by norm_num) (by norm_num) (by norm_num) (by norm_num) (by norm_num)
  rw [show 2 * ((29006987 : ℝ)/400000000) = ((29006987 : ℝ)/200000000) by norm_num] at hd2
  have hd3 := sin_cos_double ((29006987 : ℝ)/200000000) ((5781060789 : ℝ)/40000000000) ((144527367873 : ℝ)/1000000000000) ((989498273347 : ℝ)/1000000000000) ((989501144609 : ℝ)/1000000000000)
    ((286017483441 : ℝ)/1000000000000) ((71504997969 : ℝ)/250000000000) ((958213665913 : ℝ)/1000000000000) ((479112515183 : ℝ)/500000000000) hd2.1 hd2.2
    (by norm_num) (by norm_num) (by norm_num) (by norm_num) (by norm_num) (by norm_num)
  rw [show 2 * ((29006987 : ℝ)/200000000) = ((29006987 : ℝ)/100000000) by norm_num] at hd3
  have hd4 := sin_cos_double ((29006987 : ℝ)/100000000) ((286017483441 : ℝ)/1000000000000) ((71504997969 : ℝ)/250000000000) ((958213665913 : ℝ)/1000000000000) ((479112515183 : ℝ)/500000000000)
    ((274065861323 : ℝ)/500000000000) ((274071515401 : ℝ)/500000000000) ((209086714771 : ℝ)/250000000000) ((20909760441 : ℝ)/25000000000) hd3.1 hd3.2
    (by norm_num) (by norm_num) (by norm_num) (by norm_num) (by norm_num) (by norm_num)
  rw [show 2 * ((29006987 : ℝ)/100000000) = ((29006987 : ℝ)/50000000) by norm_num] at hd4
  exact hd4.1

/-- The 3-qubit test state `[sqrt(0.2), 0, sqrt(0.5), 0, 0, 0, sqrt(0.2),
sqrt(0.1)]` of the in-repo test `test_get_alpha_y`. -/
noncomputable def testState : List ℂ :=
  [((Real.sqrt 0.2 : ℝ) : ℂ), 0, ((Real.sqrt 0.5 : ℝ) : ℂ), 0, 0, 0,
    ((Real.sqrt 0.2 : ℝ) : ℂ), ((Real.sqrt 0.1 : ℝ) : ℂ)]

lemma alpha_y_test_k1 :
    _get_alpha_y testState 3 1 = [0, 0, 0, 2 * Real.arcsin (Real.sqrt (1/3))] := by
  unfold _get_alpha_y testState
  norm_num [List.range_succ, Complex.normSq_ofReal, Real.mul_self_sqrt, List.getD]
  congr 1
  have h10 : Real.sqrt 10 ≠ 0 := by positivity
  field_simp

lemma alpha_y_test_k2 :
    _get_alpha_y testState 3 2 = [2 * Real.arcsin (Real.sqrt (5/7)), Real.pi] := by
  unfold _get_alpha_y testState
  norm_num [List.range_succ, Complex.normSq_ofReal, Real.mul_self_sqrt, List.getD]
  constructor
  · congr 1
    rw [show (10:ℝ) = 5 * 2 by norm_num, Real.sqrt_mul (by norm_num : (0:ℝ) ≤ 5)]
    have h2 : Real.sqrt 2 ≠ 0 := by positivity
    have h7 : Real.sqrt 7 ≠ 0 := by positivity
    field_simp
  · ring

lemma alpha_y_test_k3 :
    _get_alpha_y testState 3 3 = [2 * Real.arcsin (Real.sqrt (3/10))] := by
  unfold _get_alpha_y testState
  norm_num [List.range_succ, Complex.normSq_ofReal, Real.mul_self_sqrt, List.getD]

lemma alpha_y_val1_bound :
    |2 * Real.arcsin (Real.sqrt (1/3)) - 1.23095942| < 1/1000 := by
  have hx1 : Real.sqrt (1/3) ≤ 1 := by
    rw [show (1:ℝ) = Real.sqrt 1 by rw [Real.sqrt_one]]
    exact Real.sqrt_le_sqrt (by norm_num)
  have hpi : (3.141592:ℝ) < Real.pi := Real.pi_gt_d6
  have hU : ((288472395389:ℝ)/500000000000) < Real.sqrt (1/3) := by
    rw [Real.lt_sqrt (by norm_num)]
    norm_num
  have hL : Real.sqrt (1/3) < ((288873167773:ℝ)/500000000000) := by
    rw [Real.sqrt_lt' (by norm_num)]
    norm_num
  have hlow : ((61497971:ℝ)/100000000) < Real.arcsin (Real.sqrt (1/3)) := by
    apply (Real.lt_arcsin_iff_sin_lt (Set.mem_Icc.mpr ⟨by linarith, by linarith⟩)
      (Set.mem_Icc.mpr ⟨by linarith, hx1⟩)).mpr
    linarith [sinBounds_T1a.2]
  have hhigh : Real.arcsin (Real.sqrt (1/3)) < ((61597971:ℝ)/100000000) := by
    apply (Real.arcsin_lt_iff_lt_sin (Set.mem_Icc.mpr ⟨by linarith, hx1⟩)
      (Set.mem_Icc.mpr ⟨by linarith, by linarith⟩)).mpr
    linarith [sinBounds_T1b.1]
  rw [abs_lt]
  constructor <;> linarith

lemma alpha_y_val2_bound :
    |2 * Real.arcsin (Real.sqrt (5/7)) - 2.01370737| < 1/1000 := by
  have hx1 : Real.sqrt (5/7) ≤ 1 := by
    rw [show (1:ℝ) = Real.sqrt 1 by rw [Real.sqrt_one]]
    exact Real.sqrt_le_sqrt (by norm_num)
  have hpi : (3.141592:ℝ) < Real.pi := Real.pi_gt_d6
  have hU : ((844910335553:ℝ)/1000000000000) < Real.sqrt (5/7) := by
    rw [Real.lt_sqrt (by norm_num)]
    norm_num
  have hL : Real.sqrt (5/7) < ((845296422749:ℝ)/1000000000000) := by
    rw [Real.sqrt_lt' (by norm_num)]
    norm_num
  have hlow : ((201270737:ℝ)/200000000) < Real.arcsin (Real.sqrt (5/7)) := by
    apply (Real.lt_arcsin_iff_sin_lt (Set.mem_Icc.mpr ⟨by linarith, by linarith⟩)
      (Set.mem_Icc.mpr ⟨by linarith, hx1⟩)).mpr
    linarith [sinBounds_T2a.2]
  have hhigh : Real.arcsin (Real.sqrt (5/7)) < ((201470737:ℝ)/200000000) := by
    apply (Real.arcsin_lt_iff_lt_sin (Set.mem_Icc.mpr ⟨by linarith, hx1⟩)
      (Set.mem_Icc.mpr ⟨by linarith, by linarith⟩)).mpr
    linarith [sinBounds_T2b.1]
  rw [abs_lt]
  constructor <;> linarith

lemma pi_value_bound : |Real.pi - 3.14159265| < 1/1000000 := by
  have h1 : (3.141592:ℝ) < Real.pi := Real.pi_gt_d6
  have h2 : Real.pi < 3.141593 := Real.pi_lt_d6
  rw [abs_lt]
  constructor <;> linarith

lemma alpha_y_val3_bound :
    |2 * Real.arcsin (Real.sqrt (3/10)) - 1.15927948| < 1/1000 := by
  have hx1 : Real.sqrt (3/10) ≤ 1 := by
    rw [show (1:ℝ) = Real.sqrt 1 by rw [Real.sqrt_one]]
    exact Real.sqrt_le_sqrt (by norm_num)
  have hpi : (3.141592:ℝ) < Real.pi := Real.pi_gt_d6
  have hU : ((21892254181:ℝ)/40000000000) < Real.sqrt (3/10) := by
    rw [Real.lt_sqrt (by norm_num)]
    norm_num
  have hL : Real.sqrt (3/10) < ((274065861323:ℝ)/500000000000) := by
    rw [Real.sqrt_lt' (by norm_num)]
    norm_num
  have hlow : ((28956987:ℝ)/50000000) < Real.arcsin (Real.sqrt (3/10)) := by
    apply (Real.lt_arcsin_iff_sin_lt (Set.mem_Icc.mpr ⟨by linarith, by linarith⟩)
      (Set.mem_Icc.mpr ⟨by linarith, hx1⟩)).mpr
    linarith [sinBounds_T4a.2]
  have hhigh : Real.arcsin (Real.sqrt (3/10)) < ((29006987:ℝ)/50000000) := by
    apply (Real.arcsin_lt_iff_lt_sin (Set.mem_Icc.mpr ⟨by linarith, hx1⟩)
      (Set.mem_Icc.mpr ⟨by linarith, by linarith⟩)).mpr
    linarith [sinBounds_T4b.1]
  rw [abs_lt]
  constructor <;> linarith

/-- C4: the RY angle derivation returns one angle per control-bit-pattern
(`2^(n-k)` of them), given by `2*arcsin(sqrt(num)/sqrt(den))` with a zero
denominator yielding 0 (the definition of `_get_alpha_y`); on the 3-qubit
state `[sqrt(0.2), 0, sqrt(0.5), 0, 0, 0, sqrt(0.2), sqrt(0.1)]` it returns
`[0, 0, 0, 2*arcsin(sqrt(1/3))] ≈ [0, 0, 0, 1.23095942]` for target qubit 1
(the third entry exercising the zero-denominator convention),
`[2*arcsin(sqrt(5/7)), pi] ≈ [2.01370737, 3.14159265]` for target qubit 2 and
`[2*arcsin(sqrt(3/10))] ≈ [1.15927948]` for target qubit 3. -/
theorem get_alpha_y_contract :
    (∀ (a : List ℂ) (n k : Nat), (_get_alpha_y a n k).length = 2 ^ (n - k)) ∧
      _get_alpha_y testState 3 1 = [0, 0, 0, 2 * Real.arcsin (Real.sqrt (1/3))] ∧
      _get_alpha_y testState 3 2 = [2 * Real.arcsin (Real.sqrt (5/7)), Real.pi] ∧
      _get_alpha_y testState 3 3 = [2 * Real.arcsin (Real.sqrt (3/10))] ∧
      |2 * Real.arcsin (Real.sqrt (1/3)) - 1.23095942| < 1/1000 ∧
      |2 * Real.arcsin (Real.sqrt (5/7)) - 2.01370737| < 1/1000 ∧
      |Real.pi - 3.14159265| < 1/1000000 ∧
      |2 * Real.arcsin (Real.sqrt (3/10)) - 1.15927948| < 1/1000 :=
  ⟨fun a n k => by simp [_get_alpha_y],
    alpha_y_test_k1, alpha_y_test_k2, alpha_y_test_k3,
    alpha_y_val1_bound, alpha_y_val2_bound, pi_value_bound, alpha_y_val3_bound⟩

/-! ## Functional correctness of the Mottonen synthesis (C1)

### Bit-parity toolkit -/

lemma popCountNat_zero : popCountNat 0 = 0 := by
  simp [popCountNat]

lemma popCountNat_div2 (x : Nat) : popCountNat x = x % 2 + popCountNat (x / 2) := by
  rcases Nat.eq_zero_or_pos x with h | h
  · subst h; simp [popCountNat_zero]
  · unfold popCountNat
    rw [Nat.digits_def' (by norm_num) h]
    simp

lemma xor_mod_two (x y : Nat) : (x ^^^ y) % 2 = (x % 2 + y % 2) % 2 := by
  have h := Nat.testBit_xor x y 0
  simp only [Nat.testBit_zero] at h
  rcases Nat.mod_two_eq_zero_or_one x with hx | hx <;>
    rcases Nat.mod_two_eq_zero_or_one y with hy | hy <;>
      rcases Nat.mod_two_eq_zero_or_one (x ^^^ y) with hxy | hxy <;>
        rw [hx, hy, hxy] at h <;> simp_all <;> omega

lemma xor_shiftRight_one (x y : Nat) : (x ^^^ y) >>> 1 = x >>> 1 ^^^ y >>> 1 := by
  apply Nat.eq_of_testBit_eq
  intro i
  simp [Nat.testBit_shiftRight, Nat.testBit_xor]

lemma xor_div_two (x y : Nat) : (x ^^^ y) / 2 = x / 2 ^^^ y / 2 := by
  rw [← Nat.shiftRight_one, ← Nat.shiftRight_one, ← Nat.shiftRight_one]
  exact xor_shiftRight_one x y

lemma popCountNat_xor_parity (x y : Nat) :
    popCountNat (x ^^^ y) % 2 = (popCountNat x + popCountNat y) % 2 := by
  induction x using Nat.strong_induction_on generalizing y with
  | _ x ih =>
    rcases Nat.eq_zero_or_pos x with h0 | h0
    · subst h0; simp [popCountNat_zero]
    · have hx2 : x / 2 < x := Nat.div_lt_self h0 (by norm_num)
      have h1 := popCountNat_div2 (x ^^^ y)
      have h2 := popCountNat_div2 x
      have h3 := popCountNat_div2 y
      have h4 := ih (x / 2) hx2 (y / 2)
      rw [xor_div_two, xor_mod_two] at h1
      omega

lemma popCountNat_two_pow (c : Nat) : popCountNat (2 ^ c) = 1 := by
  induction c with
  | zero =>
    rw [popCountNat_div2]
    norm_num [popCountNat_zero]
  | succ c ih =>
    rw [popCountNat_div2 (2 ^ (c + 1)), pow_succ]
    rw [Nat.mul_mod_left, Nat.mul_div_cancel _ (by norm_num : (0:ℕ) < 2)]
    omega

/-- Odd popcount, the parity consumed by the transform characters. -/
def pcOdd (x : Nat) : Bool :=
  decide (popCountNat x % 2 = 1)

lemma pcOdd_xor (x y : Nat) : pcOdd (x ^^^ y) = (pcOdd x).xor (pcOdd y) := by
  have h := popCountNat_xor_parity x y
  unfold pcOdd
  rcases Nat.mod_two_eq_zero_or_one (popCountNat x) with hx | hx <;>
    rcases Nat.mod_two_eq_zero_or_one (popCountNat y) with hy | hy <;>
      simp [hx, hy] <;> omega

lemma pcOdd_zero : pcOdd 0 = false := by
  simp [pcOdd, popCountNat_zero]

lemma testBit_eq_pcOdd_and (i q : Nat) : i.testBit q = pcOdd (i &&& 2 ^ q) := by
  rw [Nat.and_two_pow]
  cases h : i.testBit q
  · simp [pcOdd, popCountNat_zero]
  · simp [pcOdd, popCountNat_two_pow]

lemma neg_one_pow_popCountNat (x : ℝ) (hx : x = -1) (z : Nat) :
    x ^ popCountNat z = if pcOdd z then -1 else 1 := by
  subst hx
  rcases Nat.mod_two_eq_zero_or_one (popCountNat z) with h | h
  · rw [(Nat.even_iff.mpr h).neg_one_pow]
    simp [pcOdd, h]
  · rw [(Nat.odd_iff.mpr h).neg_one_pow]
    simp [pcOdd, h]

/-! ### Gray-code index map -/

lemma grayIdx_def (s : Nat) : grayIdx s = s ^^^ s >>> 1 := rfl

lemma grayIdx_lt (t s : Nat) (h : s < 2 ^ t) : grayIdx s < 2 ^ t :=
  Nat.xor_lt_two_pow h (lt_of_le_of_lt (by rw [Nat.shiftRight_one]; omega) h)

lemma grayIdx_inj : Function.Injective grayIdx := by
  intro x y h
  unfold grayIdx at h
  have h2 : x ^^^ y = (x ^^^ y) >>> 1 := by
    rw [xor_shiftRight_one]
    apply Nat.eq_of_testBit_eq
    intro i
    have hc := congrArg (fun z => z.testBit i) h
    simp only [Nat.testBit_xor] at hc ⊢
    cases hx : x.testBit i <;> cases hy : y.testBit i <;>
      simp [hx, hy] at hc ⊢ <;> simp [hc]
  have h3 : x ^^^ y = 0 := by
    rw [Nat.shiftRight_one] at h2
    omega
  exact Nat.xor_eq_zero.mp h3

lemma grayIdx_image (t : Nat) :
    Finset.image grayIdx (Finset.range (2 ^ t)) = Finset.range (2 ^ t) := by
  apply Finset.eq_of_subset_of_card_le
  · intro g hg
    rw [Finset.mem_image] at hg
    obtain ⟨s, hs, rfl⟩ := hg
    rw [Finset.mem_range] at hs ⊢
    exact grayIdx_lt t s hs
  · rw [Finset.card_image_of_injective _ grayIdx_inj]

lemma sum_grayIdx_reindex (t : Nat) (f : Nat → ℝ) :
    ∑ s in Finset.range (2 ^ t), f (grayIdx s) = ∑ g in Finset.range (2 ^ t), f g := by
  have h := Finset.sum_image (g := grayIdx) (f := f) (s := Finset.range (2 ^ t))
    (fun a _ b _ hab => grayIdx_inj hab)
  rw [grayIdx_image] at h
  exact h.symm

/-! ### Gray-code string values -/

lemma natOfBits_aux (l : List Char) (a : Nat) :
    l.foldl (fun acc c => 2 * acc + (if c = '1' then 1 else 0)) a =
      a * 2 ^ l.length + l.foldl (fun acc c => 2 * acc + (if c = '1' then 1 else 0)) 0 := by
  induction l generalizing a with
  | nil => simp
  | cons c rest ih =>
    simp only [List.foldl_cons, List.length_cons]
    rw [ih (2 * a + (if c = '1' then 1 else 0)), ih (2 * 0 + (if c = '1' then 1 else 0))]
    ring

lemma natOfBits_cons (c : Char) (l : List Char) :
    natOfBits ⟨c :: l⟩ = (if c = '1' then 1 else 0) * 2 ^ l.length + natOfBits ⟨l⟩ := by
  show (c :: l).foldl _ 0 = _
  rw [List.foldl_cons, natOfBits_aux]
  unfold natOfBits
  ring_nf

lemma natOfBits_nil : natOfBits ⟨[]⟩ = 0 := rfl

lemma natOfBits_lt (l : List Char) : natOfBits ⟨l⟩ < 2 ^ l.length := by
  induction l with
  | nil =>
    simp
    exact natOfBits_nil
  | cons c rest ih =>
    rw [natOfBits_cons]
    have he : (if c = '1' then 1 else 0) * 2 ^ rest.length ≤ 2 ^ rest.length := by
      split <;> simp
    simp only [List.length_cons, pow_succ]
    omega

lemma natOfBits_zero_prefix (w : String) : natOfBits ("0" ++ w) = natOfBits w := by
  obtain ⟨d⟩ := w
  show natOfBits ⟨'0' :: d⟩ = natOfBits ⟨d⟩
  rw [natOfBits_cons, if_neg (by decide : ¬('0' = '1'))]
  ring

lemma natOfBits_one_prefix (w : String) :
    natOfBits ("1" ++ w) = 2 ^ w.data.length + natOfBits w := by
  obtain ⟨d⟩ := w
  show natOfBits ⟨'1' :: d⟩ = 2 ^ d.length + natOfBits ⟨d⟩
  rw [natOfBits_cons, if_pos rfl]
  ring

lemma two_pow_add_eq_xor (k : Nat) : ∀ v < 2 ^ k, 2 ^ k + v = 2 ^ k ^^^ v := by
  induction k with
  | zero =>
    intro v hv
    interval_cases v
    rfl
  | succ k ih =>
    intro v hv
    have hv2 : v / 2 < 2 ^ k := by
      have : 2 ^ (k + 1) = 2 * 2 ^ k := by ring
      omega
    have hih := ih (v / 2) hv2
    have e1 : (2 ^ (k + 1) + v) % 2 = v % 2 := by
      have : 2 ^ (k + 1) = 2 * 2 ^ k := by ring
      omega
    have e2 : (2 ^ (k + 1) + v) / 2 = 2 ^ k + v / 2 := by
      have : 2 ^ (k + 1) = 2 * 2 ^ k := by ring
      omega
    have e3 : (2 ^ (k + 1) ^^^ v) % 2 = v % 2 := by
      rw [xor_mod_two]
      have : 2 ^ (k + 1) % 2 = 0 := by
        have : 2 ^ (k + 1) = 2 * 2 ^ k := by ring
        omega
      omega
    have e4 : (2 ^ (k + 1) ^^^ v) / 2 = 2 ^ k ^^^ v / 2 := by
      rw [xor_div_two]
      congr 1
      have : 2 ^ (k + 1) = 2 * 2 ^ k := by ring
      omega
    omega

lemma mask_complement (k : Nat) : ∀ r < 2 ^ k, 2 ^ k - 1 - r = (2 ^ k - 1) ^^^ r := by
  induction k with
  | zero =>
    intro r hr
    interval_cases r
    rfl
  | succ k ih =>
    intro r hr
    have hr2 : r / 2 < 2 ^ k := by
      have : 2 ^ (k + 1) = 2 * 2 ^ k := by ring
      omega
    have hih := ih (r / 2) hr2
    have hk1 : (1:ℕ) ≤ 2 ^ k := Nat.one_le_two_pow
    have hpow : 2 ^ (k + 1) = 2 * 2 ^ k := by ring
    have e1 : (2 ^ (k + 1) - 1 - r) % 2 = 1 - r % 2 := by omega
    have e2 : (2 ^ (k + 1) - 1 - r) / 2 = 2 ^ k - 1 - r / 2 := by omega
    have e3 : ((2 ^ (k + 1) - 1) ^^^ r) % 2 = 1 - r % 2 := by
      rw [xor_mod_two]
      have : (2 ^ (k + 1) - 1) % 2 = 1 := by omega
      omega
    have e4 : ((2 ^ (k + 1) - 1) ^^^ r) / 2 = (2 ^ k - 1) ^^^ r / 2 := by
      rw [xor_div_two]
      congr 1
      omega
    omega

lemma grayIdx_reflect (k : Nat) : ∀ r < 2 ^ k, grayIdx (2 ^ k + r) = 2 ^ k + grayIdx (2 ^ k - 1 - r) := by
  rcases Nat.eq_zero_or_pos k with hk | hk
  · subst hk
    intro r hr
    interval_cases r
    rfl
  · obtain ⟨k', rfl⟩ : ∃ m, k = m + 1 := ⟨k - 1, by omega⟩
    intro r hr
    have hpow : 2 ^ (k' + 1) = 2 * 2 ^ k' := by ring
    have hk1 : (1:ℕ) ≤ 2 ^ k' := Nat.one_le_two_pow
    have hs : (2 ^ (k' + 1)) >>> 1 = 2 ^ k' := by
      rw [Nat.shiftRight_one]
      omega
    have hL : grayIdx (2 ^ (k' + 1) + r) =
        2 ^ (k' + 1) ^^^ (grayIdx r ^^^ 2 ^ k') := by
      rw [grayIdx_def, two_pow_add_eq_xor _ r hr, xor_shiftRight_one, hs, grayIdx_def]
      ac_rfl
    have hm : 2 ^ (k' + 1) - 1 - r = (2 ^ (k' + 1) - 1) ^^^ r :=
      mask_complement (k' + 1) r hr
    have hmlt : 2 ^ (k' + 1) - 1 - r < 2 ^ (k' + 1) := by omega
    have hones : (2 ^ (k' + 1) - 1) >>> 1 = 2 ^ k' - 1 := by
      rw [Nat.shiftRight_one]
      omega
    have hsplit : (2 ^ (k' + 1) - 1) ^^^ (2 ^ k' - 1) = 2 ^ k' := by
      have h1 : 2 ^ (k' + 1) - 1 = 2 ^ k' + (2 ^ k' - 1) := by omega
      rw [h1, two_pow_add_eq_xor k' (2 ^ k' - 1) (by omega), Nat.xor_assoc,
        Nat.xor_self, Nat.xor_zero]
    have hR : grayIdx (2 ^ (k' + 1) - 1 - r) = grayIdx r ^^^ 2 ^ k' := by
      rw [grayIdx_def, hm, xor_shiftRight_one, hones, grayIdx_def]
      nth_rewrite 2 [← hsplit]
      ac_rfl
    rw [hL, hR]
    have hlt : grayIdx r ^^^ 2 ^ k' < 2 ^ (k' + 1) := by
      have h1 : grayIdx r < 2 ^ (k' + 1) := grayIdx_lt (k' + 1) r (by omega)
      exact Nat.xor_lt_two_pow h1 (by omega)
    rw [two_pow_add_eq_xor (k' + 1) _ hlt]

lemma mem_gray_code_chars (r : Nat) :
    ∀ s ∈ gray_code r, ∀ c ∈ s.data, c = '0' ∨ c = '1' := by
  induction r with
  | zero =>
    intro s hs c hc
    simp [gray_code] at hs
    subst hs
    simp at hc
  | succ r ih =>
    intro s hs c hc
    simp only [gray_code, List.mem_append, List.mem_reverse, List.mem_map] at hs
    rcases hs with ⟨t, ht, rfl⟩ | ⟨t, ht, rfl⟩
    · rw [zero_prefix_data, List.mem_cons] at hc
      rcases hc with hc | hc
      · left; exact hc
      · exact ih t ht c hc
    · rw [one_prefix_data, List.mem_cons] at hc
      rcases hc with hc | hc
      · right; exact hc
      · exact ih t ht c hc

lemma eq_of_diffCount_zero :
    ∀ (a b : List Char), a.length = b.length → diffCount a b = 0 → a = b := by
  intro a
  induction a with
  | nil =>
    intro b hlen _
    cases b with
    | nil => rfl
    | cons x xs => simp at hlen
  | cons c rest ih =>
    intro b hlen hd
    cases b with
    | nil => simp at hlen
    | cons x xs =>
      simp only [List.length_cons, Nat.succ.injEq] at hlen
      unfold diffCount at hd
      by_cases hcx : c = x
      · subst hcx
        have hd' : diffCount rest xs = 0 := by simpa using hd
        rw [ih xs hlen hd']
      · rw [if_neg hcx] at hd
        omega

lemma xor_cancel_left (x u w : Nat) : (x ^^^ u) ^^^ (x ^^^ w) = u ^^^ w := by
  rw [show (x ^^^ u) ^^^ (x ^^^ w) = (x ^^^ x) ^^^ (u ^^^ w) from by ac_rfl,
    Nat.xor_self, Nat.zero_xor]

lemma natOfBits_xor_oneBit :
    ∀ (a b : List Char), (∀ c ∈ a, c = '0' ∨ c = '1') → (∀ c ∈ b, c = '0' ∨ c = '1') →
      a.length = b.length → diffCount a b = 1 →
      ∃ j < a.length, natOfBits ⟨a⟩ ^^^ natOfBits ⟨b⟩ = 2 ^ j := by
  intro a
  induction a with
  | nil =>
    intro b _ _ hlen hd
    cases b with
    | nil => simp [diffCount] at hd
    | cons x xs => simp at hlen
  | cons c rest ih =>
    intro b ha hb hlen hd
    cases b with
    | nil => simp at hlen
    | cons x xs =>
      simp only [List.length_cons, Nat.succ.injEq] at hlen
      unfold diffCount at hd
      rw [natOfBits_cons, natOfBits_cons]
      have hu := natOfBits_lt rest
      have hw := natOfBits_lt xs
      by_cases hcx : c = x
      · subst hcx
        rw [if_pos rfl] at hd
        simp only [Nat.zero_add] at hd
        obtain ⟨j, hj, hxor⟩ := ih xs (fun y hy => ha y (by simp [hy]))
          (fun y hy => hb y (by simp [hy])) hlen hd
        refine ⟨j, by simp; omega, ?_⟩
        rw [← hlen]
        rcases ha c (by simp) with hc | hc
        · rw [hc, if_neg (by decide : ¬('0' = '1'))]
          simpa using hxor
        · rw [hc, if_pos rfl]
          simp only [one_mul]
          rw [two_pow_add_eq_xor rest.length _ hu,
            two_pow_add_eq_xor rest.length _ (by rw [hlen]; exact hw),
            xor_cancel_left]
          exact hxor
      · rw [if_neg hcx] at hd
        have hrx : rest = xs := eq_of_diffCount_zero rest xs hlen (by omega)
        subst hrx
        refine ⟨rest.length, by simp, ?_⟩
        rcases ha c (by simp) with hc | hc <;> rcases hb x (by simp) with hx | hx
        · exact absurd (hc.trans hx.symm) hcx
        · rw [hc, hx, if_neg (by decide : ¬('0' = '1')), if_pos rfl]
          simp only [one_mul, Nat.zero_mul, Nat.zero_add]
          rw [two_pow_add_eq_xor rest.length _ hu, Nat.xor_comm (2 ^ rest.length) _,
            ← Nat.xor_assoc, Nat.xor_self, Nat.zero_xor]
        · rw [hc, hx, if_pos rfl, if_neg (by decide : ¬('0' = '1'))]
          simp only [one_mul, Nat.zero_mul, Nat.zero_add]
          rw [two_pow_add_eq_xor rest.length _ hu, Nat.xor_assoc, Nat.xor_self,
            Nat.xor_zero]
        · exact absurd (hc.trans hx.symm) hcx

lemma getD_append_left {α : Type} (l₁ l₂ : List α) (i : Nat) (d : α) (h : i < l₁.length) :
    (l₁ ++ l₂).getD i d = l₁.getD i d := by
  rw [List.getD_eq_getElem?_getD, List.getD_eq_getElem?_getD, List.getElem?_append, if_pos h]

lemma getD_append_right {α : Type} (l₁ l₂ : List α) (i : Nat) (d : α) (h : l₁.length ≤ i) :
    (l₁ ++ l₂).getD i d = l₂.getD (i - l₁.length) d := by
  rw [List.getD_eq_getElem?_getD, List.getD_eq_getElem?_getD, List.getElem?_append,
    if_neg (by omega)]

lemma getD_reverse {α : Type} (l : List α) (i : Nat) (d : α) (h : i < l.length) :
    l.reverse.getD i d = l.getD (l.length - 1 - i) d := by
  rw [List.getD_eq_getElem?_getD, List.getD_eq_getElem?_getD,
    List.getElem?_reverse (by simpa using h)]

lemma getD_map_of_lt {α β : Type} (f : α → β) (l : List α) (i : Nat) (d : β) (d' : α)
    (h : i < l.length) : (l.map f).getD i d = f (l.getD i d') := by
  rw [List.getD_eq_getElem?_getD, List.getD_eq_getElem?_getD,
    List.getElem?_map, List.getElem?_eq_getElem h]
  rfl

lemma natOfBits_gray_code : ∀ (t : Nat) (s : Nat), s < 2 ^ t →
    natOfBits ((gray_code t).getD s "") = grayIdx s := by
  intro t
  induction t with
  | zero =>
    intro s hs
    interval_cases s
    rfl
  | succ t ih =>
    intro s hs
    have hglen : (gray_code t).length = 2 ^ t := length_gray_code t
    have hpow : 2 ^ (t + 1) = 2 * 2 ^ t := by ring
    rw [gray_code]
    by_cases hst : s < 2 ^ t
    · rw [getD_append_left _ _ _ _ (by simp [hglen]; omega)]
      rw [getD_map_of_lt _ _ _ _ "" (by omega)]
      rw [ natOfBits_zero_prefix]
      exact ih s hst
    · have hr : s - 2 ^ t < 2 ^ t := by omega
      rw [getD_append_right _ _ _ _ (by simp [hglen]; omega)]
      rw [List.length_map, hglen]
      rw [getD_reverse _ _ _ (by simp [hglen]; omega)]
      rw [List.length_map, hglen]
      have hidx : 2 ^ t - 1 - (s - 2 ^ t) < (gray_code t).length := by
        rw [hglen]; omega
      rw [getD_map_of_lt _ _ _ _ "" hidx]
      rw [ natOfBits_one_prefix]
      have hmem : (gray_code t).getD (2 ^ t - 1 - (s - 2 ^ t)) "" ∈ gray_code t := by
        rw [List.getD_eq_getElem?_getD, List.getElem?_eq_getElem hidx]
        exact List.getElem?_mem (List.getElem?_eq_getElem hidx)
      rw [mem_gray_code_length t _ hmem]
      rw [ih _ (by omega)]
      have := grayIdx_reflect t (s - 2 ^ t) hr
      rw [show 2 ^ t + (s - 2 ^ t) = s by omega] at this
      rw [this]

/-! ### The Walsh-Hadamard-style transform identity -/

lemma and_shiftRight_one (x y : Nat) : (x &&& y) >>> 1 = x >>> 1 &&& y >>> 1 := by
  apply Nat.eq_of_testBit_eq
  intro i
  simp [Nat.testBit_shiftRight, Nat.testBit_and]

lemma and_div_two (x y : Nat) : (x &&& y) / 2 = x / 2 &&& y / 2 := by
  rw [← Nat.shiftRight_one, ← Nat.shiftRight_one, ← Nat.shiftRight_one]
  exact and_shiftRight_one x y

lemma and_mod_two (x y : Nat) : (x &&& y) % 2 = x % 2 * (y % 2) := by
  have h := Nat.testBit_and x y 0
  simp only [Nat.testBit_zero] at h
  rcases Nat.mod_two_eq_zero_or_one x with hx | hx <;>
    rcases Nat.mod_two_eq_zero_or_one y with hy | hy <;>
      rcases Nat.mod_two_eq_zero_or_one (x &&& y) with hxy | hxy <;>
        rw [hx, hy, hxy] at h <;> simp_all <;> omega

lemma and_two_mul (d g : Nat) : d &&& (2 * g) = 2 * ((d / 2) &&& g) := by
  have h1 : (d &&& (2 * g)) % 2 = 0 := by
    rw [and_mod_two, show (2 * g) % 2 = 0 by omega, Nat.mul_zero]
  have h2 : (d &&& (2 * g)) / 2 = d / 2 &&& g := by
    rw [and_div_two, show 2 * g / 2 = g by omega]
  omega

lemma and_two_mul_add_one (d g : Nat) :
    d &&& (2 * g + 1) = 2 * ((d / 2) &&& g) + d % 2 := by
  have h1 : (d &&& (2 * g + 1)) % 2 = d % 2 := by
    rw [and_mod_two, show (2 * g + 1) % 2 = 1 by omega, Nat.mul_one]
  have h2 : (d &&& (2 * g + 1)) / 2 = d / 2 &&& g := by
    rw [and_div_two, show (2 * g + 1) / 2 = g by omega]
  omega

lemma popCountNat_two_mul (x : Nat) : popCountNat (2 * x) = popCountNat x := by
  rw [popCountNat_div2 (2 * x), show 2 * x % 2 = 0 by omega, show 2 * x / 2 = x by omega]
  omega

lemma popCountNat_two_mul_add_one (x : Nat) :
    popCountNat (2 * x + 1) = popCountNat x + 1 := by
  rw [popCountNat_div2 (2 * x + 1), show (2 * x + 1) % 2 = 1 by omega,
    show (2 * x + 1) / 2 = x by omega]
  omega

lemma sum_range_two_mul (n : Nat) (f : Nat → ℝ) :
    ∑ i in Finset.range (2 * n), f i =
      ∑ i in Finset.range n, (f (2 * i) + f (2 * i + 1)) := by
  induction n with
  | zero => rfl
  | succ n ih =>
    rw [show 2 * (n + 1) = 2 * n + 1 + 1 by ring, Finset.sum_range_succ,
      Finset.sum_range_succ, Finset.sum_range_succ, ih]
    ring

lemma char_sum (t : Nat) : ∀ d < 2 ^ t,
    (∑ g in Finset.range (2 ^ t), (if pcOdd (d &&& g) then (-1:ℝ) else 1)) =
      if d = 0 then (2 ^ t : ℝ) else 0 := by
  induction t with
  | zero =>
    intro d hd
    interval_cases d
    simp [pcOdd_zero]
  | succ t ih =>
    intro d hd
    have hpow : 2 ^ (t + 1) = 2 * 2 ^ t := by ring
    rw [hpow, sum_range_two_mul]
    have hsplit : ∀ g : Nat,
        (if pcOdd (d &&& (2 * g)) then (-1:ℝ) else 1) +
          (if pcOdd (d &&& (2 * g + 1)) then (-1:ℝ) else 1) =
        (1 + (if d % 2 = 1 then (-1:ℝ) else 1)) *
          (if pcOdd ((d / 2) &&& g) then (-1:ℝ) else 1) := by
      intro g
      rw [and_two_mul, and_two_mul_add_one]
      unfold pcOdd
      simp only [decide_eq_true_eq]
      rw [popCountNat_two_mul]
      rcases Nat.mod_two_eq_zero_or_one d with hd2 | hd2
      · rw [hd2, Nat.add_zero, popCountNat_two_mul]
        split <;> norm_num
      · rw [hd2, popCountNat_two_mul_add_one]
        rcases Nat.mod_two_eq_zero_or_one (popCountNat (d / 2 &&& g)) with hp | hp
        · rw [if_neg (by omega : ¬ popCountNat (d / 2 &&& g) % 2 = 1),
            if_pos (by omega : (popCountNat (d / 2 &&& g) + 1) % 2 = 1)]
          norm_num
        · rw [if_pos hp,
            if_neg (by omega : ¬ (popCountNat (d / 2 &&& g) + 1) % 2 = 1)]
          norm_num
    rw [Finset.sum_congr rfl (fun g _ => hsplit g), ← Finset.mul_sum]
    have hd2 : d / 2 < 2 ^ t := by omega
    rw [ih (d / 2) hd2]
    rcases Nat.mod_two_eq_zero_or_one d with hpar | hpar
    · rw [if_neg (by omega : ¬ d % 2 = 1)]
      by_cases hd0 : d = 0
      · subst hd0
        norm_num
        ring
      · rw [if_neg (by omega : ¬ d / 2 = 0), if_neg hd0]
        ring
    · rw [if_pos hpar, if_neg (by omega : ¬ d = 0)]
      norm_num

lemma list_sum_range (f : Nat → ℝ) (n : Nat) :
    ((List.range n).map f).sum = ∑ i in Finset.range n, f i := by
  induction n with
  | zero => rfl
  | succ n ih =>
    rw [List.range_succ, Finset.sum_range_succ, List.map_append, List.sum_append, ih]
    simp

lemma getD_range_map (N : Nat) (F : Nat → ℝ) (s : Nat) :
    ((List.range N).map F).getD s 0 = if s < N then F s else 0 := by
  rw [List.getD_eq_getElem?_getD, List.getElem?_map]
  by_cases h : s < N
  · rw [List.getElem?_range h]
    simp [h]
  · rw [List.getElem?_eq_none (by simpa using (by omega : N ≤ s))]
    simp [h]

lemma matrix_M_entry_eq (row col : Nat) :
    _matrix_M_entry row col = if pcOdd (row &&& grayIdx col) then (-1:ℝ) else 1 := by
  unfold _matrix_M_entry
  unfold grayIdx
  exact neg_one_pow_popCountNat (-1) rfl _

lemma theta_transform (t : Nat) (α : List ℝ) (hα : α.length = 2 ^ t) (b : Nat)
    (hb : b < 2 ^ t) :
    ∑ s in Finset.range (2 ^ t),
      (if pcOdd (b &&& grayIdx s) then (-1:ℝ) else 1) * (compute_theta α).getD s 0 =
      α.getD b 0 := by
  unfold compute_theta
  rw [hα]
  have hstep : ∀ s ∈ Finset.range (2 ^ t),
      (if pcOdd (b &&& grayIdx s) then (-1:ℝ) else 1) *
        ((List.range (2 ^ t)).map fun i =>
          (((List.range (2 ^ t)).map fun j =>
            _matrix_M_entry j i * α.getD j 0).sum) / (2 ^ t : ℕ)).getD s 0 =
      ∑ j in Finset.range (2 ^ t),
        (if pcOdd ((b ^^^ j) &&& grayIdx s) then (-1:ℝ) else 1) * α.getD j 0 / (2 ^ t : ℕ) := by
    intro s hs
    rw [Finset.mem_range] at hs
    rw [getD_range_map _ _ s, if_pos hs, list_sum_range]
    rw [Finset.sum_div, Finset.mul_sum]
    apply Finset.sum_congr rfl
    intro j _
    rw [matrix_M_entry_eq]
    have hxor : (b &&& grayIdx s) ^^^ (j &&& grayIdx s) = (b ^^^ j) &&& grayIdx s :=
      (Nat.and_xor_distrib_right).symm
    have hpar : pcOdd ((b ^^^ j) &&& grayIdx s) =
        ((pcOdd (b &&& grayIdx s)).xor (pcOdd (j &&& grayIdx s))) := by
      rw [← hxor, pcOdd_xor]
    rw [hpar]
    cases hcb : pcOdd (b &&& grayIdx s) <;> cases hcj : pcOdd (j &&& grayIdx s) <;>
      simp [Bool.xor] <;> ring
  rw [Finset.sum_congr rfl hstep, Finset.sum_comm]
  have hinner : ∀ j ∈ Finset.range (2 ^ t),
      (∑ s in Finset.range (2 ^ t),
        (if pcOdd ((b ^^^ j) &&& grayIdx s) then (-1:ℝ) else 1) * α.getD j 0 / (2 ^ t : ℕ)) =
      (if b ^^^ j = 0 then (2 ^ t : ℝ) else 0) * α.getD j 0 / (2 ^ t : ℕ) := by
    intro j hj
    rw [Finset.mem_range] at hj
    rw [← Finset.sum_div, ← Finset.sum_mul]
    congr 2
    rw [sum_grayIdx_reindex t (fun g => if pcOdd ((b ^^^ j) &&& g) then (-1:ℝ) else 1)]
    exact char_sum t (b ^^^ j) (Nat.xor_lt_two_pow hb hj)
  rw [Finset.sum_congr rfl hinner]
  have hzero : ∀ j ∈ Finset.range (2 ^ t), j ≠ b →
      (if b ^^^ j = 0 then (2 ^ t : ℝ) else 0) * α.getD j 0 / (2 ^ t : ℕ) = 0 := by
    intro j _ hj
    rw [if_neg (fun h => hj (Nat.xor_eq_zero.mp h).symm)]
    simp
  rw [Finset.sum_eq_single b hzero (fun h => absurd (Finset.mem_range.mpr hb) h)]
  rw [if_pos (Nat.xor_self b)]
  have h2t : ((2:ℝ) ^ t) ≠ 0 := by positivity
  push_cast
  field_simp

/-! ### State-vector semantics of the emitted gates

States of `n` qubits are amplitude functions on basis indices (big-endian:
wire 0 is the most significant bit, wire `w` is the bit at position
`n - 1 - w`).  Indices `≥ 2^n` are unused and carry amplitude 0 throughout a
run.  `PauliRot` never occurs in the Mottonen gate sequence, so its semantics
is left as the identity. -/

noncomputable def applyGate (n : Nat) : Gate → (Nat → ℂ) → (Nat → ℂ)
  | Gate.PauliX w, ψ => fun i => ψ (i ^^^ 2 ^ (n - 1 - w))
  | Gate.Rot .Y θ w, ψ => fun i =>
      if i.testBit (n - 1 - w) = false then
        (Real.cos (θ / 2) : ℂ) * ψ i - (Real.sin (θ / 2) : ℂ) * ψ (i ^^^ 2 ^ (n - 1 - w))
      else
        (Real.sin (θ / 2) : ℂ) * ψ (i ^^^ 2 ^ (n - 1 - w)) + (Real.cos (θ / 2) : ℂ) * ψ i
  | Gate.Rot .Z θ w, ψ => fun i =>
      if i.testBit (n - 1 - w) = false then Complex.exp (-(θ / 2) * Complex.I) * ψ i
      else Complex.exp ((θ / 2) * Complex.I) * ψ i
  | Gate.CNOT c tw, ψ => fun i =>
      if i.testBit (n - 1 - c) then ψ (i ^^^ 2 ^ (n - 1 - tw)) else ψ i
  | Gate.PauliRot _ _ _, ψ => ψ

/-- Run a gate list left to right (the order the templates queue them). -/
noncomputable def runGates (n : Nat) (gs : List Gate) (ψ : Nat → ℂ) : Nat → ℂ :=
  gs.foldl (fun φ g => applyGate n g φ) ψ

/-- The all-zero basis state. -/
noncomputable def e0 : Nat → ℂ := fun i => if i = 0 then 1 else 0

lemma runGates_nil (n : Nat) (ψ : Nat → ℂ) : runGates n [] ψ = ψ := rfl

lemma runGates_cons (n : Nat) (g : Gate) (gs : List Gate) (ψ : Nat → ℂ) :
    runGates n (g :: gs) ψ = runGates n gs (applyGate n g ψ) := rfl

lemma runGates_append (n : Nat) (gs₁ gs₂ : List Gate) (ψ : Nat → ℂ) :
    runGates n (gs₁ ++ gs₂) ψ = runGates n gs₂ (runGates n gs₁ ψ) := by
  unfold runGates
  rw [List.foldl_append]

/-- The multiplexed (uniformly controlled) rotation on target wire `t` of `n`
wires: the rotation angle applied to the target bit of index `i` is selected
by the control pattern given by the `t` bits above the target bit. -/
noncomputable def mplex (ax : Axis) (n t : Nat) (α : List ℝ) (ψ : Nat → ℂ) : Nat → ℂ :=
  fun i =>
    let θ := α.getD ((i >>> (n - t)) % 2 ^ t) 0
    match ax with
    | .Y =>
        if i.testBit (n - 1 - t) = false then
          (Real.cos (θ / 2) : ℂ) * ψ i -
            (Real.sin (θ / 2) : ℂ) * ψ (i ^^^ 2 ^ (n - 1 - t))
        else
          (Real.sin (θ / 2) : ℂ) * ψ (i ^^^ 2 ^ (n - 1 - t)) +
            (Real.cos (θ / 2) : ℂ) * ψ i
    | .Z =>
        if i.testBit (n - 1 - t) = false then Complex.exp (-(θ / 2) * Complex.I) * ψ i
        else Complex.exp ((θ / 2) * Complex.I) * ψ i

/-! ### Pair algebra of a Gray-code cascade -/

/-- Action of `Rot ax θ` on the two amplitudes of a target-bit pair. -/
noncomputable def rotPair (ax : Axis) (θ : ℝ) (q : ℂ × ℂ) : ℂ × ℂ :=
  match ax with
  | .Y => ((Real.cos (θ / 2) : ℂ) * q.1 - (Real.sin (θ / 2) : ℂ) * q.2,
      (Real.sin (θ / 2) : ℂ) * q.1 + (Real.cos (θ / 2) : ℂ) * q.2)
  | .Z => (Complex.exp (-(θ / 2) * Complex.I) * q.1,
      Complex.exp ((θ / 2) * Complex.I) * q.2)

/-- Swap the pair when the flag is set. -/
def swapIf (b : Bool) (q : ℂ × ℂ) : ℂ × ℂ :=
  if b then (q.2, q.1) else q

lemma rotPair_zero (ax : Axis) (q : ℂ × ℂ) : rotPair ax 0 q = q := by
  cases ax <;> simp [rotPair]

lemma rotPair_rotPair (ax : Axis) (θ₁ θ₂ : ℝ) (q : ℂ × ℂ) :
    rotPair ax θ₁ (rotPair ax θ₂ q) = rotPair ax (θ₁ + θ₂) q := by
  cases ax
  · simp only [rotPair, Prod.mk.injEq]
    have hc : Real.cos ((θ₁ + θ₂) / 2) = Real.cos (θ₁ / 2) * Real.cos (θ₂ / 2) -
        Real.sin (θ₁ / 2) * Real.sin (θ₂ / 2) := by
      rw [show (θ₁ + θ₂) / 2 = θ₁ / 2 + θ₂ / 2 by ring, Real.cos_add]
    have hs : Real.sin ((θ₁ + θ₂) / 2) = Real.sin (θ₁ / 2) * Real.cos (θ₂ / 2) +
        Real.cos (θ₁ / 2) * Real.sin (θ₂ / 2) := by
      rw [show (θ₁ + θ₂) / 2 = θ₁ / 2 + θ₂ / 2 by ring, Real.sin_add]
    rw [hc, hs]
    push_cast
    constructor <;> ring
  · simp only [rotPair, Prod.mk.injEq]
    constructor
    · rw [← mul_assoc, ← Complex.exp_add]
      congr 2
      push_cast
      ring
    · rw [← mul_assoc, ← Complex.exp_add]
      congr 2
      push_cast
      ring

lemma rotPair_swap (ax : Axis) (θ : ℝ) (q : ℂ × ℂ) :
    rotPair ax θ (q.2, q.1) = ((rotPair ax (-θ) q).2, (rotPair ax (-θ) q).1) := by
  cases ax
  · simp only [rotPair, Prod.mk.injEq]
    rw [show -θ / 2 = -(θ / 2) by ring, Real.cos_neg, Real.sin_neg]
    push_cast
    constructor <;> ring
  · simp only [rotPair, Prod.mk.injEq]
    push_cast
    constructor <;> · congr 2; ring

lemma swapIf_swapIf (b₁ b₂ : Bool) (q : ℂ × ℂ) :
    swapIf b₁ (swapIf b₂ q) = swapIf (b₁.xor b₂) q := by
  cases b₁ <;> cases b₂ <;> simp [swapIf]

lemma rotPair_swapIf (ax : Axis) (β : Bool) (θ : ℝ) (q : ℂ × ℂ) :
    rotPair ax θ (swapIf β q) =
      swapIf β (rotPair ax (if β then -θ else θ) q) := by
  cases β
  · simp [swapIf]
  · show rotPair ax θ (q.2, q.1) = ((rotPair ax (-θ) q).2, (rotPair ax (-θ) q).1)
    exact rotPair_swap ax θ q

/-! ### Gray-code step masks -/

lemma testBit_xor_pow_self (i q : Nat) : (i ^^^ 2 ^ q).testBit q = !(i.testBit q) := by
  rw [Nat.testBit_xor, Nat.testBit_two_pow_self]
  cases i.testBit q <;> rfl

lemma testBit_xor_pow_ne (i q r : Nat) (h : r ≠ q) :
    (i ^^^ 2 ^ q).testBit r = i.testBit r := by
  rw [Nat.testBit_xor, Nat.testBit_two_pow_of_ne (fun hqr => h hqr.symm)]
  cases i.testBit r <;> rfl

lemma shiftRight_xor_pow (i m q : Nat) (h : q < m) : (i ^^^ 2 ^ q) >>> m = i >>> m := by
  apply Nat.eq_of_testBit_eq
  intro r
  rw [Nat.testBit_shiftRight, Nat.testBit_shiftRight]
  exact testBit_xor_pow_ne _ _ _ (by omega)

lemma and_mod_two_pow (x g t : Nat) (hg : g < 2 ^ t) : x &&& g = (x % 2 ^ t) &&& g := by
  apply Nat.eq_of_testBit_eq
  intro q
  rw [Nat.testBit_and, Nat.testBit_and, Nat.testBit_mod_two_pow]
  by_cases hq : q < t
  · simp [hq]
  · have hgq : g.testBit q = false :=
      Nat.testBit_lt_two_pow (lt_of_lt_of_le hg (Nat.pow_le_pow_right (by norm_num) (by omega)))
    simp [hgq]

lemma grayIdx_xor (a b : Nat) : grayIdx a ^^^ grayIdx b = grayIdx (a ^^^ b) := by
  unfold grayIdx
  rw [xor_shiftRight_one]
  ac_rfl

lemma grayIdx_all_ones (m : Nat) : grayIdx (2 ^ (m + 1) - 1) = 2 ^ m := by
  unfold grayIdx
  have hpow : (2:Nat) ^ (m + 1) = 2 * 2 ^ m := by ring
  have hm : (1:Nat) ≤ 2 ^ m := Nat.one_le_two_pow
  rw [Nat.shiftRight_one]
  have hdiv : (2 ^ (m + 1) - 1) / 2 = 2 ^ m - 1 := by omega
  rw [hdiv]
  have hsplit : 2 ^ (m + 1) - 1 = 2 ^ m ^^^ (2 ^ m - 1) := by
    rw [← two_pow_add_eq_xor m (2 ^ m - 1) (by omega)]
    omega
  rw [hsplit, Nat.xor_cancel_right]

lemma xor_succ_all_ones (i : Nat) : ∃ m, i ^^^ (i + 1) = 2 ^ (m + 1) - 1 := by
  induction i using Nat.strong_induction_on with
  | _ i ih =>
    rcases Nat.even_or_odd i with ⟨a, ha⟩ | ⟨a, ha⟩
    · refine ⟨0, ?_⟩
      have hmod : (i ^^^ (i + 1)) % 2 = 1 := by
        rw [xor_mod_two]; omega
      have hdiv : (i ^^^ (i + 1)) / 2 = 0 := by
        rw [xor_div_two, show i / 2 = a by omega, show (i + 1) / 2 = a by omega,
          Nat.xor_self]
      omega
    · rcases Nat.eq_zero_or_pos a with rfl | hapos
      · exact ⟨1, by rw [show i = 1 by omega]; rfl⟩
      · obtain ⟨m, hm⟩ := ih a (by omega)
        refine ⟨m + 1, ?_⟩
        have hmod : (i ^^^ (i + 1)) % 2 = 1 := by
          rw [xor_mod_two]; omega
        have hdiv : (i ^^^ (i + 1)) / 2 = 2 ^ (m + 1) - 1 := by
          rw [xor_div_two, show i / 2 = a by omega, show (i + 1) / 2 = a + 1 by omega, hm]
        have hpow : (2:Nat) ^ (m + 1 + 1) = 2 * 2 ^ (m + 1) := by ring
        have h1 : (1:Nat) ≤ 2 ^ (m + 1) := Nat.one_le_two_pow
        omega

/-- The Gray-code value at position `i`, read cyclically around the
`2 ^ k`-step cascade. -/
def grayMod (k i : Nat) : Nat := grayIdx (i % 2 ^ k)

lemma gray_mask (k i : Nat) (hk : k ≠ 0) (hi : i < 2 ^ k) :
    ∃ e, e < k ∧ grayMod k i ^^^ grayMod k (i + 1) = 2 ^ e := by
  unfold grayMod
  rcases Nat.lt_or_ge (i + 1) (2 ^ k) with hi1 | hi1
  · obtain ⟨m, hm⟩ := xor_succ_all_ones i
    refine ⟨m, ?_, ?_⟩
    · have hxlt : i ^^^ (i + 1) < 2 ^ k := Nat.xor_lt_two_pow hi hi1
      rw [hm] at hxlt
      have h1 : (1:Nat) ≤ 2 ^ (m + 1) := Nat.one_le_two_pow
      have : (2:Nat) ^ (m + 1) ≤ 2 ^ k := by omega
      have := (Nat.pow_le_pow_iff_right (by norm_num : 1 < 2)).mp this
      omega
    · rw [Nat.mod_eq_of_lt hi, Nat.mod_eq_of_lt hi1, grayIdx_xor, hm, grayIdx_all_ones]
  · have heq : i + 1 = 2 ^ k := by omega
    refine ⟨k - 1, by omega, ?_⟩
    rw [Nat.mod_eq_of_lt hi, heq, Nat.mod_self]
    show grayIdx i ^^^ grayIdx 0 = 2 ^ (k - 1)
    have h0 : grayIdx 0 = 0 := rfl
    have hk1 : k - 1 + 1 = k := by omega
    rw [h0, Nat.xor_zero, show i = 2 ^ (k - 1 + 1) - 1 by rw [hk1]; omega, grayIdx_all_ones]

lemma log2_two_pow (e : Nat) : Nat.log2 (2 ^ e) = e := by
  induction e with
  | zero =>
    rw [Nat.log2]
    norm_num
  | succ e ih =>
    have hpow : (2:Nat) ^ (e + 1) = 2 * 2 ^ e := by ring
    have h1 : (1:Nat) ≤ 2 ^ e := Nat.one_le_two_pow
    rw [Nat.log2, if_pos (by omega : 2 ≤ 2 ^ (e + 1)),
      show (2:Nat) ^ (e + 1) / 2 = 2 ^ e by omega, ih]

lemma ctrlIndex_gray (k i : Nat) (hk : k ≠ 0) (hi : i < 2 ^ k) :
    ∃ e, e < k ∧
      ctrlIndex ((gray_code k).getD i "") ((gray_code k).getD ((i + 1) % 2 ^ k) "") = e ∧
      grayMod k i ^^^ grayMod k (i + 1) = 2 ^ e := by
  obtain ⟨e, he, hm⟩ := gray_mask k i hk hi
  refine ⟨e, he, ?_, hm⟩
  unfold ctrlIndex
  rw [natOfBits_gray_code k i hi,
    natOfBits_gray_code k ((i + 1) % 2 ^ k) (Nat.mod_lt _ (Nat.pos_pow_of_pos k (by norm_num)))]
  have hmi : grayIdx i = grayMod k i := by
    unfold grayMod; rw [Nat.mod_eq_of_lt hi]
  rw [hmi]
  show Nat.log2 (grayMod k i ^^^ grayMod k (i + 1)) = e
  rw [hm, log2_two_pow]

lemma range_reverse_getD (t e : Nat) (h : e < t) :
    (List.range t).reverse.getD e 0 = t - 1 - e := by
  rw [getD_reverse _ _ _ (by simpa using h), List.length_range]
  rw [List.getD_eq_getElem?_getD, List.getElem?_range (by omega : t - 1 - e < t)]
  rfl

/-! ### Accumulated pair action of a rotation-CNOT cascade -/

/-- Fold the per-step pair actions of a cascade: each step rotates the pair,
then swaps it when the step's control bit is set. -/
noncomputable def pairRun (ax : Axis) (L : List (ℝ × Bool)) (q : ℂ × ℂ) : ℂ × ℂ :=
  L.foldl (fun q p => swapIf p.2 (rotPair ax p.1 q)) q

/-- Net swap parity of a cascade: xor of all control-bit flags. -/
def parAcc : List (ℝ × Bool) → Bool
  | [] => false
  | p :: L => (p.2).xor (parAcc L)

/-- Net rotation angle of a cascade: angles summed with the sign flipped by
each earlier swap. -/
noncomputable def phiAcc : List (ℝ × Bool) → ℝ
  | [] => 0
  | p :: L => (if p.2 then -(phiAcc L) else phiAcc L) + p.1

lemma pairRun_eq (ax : Axis) (L : List (ℝ × Bool)) (q : ℂ × ℂ) :
    pairRun ax L q = swapIf (parAcc L) (rotPair ax (phiAcc L) q) := by
  induction L generalizing q with
  | nil =>
    show q = swapIf false (rotPair ax 0 q)
    rw [rotPair_zero]
    rfl
  | cons p L ih =>
    show pairRun ax L (swapIf p.2 (rotPair ax p.1 q)) = _
    rw [ih, rotPair_swapIf, rotPair_rotPair, swapIf_swapIf]
    show swapIf ((parAcc L).xor p.2) _ = swapIf ((p.2).xor (parAcc L)) _
    rw [Bool.xor_comm]
    rfl

/-- The gate list of a cascade: one rotation on the target wire then one CNOT
per step, the CNOT's control wire given by the step. -/
def stepGates (ax : Axis) (tw : Nat) (L : List (ℝ × Nat)) : List Gate :=
  L.flatMap fun p => [Gate.Rot ax p.1 tw, Gate.CNOT p.2 tw]

lemma applyGate_rot_pair (n : Nat) (ax : Axis) (θ : ℝ) (tw : Nat) (ψ : Nat → ℂ)
    (i : Nat) (hi : i.testBit (n - 1 - tw) = false) :
    (applyGate n (Gate.Rot ax θ tw) ψ i,
      applyGate n (Gate.Rot ax θ tw) ψ (i ^^^ 2 ^ (n - 1 - tw))) =
      rotPair ax θ (ψ i, ψ (i ^^^ 2 ^ (n - 1 - tw))) := by
  have hi1 : (i ^^^ 2 ^ (n - 1 - tw)).testBit (n - 1 - tw) = true := by
    rw [testBit_xor_pow_self, hi]; rfl
  cases ax
  · simp only [applyGate, rotPair, Prod.mk.injEq]
    rw [if_pos hi, if_neg (by rw [hi1]; simp), Nat.xor_cancel_right]
    exact ⟨rfl, rfl⟩
  · simp only [applyGate, rotPair, Prod.mk.injEq]
    rw [if_pos hi, if_neg (by rw [hi1]; simp)]
    exact ⟨rfl, rfl⟩

lemma applyGate_cnot_pair (n : Nat) (c tw : Nat) (ψ : Nat → ℂ) (i : Nat)
    (hc : n - 1 - c ≠ n - 1 - tw) :
    (applyGate n (Gate.CNOT c tw) ψ i,
      applyGate n (Gate.CNOT c tw) ψ (i ^^^ 2 ^ (n - 1 - tw))) =
      swapIf (i.testBit (n - 1 - c)) (ψ i, ψ (i ^^^ 2 ^ (n - 1 - tw))) := by
  have hcb : (i ^^^ 2 ^ (n - 1 - tw)).testBit (n - 1 - c) = i.testBit (n - 1 - c) :=
    testBit_xor_pow_ne _ _ _ hc
  cases hβ : i.testBit (n - 1 - c)
  · simp only [applyGate, swapIf, Prod.mk.injEq]
    rw [if_neg (by rw [hβ]; simp), if_neg (by rw [hcb, hβ]; simp)]
    simp
  · simp only [applyGate, swapIf, Prod.mk.injEq]
    rw [if_pos (by rw [hβ]), if_pos (by rw [hcb, hβ]), Nat.xor_cancel_right]
    simp

lemma cascade_pair (n : Nat) (ax : Axis) (tw : Nat) :
    ∀ (L : List (ℝ × Nat)) (ψ : Nat → ℂ) (i : Nat),
      i.testBit (n - 1 - tw) = false → (∀ p ∈ L, n - 1 - p.2 ≠ n - 1 - tw) →
      (runGates n (stepGates ax tw L) ψ i,
        runGates n (stepGates ax tw L) ψ (i ^^^ 2 ^ (n - 1 - tw))) =
        pairRun ax (L.map fun p => (p.1, i.testBit (n - 1 - p.2)))
          (ψ i, ψ (i ^^^ 2 ^ (n - 1 - tw))) := by
  intro L
  induction L with
  | nil => intro ψ i _ _; rfl
  | cons p L ih =>
    intro ψ i hi hcs
    have hstep : stepGates ax tw (p :: L) =
        Gate.Rot ax p.1 tw :: Gate.CNOT p.2 tw :: stepGates ax tw L := rfl
    rw [hstep, runGates_cons, runGates_cons]
    have hpair :
        (applyGate n (Gate.CNOT p.2 tw) (applyGate n (Gate.Rot ax p.1 tw) ψ) i,
          applyGate n (Gate.CNOT p.2 tw) (applyGate n (Gate.Rot ax p.1 tw) ψ)
            (i ^^^ 2 ^ (n - 1 - tw))) =
          swapIf (i.testBit (n - 1 - p.2)) (rotPair ax p.1
            (ψ i, ψ (i ^^^ 2 ^ (n - 1 - tw)))) := by
      rw [applyGate_cnot_pair n p.2 tw _ i (hcs p (List.mem_cons_self p L)),
        applyGate_rot_pair n ax p.1 tw ψ i hi]
    have htail := ih (applyGate n (Gate.CNOT p.2 tw) (applyGate n (Gate.Rot ax p.1 tw) ψ))
      i hi (fun q hq => hcs q (List.mem_cons_of_mem p hq))
    rw [htail]
    show pairRun ax (L.map fun p => (p.1, i.testBit (n - 1 - p.2)))
      (applyGate n (Gate.CNOT p.2 tw) (applyGate n (Gate.Rot ax p.1 tw) ψ) i,
        applyGate n (Gate.CNOT p.2 tw) (applyGate n (Gate.Rot ax p.1 tw) ψ)
          (i ^^^ 2 ^ (n - 1 - tw))) =
      pairRun ax (L.map fun p => (p.1, i.testBit (n - 1 - p.2)))
        (swapIf (i.testBit (n - 1 - p.2)) (rotPair ax p.1
          (ψ i, ψ (i ^^^ 2 ^ (n - 1 - tw)))))
    rw [hpair]

lemma parAcc_range' (k d : Nat) (θ : Nat → ℝ) : ∀ (j s : Nat),
    parAcc ((List.range' s j).map fun i =>
      (θ i, pcOdd (d &&& (grayMod k i ^^^ grayMod k (i + 1))))) =
      (pcOdd (d &&& grayMod k s)).xor (pcOdd (d &&& grayMod k (s + j))) := by
  intro j
  induction j with
  | zero =>
    intro s
    show false = (pcOdd (d &&& grayMod k s)).xor (pcOdd (d &&& grayMod k (s + 0)))
    rw [Nat.add_zero, Bool.xor_self]
  | succ j ih =>
    intro s
    simp only [List.range'_succ, List.map_cons]
    show (pcOdd (d &&& (grayMod k s ^^^ grayMod k (s + 1)))).xor _ = _
    rw [ih (s + 1), Nat.and_xor_distrib_left, pcOdd_xor,
      show s + 1 + j = s + (j + 1) by omega]
    cases pcOdd (d &&& grayMod k s) <;> cases pcOdd (d &&& grayMod k (s + 1)) <;>
      cases pcOdd (d &&& grayMod k (s + (j + 1))) <;> rfl

lemma phiAcc_range' (k d : Nat) (θ : Nat → ℝ) : ∀ (j s : Nat),
    phiAcc ((List.range' s j).map fun i =>
      (θ i, pcOdd (d &&& (grayMod k i ^^^ grayMod k (i + 1))))) =
      (if pcOdd (d &&& grayMod k s) then (-1:ℝ) else 1) *
        ∑ i in Finset.range j,
          (if pcOdd (d &&& grayMod k (s + i)) then (-1:ℝ) else 1) * θ (s + i) := by
  intro j
  induction j with
  | zero =>
    intro s
    show (0:ℝ) = _
    rw [Finset.sum_range_zero, mul_zero]
  | succ j ih =>
    intro s
    simp only [List.range'_succ, List.map_cons]
    have hcons : ∀ (b : Bool) (x : ℝ) (M : List (ℝ × Bool)),
        phiAcc ((x, b) :: M) = (if b then -(phiAcc M) else phiAcc M) + x :=
      fun b x M => rfl
    rw [hcons, ih (s + 1)]
    rw [Finset.sum_range_succ']
    have hβ : pcOdd (d &&& (grayMod k s ^^^ grayMod k (s + 1))) =
        (pcOdd (d &&& grayMod k s)).xor (pcOdd (d &&& grayMod k (s + 1))) := by
      rw [Nat.and_xor_distrib_left, pcOdd_xor]
    rw [hβ]
    have hsum : ∑ i in Finset.range j,
        (if pcOdd (d &&& grayMod k (s + (i + 1))) then (-1:ℝ) else 1) * θ (s + (i + 1)) =
        ∑ i in Finset.range j,
        (if pcOdd (d &&& grayMod k (s + 1 + i)) then (-1:ℝ) else 1) * θ (s + 1 + i) :=
      Finset.sum_congr rfl (fun i _ => by rw [show s + (i + 1) = s + 1 + i by omega])
    rw [hsum]
    cases hb1 : pcOdd (d &&& grayMod k s) <;> cases hb2 : pcOdd (d &&& grayMod k (s + 1)) <;>
      simp [hb1, hb2] <;> ring

/-! ### The cascade equals the multiplexed rotation -/

lemma flatMap_map_eq {α β γ : Type} (f : α → β) (g : β → List γ) (l : List α) :
    (l.map f).flatMap g = l.flatMap fun a => g (f a) := by
  induction l with
  | nil => rfl
  | cons a l ih => simp only [List.map_cons, List.flatMap_cons, ih]

lemma uniform_eq_stepGates (ax : Axis) (α : List ℝ) (cw : List Nat) (tw k : Nat)
    (hk : cw.length = k) (hk0 : k ≠ 0) :
    _uniform_rotation_dagger ax α cw tw = stepGates ax tw
      ((List.range (2 ^ k)).map fun i =>
        ((compute_theta α).getD i 0,
          cw.getD (ctrlIndex ((gray_code k).getD i "")
            ((gray_code k).getD ((i + 1) % 2 ^ k) "")) 0)) := by
  subst hk
  unfold _uniform_rotation_dagger stepGates
  rw [if_neg hk0, flatMap_map_eq]

lemma mplex_pair (ax : Axis) (n t : Nat) (ht : t < n) (α : List ℝ) (ψ : Nat → ℂ)
    (i : Nat) (hi : i.testBit (n - 1 - t) = false) :
    (mplex ax n t α ψ i, mplex ax n t α ψ (i ^^^ 2 ^ (n - 1 - t))) =
      rotPair ax (α.getD ((i >>> (n - t)) % 2 ^ t) 0)
        (ψ i, ψ (i ^^^ 2 ^ (n - 1 - t))) := by
  have hi1 : (i ^^^ 2 ^ (n - 1 - t)).testBit (n - 1 - t) = true := by
    rw [testBit_xor_pow_self, hi]; rfl
  have hsel : (i ^^^ 2 ^ (n - 1 - t)) >>> (n - t) = i >>> (n - t) :=
    shiftRight_xor_pow i (n - t) (n - 1 - t) (by omega)
  cases ax
  · simp only [mplex, Prod.mk.injEq, rotPair]
    rw [hsel, if_pos hi, if_neg (by rw [hi1]; simp), Nat.xor_cancel_right]
    exact ⟨rfl, rfl⟩
  · simp only [mplex, Prod.mk.injEq, rotPair]
    rw [hsel, if_pos hi, if_neg (by rw [hi1]; simp)]
    exact ⟨rfl, rfl⟩

lemma uniform_cascade_eq_mplex (ax : Axis) (n t : Nat) (ht : t < n) (α : List ℝ)
    (hα : α.length = 2 ^ t) (ψ : Nat → ℂ) :
    runGates n (_uniform_rotation_dagger ax α ((List.range t).reverse) t) ψ =
      mplex ax n t α ψ := by
  rcases Nat.eq_zero_or_pos t with rfl | htpos
  · have hct : (compute_theta α).getD 0 0 = α.getD 0 0 := by
      unfold compute_theta
      rw [hα, pow_zero, getD_range_map, if_pos (by norm_num)]
      rw [show List.range 1 = [0] from rfl]
      simp [_matrix_M_entry, popCountNat_zero, grayIdx]
    show runGates n [Gate.Rot ax ((compute_theta α).getD 0 0) 0] ψ = mplex ax n 0 α ψ
    funext i
    show applyGate n (Gate.Rot ax ((compute_theta α).getD 0 0) 0) ψ i = mplex ax n 0 α ψ i
    rw [hct]
    cases ax <;> simp [applyGate, mplex, Nat.mod_one]
  · have key : ∀ j : Nat, j.testBit (n - 1 - t) = false →
        (runGates n (_uniform_rotation_dagger ax α ((List.range t).reverse) t) ψ j,
          runGates n (_uniform_rotation_dagger ax α ((List.range t).reverse) t) ψ
            (j ^^^ 2 ^ (n - 1 - t))) =
        (mplex ax n t α ψ j, mplex ax n t α ψ (j ^^^ 2 ^ (n - 1 - t))) := by
      intro j hj
      have hcw : ∀ p ∈ (List.range (2 ^ t)).map (fun i =>
          ((compute_theta α).getD i 0,
            ((List.range t).reverse).getD (ctrlIndex ((gray_code t).getD i "")
              ((gray_code t).getD ((i + 1) % 2 ^ t) "")) 0)),
          n - 1 - p.2 ≠ n - 1 - t := by
        intro p hp
        rw [List.mem_map] at hp
        obtain ⟨i, hi, rfl⟩ := hp
        rw [List.mem_range] at hi
        obtain ⟨e, he, hce, _⟩ := ctrlIndex_gray t i (by omega) hi
        show n - 1 - (((List.range t).reverse).getD _ 0) ≠ n - 1 - t
        rw [hce, range_reverse_getD t e he]
        omega
      rw [uniform_eq_stepGates ax α ((List.range t).reverse) t t (by simp) (by omega)]
      rw [cascade_pair n ax t _ ψ j hj hcw]
      rw [List.map_map]
      have hfun : ∀ i ∈ List.range (2 ^ t),
          ((fun p => (p.1, j.testBit (n - 1 - p.2))) ∘ fun i =>
            ((compute_theta α).getD i 0,
              ((List.range t).reverse).getD (ctrlIndex ((gray_code t).getD i "")
                ((gray_code t).getD ((i + 1) % 2 ^ t) "")) 0)) i =
          ((compute_theta α).getD i 0,
            pcOdd ((j >>> (n - t)) &&& (grayMod t i ^^^ grayMod t (i + 1)))) := by
        intro i hi
        rw [List.mem_range] at hi
        obtain ⟨e, he, hce, hme⟩ := ctrlIndex_gray t i (by omega) hi
        show ((compute_theta α).getD i 0,
          j.testBit (n - 1 - (((List.range t).reverse).getD _ 0))) = _
        rw [hce, range_reverse_getD t e he, hme]
        rw [show n - 1 - (t - 1 - e) = (n - t) + e by omega]
        rw [← Nat.testBit_shiftRight, testBit_eq_pcOdd_and]
      rw [List.map_congr_left hfun]
      rw [List.range_eq_range']
      rw [pairRun_eq, parAcc_range' t (j >>> (n - t)) _ (2 ^ t) 0,
        phiAcc_range' t (j >>> (n - t)) _ (2 ^ t) 0]
      have hg0 : grayMod t 0 = 0 := by
        unfold grayMod; rw [Nat.zero_mod]; rfl
      have hgN : grayMod t (0 + 2 ^ t) = 0 := by
        unfold grayMod; rw [Nat.zero_add, Nat.mod_self]; rfl
      rw [hg0, hgN, Nat.and_zero, pcOdd_zero]
      have hsum : ∑ i in Finset.range (2 ^ t),
          (if pcOdd ((j >>> (n - t)) &&& grayMod t (0 + i)) then (-1:ℝ) else 1) *
            (compute_theta α).getD (0 + i) 0 =
          α.getD ((j >>> (n - t)) % 2 ^ t) 0 := by
        have hcongr : ∀ i ∈ Finset.range (2 ^ t),
            (if pcOdd ((j >>> (n - t)) &&& grayMod t (0 + i)) then (-1:ℝ) else 1) *
              (compute_theta α).getD (0 + i) 0 =
            (if pcOdd (((j >>> (n - t)) % 2 ^ t) &&& grayIdx i) then (-1:ℝ) else 1) *
              (compute_theta α).getD i 0 := by
          intro i hi
          rw [Finset.mem_range] at hi
          rw [Nat.zero_add]
          unfold grayMod
          rw [Nat.mod_eq_of_lt hi,
            and_mod_two_pow (j >>> (n - t)) (grayIdx i) t (grayIdx_lt t i hi)]
        rw [Finset.sum_congr rfl hcongr]
        exact theta_transform t α hα ((j >>> (n - t)) % 2 ^ t)
          (Nat.mod_lt _ (Nat.pos_pow_of_pos t (by norm_num)))
      rw [hsum]
      rw [show (false.xor false) = false from rfl, if_neg (by simp), one_mul]
      rw [show swapIf false (rotPair ax (α.getD ((j >>> (n - t)) % 2 ^ t) 0)
        (ψ j, ψ (j ^^^ 2 ^ (n - 1 - t)))) = rotPair ax (α.getD ((j >>> (n - t)) % 2 ^ t) 0)
        (ψ j, ψ (j ^^^ 2 ^ (n - 1 - t))) from rfl]
      exact (mplex_pair ax n t ht α ψ j hj).symm
    funext i
    cases hbit : i.testBit (n - 1 - t)
    · exact congrArg Prod.fst (key i hbit)
    · have hi0 : (i ^^^ 2 ^ (n - 1 - t)).testBit (n - 1 - t) = false := by
        rw [testBit_xor_pow_self, hbit]; rfl
      have h := congrArg Prod.snd (key (i ^^^ 2 ^ (n - 1 - t)) hi0)
      simpa [Nat.xor_cancel_right] using h

/-! ### Block-mass invariant of the RY pass -/

lemma sum_range_add_real (f : Nat → ℝ) (m n : Nat) :
    ∑ x in Finset.range (m + n), f x =
      (∑ x in Finset.range m, f x) + ∑ x in Finset.range n, f (m + x) := by
  induction n with
  | zero => simp
  | succ n ih =>
    rw [show m + (n + 1) = (m + n) + 1 by omega, Finset.sum_range_succ, ih,
      Finset.sum_range_succ]
    ring

lemma mod_two_pow_testBit_false (i m q : Nat) (h : i % 2 ^ m = 0) (hq : q < m) :
    i.testBit q = false := by
  have h' : (i % 2 ^ m).testBit q = false := by rw [h]; exact Nat.zero_testBit q
  rw [Nat.testBit_mod_two_pow] at h'
  simpa [hq] using h'

lemma mod_two_pow_eq_zero_of_testBit (i m : Nat) (h : ∀ q < m, i.testBit q = false) :
    i % 2 ^ m = 0 := by
  apply Nat.eq_of_testBit_eq
  intro q
  rw [Nat.testBit_mod_two_pow, Nat.zero_testBit]
  by_cases hq : q < m
  · simp [hq, h q hq]
  · simp [hq]

lemma mod_pow_succ_of_testBit_true (i m : Nat) (h : i % 2 ^ m = 0)
    (hb : i.testBit m = true) : i % 2 ^ (m + 1) = 2 ^ m := by
  apply Nat.eq_of_testBit_eq
  intro q
  rw [Nat.testBit_mod_two_pow]
  by_cases hq : q < m + 1
  · rcases Nat.lt_or_ge q m with h1 | h1
    · rw [mod_two_pow_testBit_false i m q h h1,
        Nat.testBit_two_pow_of_ne (by omega : m ≠ q)]
      simp
    · have hqm : q = m := by omega
      subst hqm
      rw [hb, Nat.testBit_two_pow_self]
      simp [hq]
  · rw [Nat.testBit_two_pow_of_ne (by omega : m ≠ q)]
    simp [hq]

lemma xor_pow_mod (i q m : Nat) (h : m ≤ q) : (i ^^^ 2 ^ q) % 2 ^ m = i % 2 ^ m := by
  apply Nat.eq_of_testBit_eq
  intro r
  rw [Nat.testBit_mod_two_pow, Nat.testBit_mod_two_pow]
  by_cases hr : r < m
  · rw [testBit_xor_pow_ne _ _ _ (by omega)]
  · simp [hr]

lemma xor_pow_of_testBit_false (i q : Nat) (h : i.testBit q = false) :
    i ^^^ 2 ^ q = i + 2 ^ q := by
  induction q generalizing i with
  | zero =>
    simp only [pow_zero]
    have hieven : i % 2 = 0 := by
      have h0 := h
      rw [Nat.testBit_zero] at h0
      simp at h0
      omega
    have hmod : (i ^^^ 1) % 2 = 1 := by
      rw [xor_mod_two]
      omega
    have hdiv : (i ^^^ 1) / 2 = i / 2 := by
      rw [xor_div_two]
      norm_num
    omega
  | succ q ih =>
    have hb : (i / 2).testBit q = false := by
      rw [← Nat.testBit_add_one]
      exact h
    have hpow : (2:Nat) ^ (q + 1) = 2 * 2 ^ q := by ring
    have hmod : (i ^^^ 2 ^ (q + 1)) % 2 = i % 2 := by
      rw [xor_mod_two]
      omega
    have hdiv : (i ^^^ 2 ^ (q + 1)) / 2 = i / 2 + 2 ^ q := by
      rw [xor_div_two, show (2:Nat) ^ (q + 1) / 2 = 2 ^ q by omega]
      exact ih (i / 2) hb
    omega

lemma xor_pow_ge (i q n : Nat) (hq : q < n) (h : 2 ^ n ≤ i) : 2 ^ n ≤ i ^^^ 2 ^ q := by
  by_contra hlt
  push_neg at hlt
  have h1 : (i ^^^ 2 ^ q) >>> n = i >>> n := shiftRight_xor_pow i n q hq
  have h2 : (i ^^^ 2 ^ q) >>> n = 0 := by
    rw [Nat.shiftRight_eq_div_pow]
    exact Nat.div_eq_of_lt hlt
  have h3 : i >>> n ≠ 0 := by
    rw [Nat.shiftRight_eq_div_pow]
    intro h0
    have hpos : 0 < 2 ^ n := Nat.pos_pow_of_pos n (by norm_num)
    have := (Nat.div_eq_zero_iff hpos).mp h0
    omega
  rw [h1] at h2
  exact h3 h2

lemma shiftRight_lt_pow (i n t : Nat) (h : i < 2 ^ n) (htn : t ≤ n) :
    i >>> (n - t) < 2 ^ t := by
  rw [Nat.shiftRight_eq_div_pow]
  apply Nat.div_lt_of_lt_mul
  calc i < 2 ^ n := h
    _ = 2 ^ (n - t) * 2 ^ t := by rw [← pow_add]; congr 1; omega

lemma shiftRight_mul_of_mod_zero (i k : Nat) (h : i % 2 ^ k = 0) :
    (i >>> k) * 2 ^ k = i := by
  rw [Nat.shiftRight_eq_div_pow]
  exact Nat.div_mul_cancel (Nat.dvd_of_mod_eq_zero h)

/-- Total squared magnitude of the length-`2 ^ m` amplitude block starting at
flat index `i`. -/
noncomputable def blockMass (a : List ℂ) (m i : Nat) : ℝ :=
  ∑ l in Finset.range (2 ^ m), Complex.normSq (a.getD (i + l) 0)

lemma blockMass_nonneg (a : List ℂ) (m i : Nat) : 0 ≤ blockMass a m i :=
  Finset.sum_nonneg fun _ _ => Complex.normSq_nonneg _

lemma blockMass_split (a : List ℂ) (k i : Nat) (hk : 1 ≤ k) :
    blockMass a k i = blockMass a (k - 1) i + blockMass a (k - 1) (i + 2 ^ (k - 1)) := by
  unfold blockMass
  have h2 : (2:Nat) ^ k = 2 ^ (k - 1) + 2 ^ (k - 1) := by
    conv_lhs => rw [show k = (k - 1) + 1 by omega]
    ring
  rw [h2, sum_range_add_real]
  congr 1
  apply Finset.sum_congr rfl
  intro l _
  rw [show i + (2 ^ (k - 1) + l) = i + 2 ^ (k - 1) + l by omega]

/-- The amplitude profile after the first `t` RY passes: uniform block
amplitudes `√(block mass)` at the block leaders (indices divisible by the
block length `2 ^ (n - t)`), zero elsewhere. -/
noncomputable def ryState (a : List ℂ) (n t : Nat) : Nat → ℂ :=
  fun i => if i < 2 ^ n ∧ i % 2 ^ (n - t) = 0 then
    ((Real.sqrt (blockMass a (n - t) i) : ℝ) : ℂ) else 0

lemma mplex_Y_apply (n t : Nat) (α : List ℝ) (ψ : Nat → ℂ) (i : Nat) :
    mplex .Y n t α ψ i =
      if i.testBit (n - 1 - t) = false then
        (Real.cos (α.getD ((i >>> (n - t)) % 2 ^ t) 0 / 2) : ℂ) * ψ i -
          (Real.sin (α.getD ((i >>> (n - t)) % 2 ^ t) 0 / 2) : ℂ) *
            ψ (i ^^^ 2 ^ (n - 1 - t))
      else
        (Real.sin (α.getD ((i >>> (n - t)) % 2 ^ t) 0 / 2) : ℂ) *
            ψ (i ^^^ 2 ^ (n - 1 - t)) +
          (Real.cos (α.getD ((i >>> (n - t)) % 2 ^ t) 0 / 2) : ℂ) * ψ i := rfl

lemma mplex_Z_apply (n t : Nat) (α : List ℝ) (ψ : Nat → ℂ) (i : Nat) :
    mplex .Z n t α ψ i =
      if i.testBit (n - 1 - t) = false then
        Complex.exp (-(↑(α.getD ((i >>> (n - t)) % 2 ^ t) 0) / 2) * Complex.I) * ψ i
      else
        Complex.exp ((↑(α.getD ((i >>> (n - t)) % 2 ^ t) 0) / 2) * Complex.I) * ψ i := rfl

lemma ryState_apply (a : List ℂ) (n t i : Nat) :
    ryState a n t i = if i < 2 ^ n ∧ i % 2 ^ (n - t) = 0 then
      ((Real.sqrt (blockMass a (n - t) i) : ℝ) : ℂ) else 0 := rfl

lemma get_alpha_y_getD (a : List ℂ) (n k d : Nat) (hk : 1 ≤ k) (hd : d < 2 ^ (n - k)) :
    (_get_alpha_y a n k).getD d 0 =
      if blockMass a k (d * 2 ^ k) = 0 then 0 else
        2 * Real.arcsin (Real.sqrt (blockMass a (k - 1) (d * 2 ^ k + 2 ^ (k - 1))) /
          Real.sqrt (blockMass a k (d * 2 ^ k))) := by
  unfold _get_alpha_y
  rw [getD_range_map _ _ d, if_pos hd]
  show (if ((List.range (2 ^ k)).map fun l =>
      Complex.normSq (a.getD (d * 2 ^ k + l) 0)).sum = 0 then (0:ℝ) else
    2 * Real.arcsin (Real.sqrt (((List.range (2 ^ (k - 1))).map fun l =>
      Complex.normSq (a.getD ((2 * d + 1) * 2 ^ (k - 1) + l) 0)).sum) /
      Real.sqrt (((List.range (2 ^ k)).map fun l =>
        Complex.normSq (a.getD (d * 2 ^ k + l) 0)).sum))) = _
  have hp : (2:Nat) ^ k = 2 * 2 ^ (k - 1) := by
    conv_lhs => rw [show k = (k - 1) + 1 by omega]
    ring
  have hnum : ((List.range (2 ^ (k - 1))).map fun l =>
      Complex.normSq (a.getD ((2 * d + 1) * 2 ^ (k - 1) + l) 0)).sum =
      blockMass a (k - 1) (d * 2 ^ k + 2 ^ (k - 1)) := by
    rw [list_sum_range]
    unfold blockMass
    apply Finset.sum_congr rfl
    intro l _
    rw [show (2 * d + 1) * 2 ^ (k - 1) + l = d * 2 ^ k + 2 ^ (k - 1) + l by rw [hp]; ring]
  have hden : ((List.range (2 ^ k)).map fun l =>
      Complex.normSq (a.getD (d * 2 ^ k + l) 0)).sum = blockMass a k (d * 2 ^ k) := by
    rw [list_sum_range]
    rfl
  rw [hnum, hden]

lemma ry_step (a : List ℂ) (n t : Nat) (ht : t < n) :
    mplex .Y n t (_get_alpha_y a n (n - t)) (ryState a n t) = ryState a n (t + 1) := by
  funext i
  have hk1 : 1 ≤ n - t := by omega
  have htb : n - 1 - t = n - t - 1 := by omega
  have hnk : n - (n - t) = t := by omega
  rw [mplex_Y_apply, ryState_apply a n (t + 1) i, show n - (t + 1) = n - t - 1 by omega,
    htb]
  by_cases hin : i < 2 ^ n
  · by_cases hmod : i % 2 ^ (n - t - 1) = 0
    · have hdlt : i >>> (n - t) < 2 ^ t := shiftRight_lt_pow i n t hin (by omega)
      have hdmod : (i >>> (n - t)) % 2 ^ t = i >>> (n - t) := Nat.mod_eq_of_lt hdlt
      cases hbit : i.testBit (n - t - 1)
      · -- target bit 0 : full-block leader
        have hmodk : i % 2 ^ (n - t) = 0 := by
          apply mod_two_pow_eq_zero_of_testBit
          intro q hq
          rcases Nat.lt_or_ge q (n - t - 1) with h1 | h1
          · exact mod_two_pow_testBit_false i (n - t - 1) q hmod h1
          · rw [show q = n - t - 1 by omega]
            exact hbit
        have hieq : (i >>> (n - t)) * 2 ^ (n - t) = i :=
          shiftRight_mul_of_mod_zero i (n - t) hmodk
        have hpadd : i ^^^ 2 ^ (n - t - 1) = i + 2 ^ (n - t - 1) :=
          xor_pow_of_testBit_false i (n - t - 1) hbit
        have hψi : ryState a n t i = ((Real.sqrt (blockMass a (n - t) i) : ℝ) : ℂ) := by
          rw [ryState_apply, if_pos ⟨hin, hmodk⟩]
        have hpmod : (i + 2 ^ (n - t - 1)) % 2 ^ (n - t) = 2 ^ (n - t - 1) := by
          have h1 : (2:Nat) ^ (n - t - 1) < 2 ^ (n - t) :=
            Nat.pow_lt_pow_right (by norm_num) (by omega)
          rw [Nat.add_mod, hmodk, Nat.zero_add, Nat.mod_mod_of_dvd _ dvd_rfl,
            Nat.mod_eq_of_lt h1]
        have hψp : ryState a n t (i ^^^ 2 ^ (n - t - 1)) = 0 := by
          rw [hpadd, ryState_apply, if_neg ?_]
          rintro ⟨-, hm⟩
          rw [hpmod] at hm
          exact (pow_pos (by norm_num : (0:ℕ) < 2) _).ne' hm
        rw [if_pos (rfl : false = false), hψi, hψp, mul_zero, sub_zero,
          if_pos (And.intro hin hmod)]
        rw [hdmod, get_alpha_y_getD a n (n - t) (i >>> (n - t)) hk1
          (by rw [hnk]; exact hdlt), hieq]
        have hsplit := blockMass_split a (n - t) i hk1
        have hnn0 : 0 ≤ blockMass a (n - t - 1) i := blockMass_nonneg _ _ _
        have hnn1 : 0 ≤ blockMass a (n - t - 1) (i + 2 ^ (n - t - 1)) :=
          blockMass_nonneg _ _ _
        have hreal : Real.cos ((if blockMass a (n - t) i = 0 then 0 else
            2 * Real.arcsin (Real.sqrt (blockMass a (n - t - 1) (i + 2 ^ (n - t - 1))) /
              Real.sqrt (blockMass a (n - t) i))) / 2) *
            Real.sqrt (blockMass a (n - t) i) =
            Real.sqrt (blockMass a (n - t - 1) i) := by
          by_cases hden : blockMass a (n - t) i = 0
          · rw [if_pos hden, hden]
            have h0 : blockMass a (n - t - 1) i = 0 := by linarith
            rw [h0]
            simp
          · rw [if_neg hden]
            have hdpos : 0 < blockMass a (n - t) i :=
              lt_of_le_of_ne (blockMass_nonneg _ _ _) (Ne.symm hden)
            rw [show 2 * Real.arcsin (Real.sqrt (blockMass a (n - t - 1)
                (i + 2 ^ (n - t - 1))) / Real.sqrt (blockMass a (n - t) i)) / 2 =
              Real.arcsin (Real.sqrt (blockMass a (n - t - 1) (i + 2 ^ (n - t - 1))) /
                Real.sqrt (blockMass a (n - t) i)) by ring]
            rw [Real.cos_arcsin]
            rw [div_pow, Real.sq_sqrt hnn1, Real.sq_sqrt (le_of_lt hdpos)]
            rw [show 1 - blockMass a (n - t - 1) (i + 2 ^ (n - t - 1)) /
                blockMass a (n - t) i =
                blockMass a (n - t - 1) i / blockMass a (n - t) i by
              field_simp
              linarith]
            rw [Real.sqrt_div hnn0, div_mul_cancel₀]
            exact Real.sqrt_ne_zero'.mpr hdpos
        rw [← Complex.ofReal_mul, hreal]
      · -- target bit 1
        have hb0 : (i ^^^ 2 ^ (n - t - 1)).testBit (n - t - 1) = false := by
          rw [testBit_xor_pow_self, hbit]
          rfl
        have hpadd : (i ^^^ 2 ^ (n - t - 1)) + 2 ^ (n - t - 1) = i := by
          have h1 := xor_pow_of_testBit_false (i ^^^ 2 ^ (n - t - 1)) (n - t - 1) hb0
          rw [Nat.xor_cancel_right] at h1
          omega
        have hjmod : (i ^^^ 2 ^ (n - t - 1)) % 2 ^ (n - t) = 0 := by
          apply mod_two_pow_eq_zero_of_testBit
          intro q hq
          rcases Nat.lt_or_ge q (n - t - 1) with h1 | h1
          · rw [testBit_xor_pow_ne _ _ _ (by omega)]
            exact mod_two_pow_testBit_false i (n - t - 1) q hmod h1
          · rw [show q = n - t - 1 by omega]
            exact hb0
        have hjin : (i ^^^ 2 ^ (n - t - 1)) < 2 ^ n := by omega
        have himodk : i % 2 ^ (n - t) = 2 ^ (n - t - 1) := by
          have h1 := mod_pow_succ_of_testBit_true i (n - t - 1) hmod hbit
          rwa [show n - t - 1 + 1 = n - t by omega] at h1
        have hψi : ryState a n t i = 0 := by
          rw [ryState_apply, if_neg ?_]
          rintro ⟨-, hm⟩
          rw [himodk] at hm
          exact (pow_pos (by norm_num : (0:ℕ) < 2) _).ne' hm
        have hψj : ryState a n t (i ^^^ 2 ^ (n - t - 1)) =
            ((Real.sqrt (blockMass a (n - t) (i ^^^ 2 ^ (n - t - 1))) : ℝ) : ℂ) := by
          rw [ryState_apply, if_pos ⟨hjin, hjmod⟩]
        have hdj : (i ^^^ 2 ^ (n - t - 1)) >>> (n - t) = i >>> (n - t) :=
          shiftRight_xor_pow i (n - t) (n - t - 1) (by omega)
        have hjeq : (i >>> (n - t)) * 2 ^ (n - t) = i ^^^ 2 ^ (n - t - 1) := by
          rw [← hdj]
          exact shiftRight_mul_of_mod_zero _ _ hjmod
        rw [if_neg (show ¬(true = false) by simp), hψi, hψj, mul_zero, add_zero,
          if_pos (And.intro hin hmod)]
        rw [hdmod, get_alpha_y_getD a n (n - t) (i >>> (n - t)) hk1
          (by rw [hnk]; exact hdlt), hjeq, hpadd]
        have hsplit := blockMass_split a (n - t) (i ^^^ 2 ^ (n - t - 1)) hk1
        rw [hpadd] at hsplit
        have hnn0 : 0 ≤ blockMass a (n - t - 1) (i ^^^ 2 ^ (n - t - 1)) :=
          blockMass_nonneg _ _ _
        have hnn1 : 0 ≤ blockMass a (n - t - 1) i := blockMass_nonneg _ _ _
        have hreal : Real.sin ((if blockMass a (n - t) (i ^^^ 2 ^ (n - t - 1)) = 0 then 0
            else 2 * Real.arcsin (Real.sqrt (blockMass a (n - t - 1) i) /
              Real.sqrt (blockMass a (n - t) (i ^^^ 2 ^ (n - t - 1))))) / 2) *
            Real.sqrt (blockMass a (n - t) (i ^^^ 2 ^ (n - t - 1))) =
            Real.sqrt (blockMass a (n - t - 1) i) := by
          by_cases hden : blockMass a (n - t) (i ^^^ 2 ^ (n - t - 1)) = 0
          · rw [if_pos hden, hden]
            have h0 : blockMass a (n - t - 1) i = 0 := by linarith
            rw [h0]
            simp
          · rw [if_neg hden]
            have hdpos : 0 < blockMass a (n - t) (i ^^^ 2 ^ (n - t - 1)) :=
              lt_of_le_of_ne (blockMass_nonneg _ _ _) (Ne.symm hden)
            have hsq : 0 < Real.sqrt (blockMass a (n - t) (i ^^^ 2 ^ (n - t - 1))) :=
              Real.sqrt_pos.mpr hdpos
            rw [show 2 * Real.arcsin (Real.sqrt (blockMass a (n - t - 1) i) /
                Real.sqrt (blockMass a (n - t) (i ^^^ 2 ^ (n - t - 1)))) / 2 =
              Real.arcsin (Real.sqrt (blockMass a (n - t - 1) i) /
                Real.sqrt (blockMass a (n - t) (i ^^^ 2 ^ (n - t - 1)))) by ring]
            rw [Real.sin_arcsin ?hlo ?hhi]
            · rw [div_mul_cancel₀]
              exact hsq.ne'
            case hlo =>
              have h0 : (0:ℝ) ≤ Real.sqrt (blockMass a (n - t - 1) i) /
                  Real.sqrt (blockMass a (n - t) (i ^^^ 2 ^ (n - t - 1))) := by positivity
              linarith
            case hhi =>
              rw [div_le_one hsq]
              apply Real.sqrt_le_sqrt
              linarith
        rw [← Complex.ofReal_mul, hreal]
    · -- not a half-block leader: everything vanishes
      have hψi : ryState a n t i = 0 := by
        rw [ryState_apply, if_neg ?_]
        rintro ⟨-, hm⟩
        exact hmod (mod_two_pow_eq_zero_of_testBit _ _ fun q hq =>
          mod_two_pow_testBit_false i (n - t) q hm (by omega))
      have hψp : ryState a n t (i ^^^ 2 ^ (n - t - 1)) = 0 := by
        rw [ryState_apply, if_neg ?_]
        rintro ⟨-, hm⟩
        apply hmod
        rw [← xor_pow_mod i (n - t - 1) (n - t - 1) (le_refl _)]
        exact mod_two_pow_eq_zero_of_testBit _ _ fun q hq =>
          mod_two_pow_testBit_false _ (n - t) q hm (by omega)
      rw [hψi, hψp,
        if_neg (show ¬(i < 2 ^ n ∧ i % 2 ^ (n - t - 1) = 0) from fun hc => hmod hc.2)]
      split <;> simp
  · -- outside the computational register
    have hψi : ryState a n t i = 0 := by
      rw [ryState_apply, if_neg (by tauto)]
    have hψp : ryState a n t (i ^^^ 2 ^ (n - t - 1)) = 0 := by
      rw [ryState_apply, if_neg ?_]
      rintro ⟨hcon, -⟩
      have := xor_pow_ge i (n - t - 1) n (by omega) (by omega)
      omega
    rw [hψi, hψp,
      if_neg (show ¬(i < 2 ^ n ∧ i % 2 ^ (n - t - 1) = 0) from fun hc => hin hc.1)]
    split <;> simp

lemma list_map_sum_getD (a : List ℂ) (f : ℂ → ℝ) :
    (a.map f).sum = ∑ l in Finset.range a.length, f (a.getD l 0) := by
  induction a with
  | nil => simp
  | cons x a ih =>
    rw [List.map_cons, List.sum_cons, List.length_cons, Finset.sum_range_succ']
    have h1 : ∀ l, (x :: a).getD (l + 1) 0 = a.getD l 0 := fun l => rfl
    have h2 : (x :: a).getD 0 0 = x := rfl
    simp only [h1, h2]
    rw [ih]
    ring

lemma range_take (t n : Nat) (h : t ≤ n) : (List.range n).take t = List.range t := by
  rw [List.take_range]
  congr 1
  omega

lemma range_getD (n t : Nat) (h : t < n) : (List.range n).getD t 0 = t := by
  rw [List.getD_eq_getElem?_getD, List.getElem?_range h]
  rfl

lemma flatMap_congr_mem {α β : Type} (l : List α) (f g : α → List β)
    (h : ∀ x ∈ l, f x = g x) : l.flatMap f = l.flatMap g := by
  induction l with
  | nil => rfl
  | cons x l ih =>
    rw [List.flatMap_cons, List.flatMap_cons, h x (List.mem_cons_self x l),
      ih (fun y hy => h y (List.mem_cons_of_mem x hy))]

lemma runGates_passes (n : Nat) (gatesOf : Nat → List Gate) (St : Nat → Nat → ℂ) :
    ∀ m, (∀ t < m, runGates n (gatesOf t) (St t) = St (t + 1)) →
      runGates n ((List.range m).flatMap gatesOf) (St 0) = St m := by
  intro m
  induction m with
  | zero => intro _; rfl
  | succ m ih =>
    intro h
    rw [List.range_succ, List.flatMap_append, runGates_append,
      ih (fun t ht => h t (by omega))]
    simp only [List.flatMap_cons, List.flatMap_nil, List.append_nil]
    exact h m (by omega)

lemma ry_run (a : List ℂ) (n : Nat)
    (hnorm : (a.map Complex.normSq).sum = 1) (hlen : a.length = 2 ^ n) :
    runGates n ((List.range n).flatMap fun t =>
      _uniform_rotation_dagger .Y (_get_alpha_y a n (n - t))
        (((List.range n).take t).reverse) ((List.range n).getD t 0)) e0 =
    ryState a n n := by
  have he0 : e0 = ryState a n 0 := by
    funext i
    rw [ryState_apply]
    by_cases hi : i = 0
    · subst hi
      rw [if_pos ⟨Nat.pos_pow_of_pos n (by norm_num), Nat.zero_mod _⟩]
      show (1:ℂ) = _
      have hb : blockMass a (n - 0) 0 = 1 := by
        show blockMass a n 0 = 1
        unfold blockMass
        rw [← hnorm, list_map_sum_getD a Complex.normSq, hlen]
        apply Finset.sum_congr rfl
        intro l _
        rw [Nat.zero_add]
      rw [hb, Real.sqrt_one]
      norm_num
    · show (if i = 0 then (1:ℂ) else 0) = _
      rw [if_neg hi]
      by_cases hcond : i < 2 ^ n ∧ i % 2 ^ (n - 0) = 0
      · exfalso
        obtain ⟨h1, h2⟩ := hcond
        rw [show n - 0 = n from rfl, Nat.mod_eq_of_lt h1] at h2
        exact hi h2
      · rw [if_neg hcond]
  rw [he0]
  have hsteps : ∀ t < n, runGates n (_uniform_rotation_dagger .Y (_get_alpha_y a n (n - t))
      (((List.range n).take t).reverse) ((List.range n).getD t 0)) (ryState a n t) =
      ryState a n (t + 1) := by
    intro t ht
    rw [range_take t n (by omega), range_getD n t ht]
    rw [uniform_cascade_eq_mplex .Y n t ht (_get_alpha_y a n (n - t)) ?_ (ryState a n t)]
    · exact ry_step a n t ht
    · unfold _get_alpha_y
      rw [List.length_map, List.length_range, show n - (n - t) = t by omega]
  exact runGates_passes n _ (fun t => ryState a n t) n hsteps

/-! ### Phase-mean invariant of the RZ pass -/

/-- Mean of the phase list over the length-`2 ^ k` block containing index
`i`. -/
noncomputable def blockMean (ω : List ℝ) (k i : Nat) : ℝ :=
  (∑ l in Finset.range (2 ^ k), ω.getD ((i >>> k) * 2 ^ k + l) 0) / 2 ^ k

/-- The state after the RY passes and the first `t` RZ passes: each amplitude
carries the phase accumulated so far, the difference between its own block
mean at the current level and the global mean. -/
noncomputable def zState (a : List ℂ) (n t : Nat) : Nat → ℂ :=
  fun i =>
    if i < 2 ^ n then
      Complex.exp (((blockMean (a.map Complex.arg) (n - t) i -
          blockMean (a.map Complex.arg) n i : ℝ) : ℂ) * Complex.I) *
        ((Real.sqrt (Complex.normSq (a.getD i 0)) : ℝ) : ℂ)
    else 0

lemma zState_apply (a : List ℂ) (n t i : Nat) :
    zState a n t i =
      if i < 2 ^ n then
        Complex.exp (((blockMean (a.map Complex.arg) (n - t) i -
            blockMean (a.map Complex.arg) n i : ℝ) : ℂ) * Complex.I) *
          ((Real.sqrt (Complex.normSq (a.getD i 0)) : ℝ) : ℂ)
      else 0 := rfl

lemma get_alpha_z_getD (ω : List ℝ) (n k d : Nat) (hd : d < 2 ^ (n - k)) :
    (_get_alpha_z ω n k).getD d 0 =
      ((∑ l in Finset.range (2 ^ (k - 1)), ω.getD ((2 * d + 1) * 2 ^ (k - 1) + l) 0) -
        ∑ l in Finset.range (2 ^ (k - 1)), ω.getD (2 * d * 2 ^ (k - 1) + l) 0) /
        2 ^ (k - 1) := by
  unfold _get_alpha_z
  rw [getD_range_map _ _ d, if_pos hd]
  show (((List.range (2 ^ (k - 1))).map fun l =>
      ω.getD ((2 * d + 1) * 2 ^ (k - 1) + l) 0 -
        ω.getD (2 * d * 2 ^ (k - 1) + l) 0).sum) / 2 ^ (k - 1) = _
  congr 1
  rw [list_sum_range, Finset.sum_sub_distrib]

lemma shiftRight_pred (i k : Nat) (hk : 1 ≤ k) :
    i >>> (k - 1) = 2 * (i >>> k) + (if i.testBit (k - 1) then 1 else 0) := by
  have hbit : i.testBit (k - 1) = decide (i / 2 ^ (k - 1) % 2 = 1) :=
    Nat.testBit_to_div_mod
  rw [Nat.shiftRight_eq_div_pow, Nat.shiftRight_eq_div_pow, hbit]
  have hdd : i / 2 ^ k = i / 2 ^ (k - 1) / 2 := by
    rw [Nat.div_div_eq_div_mul]
    congr 1
    conv_lhs => rw [show k = (k - 1) + 1 by omega]
    ring
  rw [hdd]
  rcases Nat.mod_two_eq_zero_or_one (i / 2 ^ (k - 1)) with h | h
  · rw [if_neg (by simp [h])]
    omega
  · rw [if_pos (by simp [h])]
    omega

lemma z_step (a : List ℂ) (n t : Nat) (ht : t < n) :
    mplex .Z n t (_get_alpha_z (a.map Complex.arg) n (n - t)) (zState a n t) =
      zState a n (t + 1) := by
  funext i
  have hk1 : 1 ≤ n - t := by omega
  rw [mplex_Z_apply, show n - 1 - t = n - t - 1 by omega]
  by_cases hin : i < 2 ^ n
  · have hdlt : i >>> (n - t) < 2 ^ t := shiftRight_lt_pow i n t hin (by omega)
    have hdmod : (i >>> (n - t)) % 2 ^ t = i >>> (n - t) := Nat.mod_eq_of_lt hdlt
    rw [hdmod, get_alpha_z_getD (a.map Complex.arg) n (n - t) (i >>> (n - t))
      (by rw [show n - (n - t) = t by omega]; exact hdlt)]
    have hp2 : ((2:ℝ) ^ (n - t - 1)) ≠ 0 := by positivity
    have hpn : ((2:ℝ) ^ n) ≠ 0 := by positivity
    have hpk : (2:ℝ) ^ (n - t) = 2 * 2 ^ (n - t - 1) := by
      conv_lhs => rw [show n - t = (n - t - 1) + 1 by omega]
      ring
    have hnat : (2:Nat) ^ (n - t) = 2 * 2 ^ (n - t - 1) := by
      conv_lhs => rw [show n - t = (n - t - 1) + 1 by omega]
      ring
    have hsum : (∑ l in Finset.range (2 ^ (n - t)),
        (a.map Complex.arg).getD ((i >>> (n - t)) * 2 ^ (n - t) + l) 0) =
        (∑ l in Finset.range (2 ^ (n - t - 1)),
          (a.map Complex.arg).getD (2 * (i >>> (n - t)) * 2 ^ (n - t - 1) + l) 0) +
        (∑ l in Finset.range (2 ^ (n - t - 1)),
          (a.map Complex.arg).getD ((2 * (i >>> (n - t)) + 1) * 2 ^ (n - t - 1) + l) 0) := by
      have hp2n : (2:Nat) ^ (n - t) = 2 ^ (n - t - 1) + 2 ^ (n - t - 1) := by
        conv_lhs => rw [show n - t = (n - t - 1) + 1 by omega]
        ring
      rw [hp2n, sum_range_add_real]
      congr 1
      · apply Finset.sum_congr rfl
        intro l _
        rw [show i >>> (n - t) * (2 ^ (n - t - 1) + 2 ^ (n - t - 1)) + l =
          2 * (i >>> (n - t)) * 2 ^ (n - t - 1) + l by ring]
      · apply Finset.sum_congr rfl
        intro l _
        rw [show i >>> (n - t) * (2 ^ (n - t - 1) + 2 ^ (n - t - 1)) +
            (2 ^ (n - t - 1) + l) =
          (2 * (i >>> (n - t)) + 1) * 2 ^ (n - t - 1) + l by ring]
    cases hbit : i.testBit (n - t - 1)
    · have hd' : i >>> (n - t - 1) = 2 * (i >>> (n - t)) := by
        rw [shiftRight_pred i (n - t) hk1, hbit]
        simp
      have hmean : blockMean (a.map Complex.arg) (n - t - 1) i =
          (∑ l in Finset.range (2 ^ (n - t - 1)),
            (a.map Complex.arg).getD (2 * (i >>> (n - t)) * 2 ^ (n - t - 1) + l) 0) /
            2 ^ (n - t - 1) := by
        unfold blockMean
        rw [hd']
      have hfull : blockMean (a.map Complex.arg) (n - t - 1) i -
          blockMean (a.map Complex.arg) n i =
          -((((∑ l in Finset.range (2 ^ (n - t - 1)),
              (a.map Complex.arg).getD ((2 * (i >>> (n - t)) + 1) * 2 ^ (n - t - 1) + l) 0) -
            ∑ l in Finset.range (2 ^ (n - t - 1)),
              (a.map Complex.arg).getD (2 * (i >>> (n - t)) * 2 ^ (n - t - 1) + l) 0) /
            2 ^ (n - t - 1)) / 2) +
            (blockMean (a.map Complex.arg) (n - t) i -
              blockMean (a.map Complex.arg) n i) := by
        rw [hmean]
        unfold blockMean
        rw [hsum, hpk]
        field_simp
        ring
      rw [if_pos (rfl : false = false), zState_apply a n t i, if_pos hin,
        zState_apply a n (t + 1) i, if_pos hin, show n - (t + 1) = n - t - 1 by omega,
        hfull, ← mul_assoc, ← Complex.exp_add]
      congr 2
      push_cast
      ring
    · have hd' : i >>> (n - t - 1) = 2 * (i >>> (n - t)) + 1 := by
        rw [shiftRight_pred i (n - t) hk1, hbit]
        simp
      have hmean : blockMean (a.map Complex.arg) (n - t - 1) i =
          (∑ l in Finset.range (2 ^ (n - t - 1)),
            (a.map Complex.arg).getD ((2 * (i >>> (n - t)) + 1) * 2 ^ (n - t - 1) + l) 0) /
            2 ^ (n - t - 1) := by
        unfold blockMean
        rw [hd']
      have hfull : blockMean (a.map Complex.arg) (n - t - 1) i -
          blockMean (a.map Complex.arg) n i =
          (((∑ l in Finset.range (2 ^ (n - t - 1)),
              (a.map Complex.arg).getD ((2 * (i >>> (n - t)) + 1) * 2 ^ (n - t - 1) + l) 0) -
            ∑ l in Finset.range (2 ^ (n - t - 1)),
              (a.map Complex.arg).getD (2 * (i >>> (n - t)) * 2 ^ (n - t - 1) + l) 0) /
            2 ^ (n - t - 1)) / 2 +
            (blockMean (a.map Complex.arg) (n - t) i -
              blockMean (a.map Complex.arg) n i) := by
        rw [hmean]
        unfold blockMean
        rw [hsum, hpk]
        field_simp
        ring
      rw [if_neg (show ¬(true = false) by simp), zState_apply a n t i, if_pos hin,
        zState_apply a n (t + 1) i, if_pos hin, show n - (t + 1) = n - t - 1 by omega,
        hfull, ← mul_assoc, ← Complex.exp_add]
      congr 2
      push_cast
      ring
  · rw [zState_apply a n t i, if_neg hin, zState_apply a n (t + 1) i, if_neg hin]
    split <;> simp

lemma zState_zero (a : List ℂ) (n : Nat) : zState a n 0 = ryState a n n := by
  funext i
  rw [zState_apply, ryState_apply]
  by_cases hin : i < 2 ^ n
  · rw [if_pos hin, if_pos ⟨hin, by rw [Nat.sub_self, pow_zero, Nat.mod_one]⟩]
    rw [show n - 0 = n from rfl, sub_self, Complex.ofReal_zero, zero_mul,
      Complex.exp_zero, one_mul]
    congr 2
    rw [Nat.sub_self]
    unfold blockMass
    rw [pow_zero, Finset.sum_range_one, Nat.add_zero]
  · rw [if_neg hin, if_neg (by tauto)]

lemma z_run (a : List ℂ) (n : Nat) :
    runGates n ((List.range n).flatMap fun t =>
      _uniform_rotation_dagger .Z (_get_alpha_z (a.map Complex.arg) n (n - t))
        (((List.range n).take t).reverse) ((List.range n).getD t 0)) (ryState a n n) =
    zState a n n := by
  rw [← zState_zero a n]
  have hsteps : ∀ t < n, runGates n (_uniform_rotation_dagger .Z
      (_get_alpha_z (a.map Complex.arg) n (n - t))
      (((List.range n).take t).reverse) ((List.range n).getD t 0)) (zState a n t) =
      zState a n (t + 1) := by
    intro t ht
    rw [range_take t n (by omega), range_getD n t ht]
    rw [uniform_cascade_eq_mplex .Z n t ht _ ?_ (zState a n t)]
    · exact z_step a n t ht
    · unfold _get_alpha_z
      rw [List.length_map, List.length_range, show n - (n - t) = t by omega]
  exact runGates_passes n _ (fun t => zState a n t) n hsteps

lemma mottonenGates_range (a : List ℂ) (n : Nat) :
    mottonenGates a (List.range n) =
      if ∀ c ∈ a, c.im = 0 then
        (List.range n).flatMap (fun t =>
          _uniform_rotation_dagger .Y (_get_alpha_y a n (n - t))
            (((List.range n).take t).reverse) ((List.range n).getD t 0))
      else
        ((List.range n).flatMap fun t =>
          _uniform_rotation_dagger .Y (_get_alpha_y a n (n - t))
            (((List.range n).take t).reverse) ((List.range n).getD t 0)) ++
        ((List.range n).flatMap fun t =>
          _uniform_rotation_dagger .Z (_get_alpha_z (a.map Complex.arg) n (n - t))
            (((List.range n).take t).reverse) ((List.range n).getD t 0)) := by
  unfold mottonenGates
  simp only [List.length_range]

lemma mottonen_run_allreal (a : List ℂ) (n : Nat) (hlen : a.length = 2 ^ n)
    (hnorm : (a.map Complex.normSq).sum = 1) (him : ∀ c ∈ a, c.im = 0) :
    runGates n (mottonenGates a (List.range n)) e0 = ryState a n n := by
  rw [mottonenGates_range, if_pos him]
  exact ry_run a n hnorm hlen

lemma mottonen_run_complex (a : List ℂ) (n : Nat) (hlen : a.length = 2 ^ n)
    (hnorm : (a.map Complex.normSq).sum = 1) (him : ¬ ∀ c ∈ a, c.im = 0) :
    runGates n (mottonenGates a (List.range n)) e0 = zState a n n := by
  rw [mottonenGates_range, if_neg him, runGates_append, ry_run a n hnorm hlen]
  exact z_run a n

/-! ### Fidelity of the prepared state -/

/-- Inner product `⟨ψ|v⟩` of a state function against an amplitude list over
the `2 ^ n` basis states. -/
noncomputable def innerProd (n : Nat) (ψ : Nat → ℂ) (v : List ℂ) : ℂ :=
  ∑ i in Finset.range (2 ^ n), (starRingEnd ℂ) (ψ i) * v.getD i 0

lemma ryState_final (a : List ℂ) (n i : Nat) (hin : i < 2 ^ n) :
    ryState a n n i = ((Real.sqrt (Complex.normSq (a.getD i 0)) : ℝ) : ℂ) := by
  rw [ryState_apply, if_pos ⟨hin, by rw [Nat.sub_self, pow_zero, Nat.mod_one]⟩]
  congr 2
  rw [Nat.sub_self]
  unfold blockMass
  rw [pow_zero, Finset.sum_range_one, Nat.add_zero]

lemma conj_phase_term (c : ℂ) (G : ℝ) :
    (starRingEnd ℂ) (Complex.exp (((c.arg - G : ℝ) : ℂ) * Complex.I) *
        ((Real.sqrt (Complex.normSq c) : ℝ) : ℂ)) * c =
      Complex.exp (((G : ℝ) : ℂ) * Complex.I) * ((Complex.normSq c : ℝ) : ℂ) := by
  rw [map_mul, Complex.conj_ofReal, ← Complex.exp_conj, map_mul, Complex.conj_ofReal,
    Complex.conj_I]
  rw [show Real.sqrt (Complex.normSq c) = Complex.abs c from Complex.abs_apply.symm]
  nth_rewrite 3 [← Complex.abs_mul_exp_arg_mul_I c]
  rw [show Complex.exp (↑(c.arg - G) * -Complex.I) * ↑(Complex.abs c) *
      (↑(Complex.abs c) * Complex.exp (↑c.arg * Complex.I)) =
    Complex.exp (↑(c.arg - G) * -Complex.I) * Complex.exp (↑c.arg * Complex.I) *
      (↑(Complex.abs c) * ↑(Complex.abs c)) by ring]
  rw [← Complex.exp_add, ← Complex.ofReal_mul,
    show Complex.abs c * Complex.abs c = Complex.normSq c by rw [← Complex.sq_abs]; ring]
  congr 2
  push_cast
  ring

lemma innerProd_allreal (a : List ℂ) (n : Nat) (hlen : a.length = 2 ^ n)
    (hnorm : (a.map Complex.normSq).sum = 1)
    (hsgn : (∀ c ∈ a, c.im = 0 ∧ 0 ≤ c.re) ∨ (∀ c ∈ a, c.im = 0 ∧ c.re ≤ 0)) :
    Complex.abs (innerProd n (ryState a n n) a) ^ 2 = 1 := by
  have hsum1 : (∑ i in Finset.range (2 ^ n), Complex.normSq (a.getD i 0)) = 1 := by
    rw [← hlen, ← list_map_sum_getD a Complex.normSq]
    exact hnorm
  rcases hsgn with hs | hs
  · have hterm : ∀ i ∈ Finset.range (2 ^ n),
        (starRingEnd ℂ) (ryState a n n i) * a.getD i 0 =
          ((Complex.normSq (a.getD i 0) : ℝ) : ℂ) := by
      intro i hi
      rw [Finset.mem_range] at hi
      have hmem : a.getD i 0 ∈ a := by
        rw [List.getD_eq_getElem?_getD,
          List.getElem?_eq_getElem (show i < a.length by omega)]
        exact List.getElem_mem _
      obtain ⟨him, hre⟩ := hs _ hmem
      rw [ryState_final a n i hi, Complex.conj_ofReal]
      have h1 : Real.sqrt (Complex.normSq (a.getD i 0)) = (a.getD i 0).re := by
        rw [Complex.normSq_apply, him, mul_zero, add_zero]
        exact Real.sqrt_mul_self hre
      rw [h1]
      apply Complex.ext
      · rw [Complex.mul_re, Complex.ofReal_re, Complex.ofReal_im, Complex.ofReal_re,
          Complex.normSq_apply, him]
        ring
      · rw [Complex.mul_im, Complex.ofReal_re, Complex.ofReal_im, Complex.ofReal_im, him]
        ring
    unfold innerProd
    rw [Finset.sum_congr rfl hterm, ← Complex.ofReal_sum, hsum1]
    simp
  · have hterm : ∀ i ∈ Finset.range (2 ^ n),
        (starRingEnd ℂ) (ryState a n n i) * a.getD i 0 =
          -((Complex.normSq (a.getD i 0) : ℝ) : ℂ) := by
      intro i hi
      rw [Finset.mem_range] at hi
      have hmem : a.getD i 0 ∈ a := by
        rw [List.getD_eq_getElem?_getD,
          List.getElem?_eq_getElem (show i < a.length by omega)]
        exact List.getElem_mem _
      obtain ⟨him, hre⟩ := hs _ hmem
      rw [ryState_final a n i hi, Complex.conj_ofReal]
      have h1 : Real.sqrt (Complex.normSq (a.getD i 0)) = -(a.getD i 0).re := by
        rw [Complex.normSq_apply, him, mul_zero, add_zero,
          show (a.getD i 0).re * (a.getD i 0).re =
            (-(a.getD i 0).re) * (-(a.getD i 0).re) by ring]
        exact Real.sqrt_mul_self (by linarith)
      rw [h1]
      apply Complex.ext
      · rw [Complex.neg_re, Complex.mul_re, Complex.ofReal_re, Complex.ofReal_im,
          Complex.ofReal_re, Complex.normSq_apply, him]
        ring
      · rw [Complex.neg_im, Complex.mul_im, Complex.ofReal_re, Complex.ofReal_im,
          Complex.ofReal_im, him]
        ring
    unfold innerProd
    rw [Finset.sum_congr rfl hterm, Finset.sum_neg_distrib, ← Complex.ofReal_sum, hsum1]
    simp

lemma innerProd_complexcase (a : List ℂ) (n : Nat) (hlen : a.length = 2 ^ n)
    (hnorm : (a.map Complex.normSq).sum = 1) :
    Complex.abs (innerProd n (zState a n n) a) ^ 2 = 1 := by
  have hsum1 : (∑ i in Finset.range (2 ^ n), Complex.normSq (a.getD i 0)) = 1 := by
    rw [← hlen, ← list_map_sum_getD a Complex.normSq]
    exact hnorm
  have hterm : ∀ i ∈ Finset.range (2 ^ n),
      (starRingEnd ℂ) (zState a n n i) * a.getD i 0 =
        Complex.exp ((((∑ l in Finset.range (2 ^ n), (a.map Complex.arg).getD l 0) /
            2 ^ n : ℝ) : ℂ) * Complex.I) * ((Complex.normSq (a.getD i 0) : ℝ) : ℂ) := by
    intro i hi
    rw [Finset.mem_range] at hi
    rw [zState_apply, if_pos hi]
    have hm0 : blockMean (a.map Complex.arg) (n - n) i = (a.getD i 0).arg := by
      rw [Nat.sub_self]
      unfold blockMean
      rw [pow_zero, Finset.sum_range_one, Nat.shiftRight_zero, mul_one, Nat.add_zero,
        getD_map_of_lt Complex.arg a i 0 0 (by omega)]
      norm_num
    have hG : blockMean (a.map Complex.arg) n i =
        (∑ l in Finset.range (2 ^ n), (a.map Complex.arg).getD l 0) / 2 ^ n := by
      unfold blockMean
      congr 1
      apply Finset.sum_congr rfl
      intro l _
      rw [Nat.shiftRight_eq_div_pow, Nat.div_eq_of_lt hi, Nat.zero_mul, Nat.zero_add]
    rw [hm0, hG]
    exact conj_phase_term (a.getD i 0)
      ((∑ l in Finset.range (2 ^ n), (a.map Complex.arg).getD l 0) / 2 ^ n)
  unfold innerProd
  rw [Finset.sum_congr rfl hterm, ← Finset.mul_sum, ← Complex.ofReal_sum, hsum1]
  rw [Complex.ofReal_one, mul_one, Complex.abs_exp_ofReal_mul_I]
  norm_num

lemma MSP_ok (n : Nat) (v : List ℂ) (hlen : v.length = 2 ^ n)
    (hnorm : (v.map Complex.normSq).sum = 1) :
    MottonenStatePreparation (vec v) (List.range n) =
      .ok (mottonenGates v (List.range n)) := by
  unfold MottonenStatePreparation
  rw [if_neg (show ¬((vec v).shape.length ≠ 1) by simp [vec])]
  rw [if_neg (show ¬((vec v).data.length ≠ 2 ^ (List.range n).length) by
    simp [vec, hlen])]
  rw [if_neg (show ¬¬(|(((vec v).data.map Complex.normSq).sum) - 1| ≤ normAtol) by
    simp only [vec, hnorm]
    rw [sub_self, abs_zero]
    unfold normAtol
    norm_num)]
  rfl

/-- Modelled from the spec: C1, corrected.  For every normalized amplitude
vector over `n` wires that is either not all-real or all-real with a uniform
sign, the orchestrator accepts the input and emits the Mottonen gate sequence,
and executing that sequence from the all-zero state reproduces the target
vector up to a global phase: the fidelity `|⟨ψ_result|v⟩|²` equals 1 exactly.
The all-real mixed-sign inputs excluded by the hypothesis are genuine
counterexamples to the unrestricted claim (see the counterexample theorem):
for them the RZ phase pass is skipped, so the sign pattern cannot be
reproduced. -/
theorem mottonen_fidelity (n : Nat) (v : List ℂ) (hlen : v.length = 2 ^ n)
    (hnorm : (v.map Complex.normSq).sum = 1)
    (hph : (¬ ∀ c ∈ v, c.im = 0) ∨ (∀ c ∈ v, c.im = 0 ∧ 0 ≤ c.re) ∨
      (∀ c ∈ v, c.im = 0 ∧ c.re ≤ 0)) :
    MottonenStatePreparation (vec v) (List.range n) =
      .ok (mottonenGates v (List.range n)) ∧
    Complex.abs (innerProd n
      (runGates n (mottonenGates v (List.range n)) e0) v) ^ 2 = 1 := by
  refine ⟨MSP_ok n v hlen hnorm, ?_⟩
  rcases hph with him | hs
  · rw [mottonen_run_complex v n hlen hnorm him]
    exact innerProd_complexcase v n hlen hnorm
  · have him : ∀ c ∈ v, c.im = 0 := by
      rcases hs with h | h <;> exact fun c hc => (h c hc).1
    rw [mottonen_run_allreal v n hlen hnorm him]
    exact innerProd_allreal v n hlen hnorm hs

/-- Witness for C1 at the 1-wire basis vector `[1, 0]`. -/
theorem mottonen_fidelity_witness :
    ([(1:ℂ), 0].length = 2 ^ 1) ∧ (([(1:ℂ), 0].map Complex.normSq).sum = 1) ∧
    (MottonenStatePreparation (vec [(1:ℂ), 0]) (List.range 1) =
        .ok (mottonenGates [(1:ℂ), 0] (List.range 1)) ∧
      Complex.abs (innerProd 1
        (runGates 1 (mottonenGates [(1:ℂ), 0] (List.range 1)) e0) [(1:ℂ), 0]) ^ 2 = 1) := by
  have hn : (([(1:ℂ), 0].map Complex.normSq).sum) = 1 := by simp
  have hs : ∀ c ∈ [(1:ℂ), 0], c.im = 0 ∧ 0 ≤ c.re := by
    intro c hc
    simp at hc
    rcases hc with rfl | rfl <;> norm_num
  exact ⟨by simp, hn,
    mottonen_fidelity 1 [(1:ℂ), 0] (by simp) hn (Or.inr (Or.inl hs))⟩

/-- Counterexample to the unrestricted C1: the normalized all-real mixed-sign
vector `[1/√2, -1/√2]` on one wire passes validation and is prepared with the
RY cascade alone (the RZ pass is skipped because every imaginary part is
zero), but the resulting state `[1/√2, 1/√2]` has fidelity 0 with the target,
not 1. -/
theorem mottonen_fidelity_counterexample :
    ∃ (n : Nat) (v : List ℂ), v.length = 2 ^ n ∧ (v.map Complex.normSq).sum = 1 ∧
      MottonenStatePreparation (vec v) (List.range n) =
        .ok (mottonenGates v (List.range n)) ∧
      Complex.abs (innerProd n
        (runGates n (mottonenGates v (List.range n)) e0) v) ^ 2 ≠ 1 := by
  have hx : (0:ℝ) < (Real.sqrt 2)⁻¹ := by positivity
  have hxx : (Real.sqrt 2)⁻¹ * (Real.sqrt 2)⁻¹ = 1 / 2 := by
    rw [← mul_inv, Real.mul_self_sqrt (by norm_num : (0:ℝ) ≤ 2)]
    norm_num
  have h1 : Complex.normSq ((((Real.sqrt 2)⁻¹ : ℝ)) : ℂ) = 1 / 2 := by
    rw [Complex.normSq_ofReal, hxx]
  have h2 : Complex.normSq (((-(Real.sqrt 2)⁻¹ : ℝ)) : ℂ) = 1 / 2 := by
    rw [Complex.normSq_ofReal, show (-(Real.sqrt 2)⁻¹ * -(Real.sqrt 2)⁻¹ : ℝ) =
      (Real.sqrt 2)⁻¹ * (Real.sqrt 2)⁻¹ by ring, hxx]
  have hlen : [((((Real.sqrt 2)⁻¹ : ℝ)) : ℂ), (((-(Real.sqrt 2)⁻¹ : ℝ)) : ℂ)].length =
      2 ^ 1 := by simp
  have hn : (([((((Real.sqrt 2)⁻¹ : ℝ)) : ℂ),
      (((-(Real.sqrt 2)⁻¹ : ℝ)) : ℂ)].map Complex.normSq).sum) = 1 := by
    rw [List.map_cons, List.map_cons, List.map_nil, List.sum_cons, List.sum_cons,
      List.sum_nil, h1, h2]
    norm_num
  have him : ∀ c ∈ [((((Real.sqrt 2)⁻¹ : ℝ)) : ℂ), (((-(Real.sqrt 2)⁻¹ : ℝ)) : ℂ)],
      c.im = 0 := by
    intro c hc
    simp at hc
    rcases hc with rfl | rfl <;> simp
  refine ⟨1, [((((Real.sqrt 2)⁻¹ : ℝ)) : ℂ), (((-(Real.sqrt 2)⁻¹ : ℝ)) : ℂ)], hlen, hn,
    MSP_ok 1 _ hlen hn, ?_⟩
  rw [mottonen_run_allreal _ 1 hlen hn him]
  have hip : innerProd 1
      (ryState [((((Real.sqrt 2)⁻¹ : ℝ)) : ℂ), (((-(Real.sqrt 2)⁻¹ : ℝ)) : ℂ)] 1 1)
      [((((Real.sqrt 2)⁻¹ : ℝ)) : ℂ), (((-(Real.sqrt 2)⁻¹ : ℝ)) : ℂ)] = 0 := by
    unfold innerProd
    rw [show (2:ℕ) ^ 1 = 2 by norm_num, Finset.sum_range_succ, Finset.sum_range_one]
    rw [ryState_final _ 1 0 (by norm_num), ryState_final _ 1 1 (by norm_num)]
    simp only [List.getD_cons_zero, List.getD_cons_succ]
    rw [Complex.conj_ofReal, Complex.conj_ofReal]
    have hs0 : Real.sqrt (Complex.normSq ((((Real.sqrt 2)⁻¹ : ℝ)) : ℂ)) =
        (Real.sqrt 2)⁻¹ := by
      rw [Complex.normSq_ofReal]
      exact Real.sqrt_mul_self (le_of_lt hx)
    have hs1 : Real.sqrt (Complex.normSq (((-(Real.sqrt 2)⁻¹ : ℝ)) : ℂ)) =
        (Real.sqrt 2)⁻¹ := by
      rw [Complex.normSq_ofReal, show (-(Real.sqrt 2)⁻¹ * -(Real.sqrt 2)⁻¹ : ℝ) =
        (Real.sqrt 2)⁻¹ * (Real.sqrt 2)⁻¹ by ring]
      exact Real.sqrt_mul_self (le_of_lt hx)
    rw [hs0, hs1]
    push_cast
    ring
  rw [hip]
  simp

end PennyLane
